import Mathlib

/-!
Verification of the kingdom resource-production simulation engine.

This file gives a shallow embedding, over exact rationals, of the core of the
Python backend (`core/inventory.py`, `core/jobs.py`, `core/buildings.py`,
`core/trade.py`, `core/timeclock.py`, `core/game_state.py`) and proves or
refutes the specification claims about it.  Python `float` arithmetic is
modelled by `ℚ`; the literal tolerances `1e-9` and `1e-6` used by the code are
kept as exact rational constants.  Python dicts that the code iterates over are
modelled as insertion-ordered association lists; the inventory's quantity and
capacity tables, which are only ever indexed pointwise, are modelled as
functions.
-/

namespace Kingdom

/-- The floating-point tolerance `1e-9` used by `Inventory.has`, `Inventory.add`
and several comparisons in `game_state.py`. -/
def eps9 : ℚ := 1 / 1000000000

/-- The coarser tolerance `1e-6` used by the trade channels and the
storage-full notification check. -/
def eps6 : ℚ := 1 / 1000000

/-- Resource keys.  `core/resources.py` defines `Resource` as a `str` enum
(`"WOOD"`, `"GOLD"`, ...); we identify a resource with its string value. -/
abbrev Resource := String

/-- A Python `Dict[Resource, float]` in insertion order. -/
abbrev ResMap := List (Resource × ℚ)

/-- Total amount a resource map assigns to `r` (the sum over all entries with
key `r`; the dicts built by the code have unique keys, for which this is the
plain lookup with default `0`). -/
def amountOf : ResMap → Resource → ℚ
  | [], _ => 0
  | (k, v) :: rest, r => (if k = r then v else 0) + amountOf rest r

/-- `dict.get(k, d)` on an association list. -/
def getD (m : ResMap) (k : Resource) (d : ℚ) : ℚ :=
  match m.find? (fun p => p.1 = k) with
  | some p => p.2
  | none => d

/-- Python `int(x)` on a float: truncation toward zero. -/
def truncQ (x : ℚ) : ℤ := if x < 0 then -⌊-x⌋ else ⌊x⌋

/-- `dict[k] = dict.get(k, 0) + a` : accumulate into an association list,
updating the existing entry in place (Python dicts keep insertion order and
have no duplicate keys, so updating the first occurrence is the dict
behaviour) or appending a fresh entry at the end. -/
def addToMap : ResMap → Resource → ℚ → ResMap
  | [], r, a => [(r, a)]
  | (k, v) :: rest, r, a =>
      if k = r then (k, v + a) :: rest else (k, v) :: addToMap rest r a

/-! ## Inventory (`core/inventory.py`)

`Inventory.quantities` defaults every resource to `0.0` and
`Inventory.capacities` is a partial map, so we model them as a total function
`Resource → ℚ` and a function `Resource → Option ℚ`.  The notifier callback
only emits user-facing strings and is not modelled. -/

structure Inventory where
  quantities : Resource → ℚ
  capacities : Resource → Option ℚ

/-- `Inventory.get_capacity`. -/
def Inventory.getCapacity (inv : Inventory) (r : Resource) : Option ℚ :=
  inv.capacities r

/-- `Inventory.get_amount`. -/
def Inventory.getAmount (inv : Inventory) (r : Resource) : ℚ :=
  inv.quantities r

/-- `Inventory.set_amount`: stores `max(0.0, amount)`, ignoring any capacity. -/
def Inventory.setAmount (inv : Inventory) (r : Resource) (a : ℚ) : Inventory :=
  { inv with quantities := fun x => if x = r then max 0 a else inv.quantities x }

/-- `Inventory.set_capacity`: stores `max(0.0, capacity)` and, when the current
amount exceeds the *raw* `capacity` argument, writes that raw value into the
quantity table. -/
def Inventory.setCapacity (inv : Inventory) (r : Resource) (c : ℚ) : Inventory :=
  let inv1 : Inventory :=
    { inv with capacities := fun x => if x = r then some (max 0 c) else inv.capacities x }
  if inv.quantities r > c then
    { inv1 with quantities := fun x => if x = r then c else inv1.quantities x }
  else inv1

/-- `Inventory._remaining_capacity`. -/
def Inventory.remainingCapacity (inv : Inventory) (r : Resource) : Option ℚ :=
  match inv.getCapacity r with
  | none => none
  | some capacity => some (max 0 (capacity - inv.quantities r))

/-- `Inventory.has`: every requirement is met up to the `1e-9` tolerance. -/
def Inventory.has (inv : Inventory) (requirements : ResMap) : Bool :=
  requirements.all fun p => decide (p.2 ≤ inv.quantities p.1 + eps9)

/-- The mutation loop of `Inventory.consume` (entries with `amount <= 0` are
skipped; each debit clamps at zero). -/
def consumeList (inv : Inventory) (l : ResMap) : Inventory :=
  l.foldl
    (fun acc p =>
      if p.2 ≤ 0 then acc
      else
        { acc with
          quantities := fun x =>
            if x = p.1 then max 0 (acc.quantities p.1 - p.2) else acc.quantities x })
    inv

/-- `Inventory.consume`: all-or-nothing debit guarded by `has`. -/
def Inventory.consume (inv : Inventory) (l : ResMap) : Bool × Inventory :=
  if inv.has l then (true, consumeList inv l) else (false, inv)

/-- One iteration of the `Inventory.add` loop: returns the updated
(residual, inventory) accumulator. -/
def addStep (acc : ResMap × Inventory) (p : Resource × ℚ) : ResMap × Inventory :=
  if p.2 ≤ 0 then acc
  else
    let inv := acc.2
    let current := inv.quantities p.1
    match inv.capacities p.1 with
    | none =>
        (acc.1,
          { inv with
            quantities := fun x =>
              if x = p.1 then max 0 (current + p.2) else inv.quantities x })
    | some capacity =>
        let allowed := min p.2 (max 0 (capacity - current))
        let inv' : Inventory :=
          { inv with
            quantities := fun x =>
              if x = p.1 then max 0 (current + allowed) else inv.quantities x }
        let leftover := p.2 - allowed
        if leftover > eps9 then (acc.1 ++ [(p.1, leftover)], inv') else (acc.1, inv')

/-- `Inventory.add`: credits up to capacity per resource and returns the
residual map of refused amounts. -/
def Inventory.add (inv : Inventory) (l : ResMap) : ResMap × Inventory :=
  l.foldl addStep ([], inv)

/-- `Inventory.bulk_load`: overwrite quantities, then capacities, clamping each
at zero but never reconciling the two. -/
def Inventory.bulkLoad (inv : Inventory) (qs cs : ResMap) : Inventory :=
  let inv1 := qs.foldl
    (fun acc p =>
      { acc with
        quantities := fun x => if x = p.1 then max 0 p.2 else acc.quantities x })
    inv
  cs.foldl
    (fun acc p =>
      { acc with
        capacities := fun x => if x = p.1 then some (max 0 p.2) else acc.capacities x })
    inv1

/-- Modelled from the spec: `can_add` is called by `Building._attempt_cycle`,
`Building._tick_continuous` and `GameState._building_can_produce` but is not
defined in `inventory.py` (the method is missing from the sources under
verification).  Per §4.1/§4.2 it fails exactly when some credited amount would
exceed the remaining capacity of its resource. -/
def Inventory.canAdd (inv : Inventory) (l : ResMap) : Bool :=
  l.all fun p =>
    if p.2 ≤ 0 then true
    else
      match inv.capacities p.1 with
      | none => true
      | some capacity => decide (inv.quantities p.1 + p.2 ≤ capacity)

/-- Modelled from the spec: the reservation token returned by
`Inventory.reserve`, holding the snapshot of the earmarked resources taken at
reservation time (§4.1: `rollback(token)` restores that snapshot). -/
structure ResToken where
  snapshot : ResMap

/-- Modelled from the spec: `reserve(amounts) → token | none` is called by
`Building._tick_continuous` but is not defined in `inventory.py`.  Per §4.1 it
atomically earmarks (debits) the amounts after a `has` check, returning a
token that snapshots the earmarked resources, or `none` when the stock is
insufficient. -/
def Inventory.reserve (inv : Inventory) (l : ResMap) : Option (ResToken × Inventory) :=
  if inv.has l then
    some (⟨l.map fun p => (p.1, inv.quantities p.1)⟩, consumeList inv l)
  else none

/-- Modelled from the spec: `rollback(token)` restores the snapshot taken at
reservation time (§4.1); missing from `inventory.py`. -/
def Inventory.rollback (inv : Inventory) (token : ResToken) : Inventory :=
  token.snapshot.foldl
    (fun acc p =>
      { acc with quantities := fun x => if x = p.1 then p.2 else acc.quantities x })
    inv

/-- Modelled from the spec: `commit(token)` finalizes the debit performed at
reservation time (§4.1); missing from `inventory.py`.  The debit already
happened in `reserve`, so committing discards the token. -/
def Inventory.commit (inv : Inventory) (_ : ResToken) : Inventory :=
  inv

/-! ## Building recipes and buildings (`core/config.py`, `core/buildings.py`) -/

/-- `config.BuildingRecipe`. -/
structure BuildingRecipe where
  inputs : ResMap
  outputs : ResMap
  cycle_time : ℚ
  max_workers : ℤ
  capacity : Option ResMap := none
  maintenance : ResMap := []
  per_worker_output_rate : Option ResMap := none
  per_worker_input_rate : Option ResMap := none

/-- The per-tick production report (`Building._new_report` fields, defaults
included). -/
structure Report where
  status : String := "inactive"
  consumed : ResMap := []
  produced : ResMap := []
  reason : Option String := some "inactive"
  detail : Option String := none

/-- `buildings.Building`.  Presentation-only fields (name labels, icons, job
metadata, category) are reduced to `name`; `id` is derived below.  The private
attributes `_maintenance_notified` and `_last_effective_rate` are ordinary
fields here. -/
structure Building where
  type_key : String
  recipe : BuildingRecipe
  name : String
  built : ℤ := 0
  enabled : Bool := true
  assigned_workers : ℤ := 0
  cycle_progress : ℚ := 0
  status : String := "pausado"
  maintenance_notified : Bool := false
  last_effective_rate : ℚ := 0
  production_report : Report := {}

/-- `Building.id` is `config.resolve_building_public_id(type_key)`;
`config.BUILDING_PUBLIC_IDS` maps every canonical type key to itself, so the
id equals the type key. -/
def Building.id (b : Building) : String := b.type_key

/-- `Building._built_multiplier`: `max(0.0, float(built))` (the `bool` and
non-numeric branches do not arise for an integer `built`). -/
def Building.builtMultiplier (b : Building) : ℚ := max 0 (b.built : ℚ)

/-- `Building.max_workers`: zero when nothing is built, otherwise
`int(recipe.max_workers * built_multiplier)`, which for an integer `built > 0`
is the exact integer product. -/
def Building.maxWorkers (b : Building) : ℤ :=
  if b.builtMultiplier ≤ 0 then 0 else b.recipe.max_workers * b.built

/-- `Building.built_count`: `int(multiplier)` when positive else `0`,
i.e. `max 0 built`. -/
def Building.builtCount (b : Building) : ℤ := max 0 b.built

/-- `Building._modifier_multiplier` over a modifier mapping: the product of
the mapping's values (we pass the value list; `None` corresponds to `[]`). -/
def modMultiplier (modifiers : List ℚ) : ℚ := modifiers.foldl (· * ·) 1

/-- `Building.effective_rate`. -/
def Building.effectiveRate (b : Building) (workers : ℤ) (modifiers : List ℚ) : ℚ :=
  let base : ℚ :=
    if b.maxWorkers ≤ 0 then 0
    else min 1 (max 0 ((workers : ℚ) / (b.maxWorkers : ℚ)))
  base * modMultiplier modifiers

/-- `Building._inactive_reason` (`not self.built` is true exactly for
`built == 0`). -/
def Building.inactiveReason (b : Building) : Option String :=
  if b.built = 0 then some "inactive"
  else if !b.enabled then some "inactive"
  else if b.assigned_workers ≤ 0 ∨ b.maxWorkers ≤ 0 then some "no_workers"
  else none

/-- `Building._apply_inactive_status`. -/
def Building.applyInactiveStatus (b : Building) (reason : String) : Building :=
  let st := if reason = "inactive" ∧ b.built = 0 then "no_construido" else "pausado"
  let b1 := { b with status := st }
  let b2 := if reason ≠ "missing_input" then { b1 with maintenance_notified := false } else b1
  { b2 with cycle_progress := 0 }

/-- `Building._apply_missing_input_status`; `notify` is modelled by appending
to the notification list. -/
def Building.applyMissingInputStatus (b : Building) (detail : Option String)
    (notes : List String) : Building × List String :=
  if detail = some "maintenance" then
    let b1 := { b with status := "falta_mantenimiento" }
    if !b.maintenance_notified then
      ({ b1 with maintenance_notified := true },
        notes ++ [b.name ++ " en pausa: falta mantenimiento"])
    else (b1, notes)
  else ({ b with status := "falta_insumos", maintenance_notified := false }, notes)

/-- `Building._first_missing_resource`. -/
def firstMissingResource (requirements : ResMap) (inv : Inventory) : Option Resource :=
  match requirements.find? (fun p => decide (0 < p.2) && decide (inv.quantities p.1 + eps9 < p.2)) with
  | some p => some p.1
  | none => (requirements.find? (fun p => decide (0 < p.2))).map Prod.fst

/-- `Building._combine_resources` on two maps (the only arity used). -/
def combineResources (d1 d2 : ResMap) : ResMap :=
  (d2.foldl (fun acc p => if p.2 ≤ 0 then acc else addToMap acc p.1 p.2)
    (d1.foldl (fun acc p => if p.2 ≤ 0 then acc else addToMap acc p.1 p.2) []))

/-- `Building._accumulate`. -/
def accumulate (target addition : ResMap) : ResMap :=
  addition.foldl (fun acc p => if p.2 ≤ 0 then acc else addToMap acc p.1 p.2) target

/-- `Building._restore_inventory`: write each snapshotted amount back through
`set_amount`. -/
def restoreInventory (inv : Inventory) (snapshot : ResMap) : Inventory :=
  snapshot.foldl (fun acc p => acc.setAmount p.1 p.2) inv

/-- `Building._resources_to_payload` (resources are already string keys). -/
def resourcesToPayload (m : ResMap) : ResMap :=
  m.filter fun p => decide (0 < p.2)

/-- The result tuple of `Building._attempt_cycle`, together with the threaded
inventory. -/
structure CycleResult where
  success : Bool
  consumed : ResMap
  produced : ResMap
  failure_reason : Option String
  failure_detail : Option String
  inv : Inventory

/-- `Building._attempt_cycle`. -/
def Building.attemptCycle (b : Building) (inv : Inventory) : CycleResult :=
  let maintenance := b.recipe.maintenance
  let inputs := b.recipe.inputs
  if maintenance ≠ [] ∧ ¬ inv.has maintenance then
    let detail := match firstMissingResource maintenance inv with
      | some r => r
      | none => "maintenance"
    ⟨false, [], [], some "missing_input", some detail, inv⟩
  else if inputs ≠ [] ∧ ¬ inv.has inputs then
    let detail := match firstMissingResource inputs inv with
      | some r => r
      | none => "inputs"
    ⟨false, [], [], some "missing_input", some detail, inv⟩
  else
    let combined := combineResources inputs maintenance
    let outputs := b.recipe.outputs
    if outputs ≠ [] ∧ ¬ inv.canAdd outputs then
      ⟨false, [], [], some "no_capacity", none, inv⟩
    else
      let touched := (combined.map Prod.fst ++ outputs.map Prod.fst).dedup
      let before : ResMap := touched.map fun r => (r, inv.quantities r)
      let consumeRes := inv.consume combined
      if combined ≠ [] ∧ ¬ consumeRes.1 then
        let restored := restoreInventory consumeRes.2 before
        let detail := (firstMissingResource combined restored).map (fun r => r)
        ⟨false, [], [], some "missing_input", detail, restored⟩
      else
        let addRes := consumeRes.2.add outputs
        if addRes.1 ≠ [] then
          ⟨false, [], [], some "no_capacity", none, restoreInventory addRes.2 before⟩
        else
          ⟨true, combined, outputs, none, none, addRes.2⟩

/-- The state carried by the `while cycles_to_attempt > 0` loop of
`Building.tick`: building, inventory, notifications, total consumed/produced,
and the final status/reason/detail trio. -/
structure LoopState where
  b : Building
  inv : Inventory
  notes : List String
  totalConsumed : ResMap
  totalProduced : ResMap
  finalStatus : String
  finalReason : Option String
  finalDetail : Option String

/-- The discrete production loop of `Building.tick`, running at most
`cycles_to_attempt` iterations and stopping at the first failed cycle. -/
def cycleLoop : ℕ → LoopState → LoopState
  | 0, s => s
  | n + 1, s =>
    let res := s.b.attemptCycle s.inv
    if res.success then
      let b' := { s.b with
        maintenance_notified := false,
        cycle_progress := s.b.cycle_progress - s.b.recipe.cycle_time }
      cycleLoop n
        { b := b', inv := res.inv, notes := s.notes,
          totalConsumed := accumulate s.totalConsumed res.consumed,
          totalProduced := accumulate s.totalProduced res.produced,
          finalStatus := "produced", finalReason := none, finalDetail := s.finalDetail }
    else if res.failure_reason = some "missing_input" then
      let mi := s.b.applyMissingInputStatus res.failure_detail s.notes
      let b' := { mi.1 with cycle_progress := min mi.1.cycle_progress mi.1.recipe.cycle_time }
      { s with
        b := b', inv := res.inv, notes := mi.2,
        finalStatus := "stalled", finalReason := some "missing_input",
        finalDetail := res.failure_detail }
    else if res.failure_reason = some "no_capacity" then
      let b' := { s.b with
        status := "capacidad_llena",
        cycle_progress := min s.b.cycle_progress s.b.recipe.cycle_time }
      { s with
        b := b', inv := res.inv,
        finalStatus := "stalled", finalReason := some "no_capacity" }
    else
      { s with inv := res.inv, finalStatus := "inactive", finalReason := res.failure_reason }

/-- The result of one building tick: updated building, inventory, report and
notifications. -/
structure TickOutcome where
  b : Building
  inv : Inventory
  report : Report
  notes : List String

/-- The `effective_workers` computation of `Building._tick_continuous`:
fold over the per-worker input rates, lowering the worker count to what each
input's stock can sustain this tick and remembering the limiting resource. -/
def contLimits (b : Building) (dt : ℚ) (inv : Inventory) (multiplier : ℚ) :
    ℤ × Option Resource :=
  (b.recipe.per_worker_input_rate.getD []).foldl
    (fun (acc : ℤ × Option Resource) p =>
      let required_per_worker := p.2 * multiplier * dt
      if required_per_worker ≤ 0 then acc
      else
        let available := inv.getAmount p.1
        let possible := truncQ ((available + eps9) / required_per_worker)
        let limiting := if possible < acc.1 then some p.1 else acc.2
        (min acc.1 possible, limiting))
    (max 0 b.assigned_workers, none)

/-- The consumption map of `Building._tick_continuous` for a given effective
worker count. -/
def contConsumption (b : Building) (dt : ℚ) (multiplier : ℚ) (effective : ℤ) : ResMap :=
  (b.recipe.per_worker_input_rate.getD []).filterMap fun p =>
    let amount := (effective : ℚ) * p.2 * multiplier * dt
    if 0 < amount then some (p.1, amount) else none

/-- The production map of `Building._tick_continuous` for a given effective
worker count. -/
def contProduction (b : Building) (dt : ℚ) (multiplier : ℚ) (effective : ℤ) : ResMap :=
  (b.recipe.per_worker_output_rate.getD []).filterMap fun p =>
    let amount := (effective : ℚ) * p.2 * multiplier * dt
    if 0 < amount then some (p.1, amount) else none

/-- `Building._tick_continuous`. -/
def Building.tickContinuous (b : Building) (dt : ℚ) (inv : Inventory)
    (modifiers : List ℚ) (notes : List String) : TickOutcome :=
  let multiplier := modMultiplier modifiers
  if multiplier ≤ 0 then
    let b1 := b.applyInactiveStatus "inactive"
    let b2 := { b1 with last_effective_rate := 0, cycle_progress := 0 }
    let report : Report := { status := "inactive", reason := some "inactive" }
    ⟨{ b2 with production_report := report }, inv, report, notes⟩
  else
    let workers := max 0 b.assigned_workers
    let per_worker_outputs := b.recipe.per_worker_output_rate.getD []
    if workers ≤ 0 ∨ per_worker_outputs = [] then
      let b1 := b.applyInactiveStatus "inactive"
      let b2 := { b1 with last_effective_rate := 0, cycle_progress := 0 }
      let report : Report := { status := "inactive", reason := some "inactive" }
      ⟨{ b2 with production_report := report }, inv, report, notes⟩
    else
      let limits := contLimits b dt inv multiplier
      let effective := limits.1
      let missingOutcome : TickOutcome :=
        let detail := match limits.2 with
          | some r => r
          | none => "inputs"
        let mi := b.applyMissingInputStatus (some detail) notes
        let b2 := { mi.1 with last_effective_rate := 0, cycle_progress := 0 }
        let report : Report :=
          { status := "stalled", reason := some "missing_input", detail := some detail }
        ⟨{ b2 with production_report := report }, inv, report, mi.2⟩
      if effective ≤ 0 then missingOutcome
      else
        let consumption := contConsumption b dt multiplier effective
        let produced_amounts := contProduction b dt multiplier effective
        let reserved : Option (Option ResToken × Inventory) :=
          if consumption ≠ [] then
            match inv.reserve consumption with
            | none => none
            | some (token, inv') => some (some token, inv')
          else some (none, inv)
        match reserved with
        | none => missingOutcome
        | some (token?, inv1) =>
          let b1 := { b with last_effective_rate := multiplier, cycle_progress := 0 }
          if produced_amounts ≠ [] ∧ ¬ inv1.canAdd produced_amounts then
            let inv2 := match token? with
              | some token => inv1.rollback token
              | none => inv1
            let b2 := { b1 with status := "capacidad_llena" }
            let report : Report := { status := "stalled", reason := some "no_capacity" }
            ⟨{ b2 with production_report := report }, inv2, report, notes⟩
          else
            let inv2 := match token? with
              | some token => inv1.commit token
              | none => inv1
            let addRes := inv2.add produced_amounts
            if !addRes.1.isEmpty then
              let inv3 := consumption.foldl
                (fun acc p => acc.setAmount p.1 (acc.getAmount p.1 + p.2)) addRes.2
              let b2 := { b1 with status := "capacidad_llena" }
              let report : Report := { status := "stalled", reason := some "no_capacity" }
              ⟨{ b2 with production_report := report }, inv3, report, notes⟩
            else
              let b2 := { b1 with status := "ok", maintenance_notified := false }
              let report : Report :=
                { status := "produced", reason := none,
                  consumed := resourcesToPayload consumption,
                  produced := resourcesToPayload produced_amounts }
              ⟨{ b2 with production_report := report }, addRes.2, report, notes⟩

/-- Python truthiness of `self.per_worker_output_rate` — `None` and the empty
dict are both falsy. -/
def truthyRates : Option ResMap → Bool
  | none => false
  | some l => !l.isEmpty

/-- `Building.tick`: dispatches between the inactive, continuous and
discrete-cycle paths and stores the production report. -/
def Building.tick (b : Building) (dt : ℚ) (inv : Inventory)
    (modifiers : List ℚ) (notes : List String) : TickOutcome :=
  match b.inactiveReason with
  | some reason =>
      let b1 := b.applyInactiveStatus reason
      let report : Report := { status := "inactive", reason := some reason }
      let b2 := { b1 with last_effective_rate := 0, production_report := report }
      ⟨b2, inv, report, notes⟩
  | none =>
    if truthyRates b.recipe.per_worker_output_rate then
      b.tickContinuous dt inv modifiers notes
    else
      let rate := b.effectiveRate b.assigned_workers modifiers
      let b0 := { b with last_effective_rate := rate }
      if rate ≤ 0 then
        let b1 := b0.applyInactiveStatus "inactive"
        let report : Report := { status := "inactive", reason := some "inactive" }
        ⟨{ b1 with production_report := report }, inv, report, notes⟩
      else
        let b1 := { b0 with cycle_progress := b0.cycle_progress + dt * rate }
        let cyclesToAttempt : ℤ := ⌊b1.cycle_progress / b1.recipe.cycle_time⌋
        if cyclesToAttempt ≤ 0 then
          let report : Report := { status := "inactive", reason := some "inactive" }
          ⟨{ b1 with production_report := report }, inv, report, notes⟩
        else
          let final := cycleLoop cyclesToAttempt.toNat
            { b := b1, inv := inv, notes := notes, totalConsumed := [],
              totalProduced := [], finalStatus := "inactive",
              finalReason := some "inactive", finalDetail := none }
          let report : Report :=
            { status := final.finalStatus,
              reason := final.finalReason,
              consumed := resourcesToPayload final.totalConsumed,
              produced := resourcesToPayload final.totalProduced,
              detail := final.finalDetail }
          let b2 := if final.finalStatus = "produced"
            then { final.b with status := "ok" } else final.b
          ⟨{ b2 with production_report := report }, final.inv, report, final.notes⟩

/-! ## Worker pool (`core/jobs.py`)

The pool's `_buildings` dict maps building ids to the (shared, mutable)
`Building` objects; we model it as a list of buildings with distinct ids, and
model in-place mutation of a registered building by replacing the entry with
the same id. -/

structure WorkerPool where
  total_workers : ℤ
  buildings : List Building

/-- `WorkerPool.register_building`: `self._buildings[building.id] = building`
(replaces in place or appends). -/
def WorkerPool.registerBuilding (pool : WorkerPool) (b : Building) : WorkerPool :=
  if pool.buildings.any (fun x => x.id = b.id) then
    { pool with buildings := pool.buildings.map fun x => if x.id = b.id then b else x }
  else { pool with buildings := pool.buildings ++ [b] }

/-- The sum `Σ max(0, assigned_workers)` over registered buildings. -/
def WorkerPool.sumAssigned (pool : WorkerPool) : ℤ :=
  pool.buildings.foldl (fun acc b => acc + max 0 b.assigned_workers) 0

/-- `WorkerPool.available_workers`: recomputed, never cached. -/
def WorkerPool.availableWorkers (pool : WorkerPool) : ℤ :=
  max 0 (pool.total_workers - pool.sumAssigned)

/-- `WorkerPool.get_assignment`. -/
def WorkerPool.getAssignment (pool : WorkerPool) (bid : String) : ℤ :=
  match pool.buildings.find? (fun x => x.id = bid) with
  | some b => max 0 b.assigned_workers
  | none => 0

/-- `WorkerPool.assign_workers`: raises `WorkerAllocationError` (modelled as
`Except.error`) instead of granting partially; on success returns the full
requested number. -/
def WorkerPool.assignWorkers (pool : WorkerPool) (b : Building) (number : ℤ) :
    Except String (ℤ × WorkerPool) :=
  if number ≤ 0 then .ok (0, pool)
  else
    let pool1 := pool.registerBuilding b
    let room := b.maxWorkers - b.assigned_workers
    if room ≤ 0 then .error "Capacidad máxima del edificio alcanzada"
    else
      let available := pool1.availableWorkers
      if available ≤ 0 then .error "No hay población disponible"
      else if number > available then .error "No hay suficientes trabajadores disponibles"
      else if number > room then .error "Capacidad máxima del edificio alcanzada"
      else
        let b' := { b with assigned_workers := b.assigned_workers + number }
        .ok (number, pool1.registerBuilding b')

/-- `WorkerPool.unassign_workers`: the in-place decrement of the shared
building object is modelled by updating the registered entry with the same
id. -/
def WorkerPool.unassignWorkers (pool : WorkerPool) (b : Building) (number : ℤ) :
    ℤ × WorkerPool :=
  if number ≤ 0 then (0, pool)
  else
    let current := pool.getAssignment b.id
    let removed := min number current
    if removed ≤ 0 then (0, pool)
    else
      let b' := { b with assigned_workers := max 0 (b.assigned_workers - removed) }
      (removed,
        { pool with buildings := pool.buildings.map fun x => if x.id = b.id then b' else x })

/-- `WorkerPool.set_assignment`: clamps only against the building's
`max_workers`, never against the available population. -/
def WorkerPool.setAssignment (pool : WorkerPool) (b : Building) (number : ℤ) : WorkerPool :=
  let value := max 0 (min number b.maxWorkers)
  let pool1 := pool.registerBuilding b
  { pool1 with
    buildings := pool1.buildings.map fun x =>
      if x.id = b.id then { b with assigned_workers := value } else x }

/-- `WorkerPool.set_total_workers`. -/
def WorkerPool.setTotalWorkers (pool : WorkerPool) (total : ℤ) : WorkerPool :=
  { pool with total_workers := max 0 total }

/-- `WorkerPool.bulk_load_assignments`: an empty payload clears the registry;
otherwise each known id is set through `set_assignment`. -/
def WorkerPool.bulkLoadAssignments (pool : WorkerPool)
    (assignments : List (String × ℤ)) : WorkerPool :=
  if assignments.isEmpty then { pool with buildings := [] }
  else
    assignments.foldl
      (fun acc p =>
        match acc.buildings.find? (fun x => x.id = p.1) with
        | none => acc
        | some b => acc.setAssignment b p.2)
      pool

/-! ## Trade channels (`core/trade.py`) -/

structure TradeChannel where
  resource : Resource
  mode : String
  rate_per_min : ℚ
  price_per_unit : ℚ

/-- The tail of `TradeChannel._handle_import` shared by the reduced and
unreduced paths: debit gold, credit the resource up to capacity, refund the
residual in gold, and auto-pause when the whole amount was refused. -/
def TradeChannel.importBody (c : TradeChannel) (amount cost : ℚ) (inv : Inventory)
    (notes : List String) : TradeChannel × Inventory × List String :=
  let inv1 := if 0 < cost then (inv.consume [("GOLD", cost)]).2 else inv
  let addRes := inv1.add [(c.resource, amount)]
  let leftover := getD addRes.1 c.resource 0
  if leftover > eps6 then
    let refund := leftover * c.price_per_unit
    let inv2 := if 0 < refund then (addRes.2.add [("GOLD", refund)]).2 else addRes.2
    if leftover ≥ amount - eps6 then
      ({ c with mode := "pause" }, inv2,
        notes ++ ["Comercio de " ++ c.resource ++ " pausado: almacén sin espacio"])
    else
      (c, inv2,
        notes ++ ["Comercio de " ++ c.resource ++ ": importación limitada por capacidad"])
  else (c, addRes.2, notes)

/-- `TradeChannel._handle_import`. -/
def TradeChannel.handleImport (c : TradeChannel) (amount : ℚ) (inv : Inventory)
    (notes : List String) : TradeChannel × Inventory × List String :=
  let cost := amount * c.price_per_unit
  let available_gold := inv.getAmount "GOLD"
  if cost > available_gold + eps9 then
    if c.price_per_unit ≤ 0 then (c, inv, notes)
    else
      let possible_amount := available_gold / c.price_per_unit
      if possible_amount ≤ eps6 then
        ({ c with mode := "pause" }, inv,
          notes ++ ["Comercio de " ++ c.resource ++ " pausado: falta GOLD"])
      else
        c.importBody possible_amount (possible_amount * c.price_per_unit) inv
          (notes ++ ["Comercio de " ++ c.resource ++ ": importación reducida por falta de GOLD"])
  else c.importBody amount cost inv notes

/-- `TradeChannel._handle_export`. -/
def TradeChannel.handleExport (c : TradeChannel) (amount : ℚ) (inv : Inventory)
    (notes : List String) : TradeChannel × Inventory × List String :=
  let available := inv.getAmount c.resource
  if available ≤ eps6 then
    ({ c with mode := "pause" }, inv,
      notes ++ ["Comercio de " ++ c.resource ++ " pausado: sin stock"])
  else
    let actual := min amount available
    let inv1 := (inv.consume [(c.resource, actual)]).2
    let gold_gain := actual * c.price_per_unit
    let inv2 := (inv1.add [("GOLD", gold_gain)]).2
    if actual < amount - eps6 then
      (c, inv2,
        notes ++ ["Comercio de " ++ c.resource ++ ": exportación limitada por bajo stock"])
    else (c, inv2, notes)

/-- `TradeChannel.tick`. -/
def TradeChannel.tick (c : TradeChannel) (dt : ℚ) (inv : Inventory)
    (notes : List String) : TradeChannel × Inventory × List String :=
  let amount := c.rate_per_min * dt / 60
  if c.mode = "pause" ∨ amount ≤ 0 then (c, inv, notes)
  else if c.mode = "import" then c.handleImport amount inv notes
  else if c.mode = "export" then c.handleExport amount inv notes
  else (c, inv, notes)

/-! ## Season clock (`core/timeclock.py`) -/

structure SeasonClock where
  seasons : List String
  ticks_per_season : ℚ
  current_index : ℕ
  tick_within_season : ℚ
  season_modifiers : List (String × ResMap)

/-- `SeasonClock.update`: the `while` loop wraps ⌊t / duration⌋ times when the
accumulated offset reaches the season duration (closed form of the loop). -/
def SeasonClock.update (clock : SeasonClock) (dt : ℚ) : SeasonClock :=
  if dt ≤ 0 then clock
  else
    let t := clock.tick_within_season + dt
    if clock.ticks_per_season > 0 ∧ t ≥ clock.ticks_per_season then
      let wraps := (⌊t / clock.ticks_per_season⌋).toNat
      { clock with
        tick_within_season := t - wraps * clock.ticks_per_season,
        current_index := (clock.current_index + wraps) % clock.seasons.length }
    else { clock with tick_within_season := t }

/-- `SeasonClock.get_current_season` (Python indexing assumes the index is in
range; out of range we return `""`). -/
def SeasonClock.currentSeason (clock : SeasonClock) : String :=
  clock.seasons.getD clock.current_index ""

/-- `self._season_modifiers.get(season_name, {})`. -/
def lookupSeason (m : List (String × ResMap)) (k : String) : ResMap :=
  match m.find? (fun p => p.1 = k) with
  | some p => p.2
  | none => []

/-- `SeasonClock.get_modifiers` for a non-empty building tag, returning the
value list of the `{"global": m0, tag: m1}` dict (a tag equal to `"global"`
collapses to a single key). -/
def SeasonClock.getModifiers (clock : SeasonClock) (tag : String) : List ℚ :=
  let sm := lookupSeason clock.season_modifiers clock.currentSeason
  let g := getD sm "global" 1
  if tag = "global" then [g] else [g, getD sm tag 1]

/-! ## Orchestrator (`core/game_state.py`)

We model the parts of `GameState` the claims depend on: the inventory, the
building collection (a dict keyed by id, modelled as a list with distinct
ids), the trade channels, the season clock, the notification queue and the
bespoke wood-subsystem scalars.  The tick counter, the state-version counter,
population bookkeeping and the logging/report-snapshot plumbing have no
effect on any resource amount and are not modelled. -/

/-- `config.WOODCUTTER_CAMP`. -/
def WOODCUTTER_CAMP : String := "woodcutter_camp"

/-- `config.BUILD_COSTS` (the full table; building types absent from the
update block keep the empty default). -/
def BUILD_COSTS (type_key : String) : ResMap :=
  if type_key = "woodcutter_camp" then [("WOOD", 10), ("GOLD", 5)]
  else if type_key = "stick_gathering_tent" then [("GOLD", 1)]
  else if type_key = "stone_gathering_tent" then [("GOLD", 2)]
  else if type_key = "lumber_camp" then [("WOOD", 20), ("TOOLS", 2)]
  else if type_key = "forester_camp" then [("WOOD", 15)]
  else if type_key = "sawmill" then [("WOOD", 25), ("PLANK", 5)]
  else if type_key = "blacksmith" then [("STONE", 20), ("PLANK", 10)]
  else if type_key = "cooperage" then [("PLANK", 15), ("IRON", 5)]
  else if type_key = "stonecutter_camp" then [("WOOD", 15)]
  else if type_key = "stonemason_hut" then [("STONE", 20), ("PLANK", 5)]
  else if type_key = "iron_mine" then [("PLANK", 10), ("STONE", 15)]
  else if type_key = "coal_hut" then [("WOOD", 10)]
  else if type_key = "iron_smelter" then [("STONE", 25), ("PLANK", 10)]
  else if type_key = "gold_smelter" then [("STONE", 30), ("PLANK", 15)]
  else if type_key = "glass_smelter" then [("STONE", 20), ("PLANK", 10)]
  else if type_key = "gathering_hut" then [("WOOD", 10)]
  else if type_key = "wheat_farm" then [("WOOD", 15)]
  else if type_key = "windmill" then [("PLANK", 15), ("STONE", 10)]
  else if type_key = "bakery" then [("PLANK", 10), ("STONE", 10)]
  else if type_key = "fishers_hut" then [("WOOD", 12)]
  else if type_key = "hunters_hut" then [("WOOD", 12)]
  else if type_key = "dairy_farm" then [("WOOD", 18)]
  else if type_key = "cheesemaker" then [("PLANK", 10), ("STONE", 5)]
  else if type_key = "hop_farm" then [("WOOD", 12)]
  else if type_key = "brewery" then [("PLANK", 12), ("STONE", 12)]
  else if type_key = "well" then [("STONE", 15)]
  else if type_key = "weavers_hut" then [("WOOD", 12), ("PLANK", 6)]
  else if type_key = "tailors_workshop" then [("PLANK", 12), ("STONE", 6)]
  else if type_key = "candle_workshop" then [("PLANK", 12), ("STONE", 6)]
  else if type_key = "jeweler_workshop" then [("STONE", 20), ("PLANK", 10)]
  else if type_key = "apiary" then [("WOOD", 10)]
  else if type_key = "herb_garden" then [("WOOD", 8)]
  else if type_key = "vineyard" then [("WOOD", 12)]
  else if type_key = "winery" then [("PLANK", 15), ("STONE", 10)]
  else if type_key = "warehouse" then [("PLANK", 20), ("STONE", 10)]
  else if type_key = "granary" then [("PLANK", 15), ("STONE", 8)]
  else if type_key = "market_stall" then [("PLANK", 8)]
  else if type_key = "manor_house" then [("STONE", 30), ("PLANK", 20)]
  else if type_key = "tax_office" then [("STONE", 25), ("PLANK", 15)]
  else if type_key = "bailiff_office" then [("STONE", 20), ("PLANK", 10)]
  else if type_key = "tavern" then [("PLANK", 20), ("STONE", 15)]
  else if type_key = "wooden_keep" then [("WOOD", 50), ("STONE", 20)]
  else if type_key = "stone_keep" then [("STONE", 60), ("PLANK", 20)]
  else if type_key = "barracks" then [("PLANK", 25), ("STONE", 15)]
  else if type_key = "weaponsmith" then [("STONE", 20), ("PLANK", 10)]
  else if type_key = "soldiers_training_ground" then [("PLANK", 15), ("STONE", 10)]
  else if type_key = "archers_training_ground" then [("PLANK", 15), ("STONE", 10)]
  else if type_key = "fountain" then [("STONE", 15), ("POLISHED_STONE", 5)]
  else if type_key = "giant_gate" then [("STONE", 40), ("POLISHED_STONE", 10)]
  else if type_key = "knight_statue" then [("POLISHED_STONE", 12), ("IRON", 6)]
  else if type_key = "golden_cross" then [("GOLD", 8), ("POLISHED_STONE", 6)]
  else if type_key = "stained_glass" then [("GLASS", 10), ("POLISHED_STONE", 4)]
  else if type_key = "shrine" then [("POLISHED_STONE", 8), ("WOOD", 6)]
  else if type_key = "garden" then [("WOOD", 6), ("STONE", 4)]
  else []

structure GameState where
  inventory : Inventory
  buildings : List Building
  channels : List TradeChannel
  season_clock : SeasonClock
  notifications : List String
  wood : ℚ
  woodcutter_camps_built : ℤ
  workers_assigned_woodcutter : ℤ
  max_workers_woodcutter : ℤ
  wood_max_capacity : ℚ
  wood_production_per_second : ℚ

/-- Update the first building with the given id in the collection (the dict
holds at most one entry per id). -/
def updateFirst : List Building → String → (Building → Building) → List Building
  | [], _, _ => []
  | b :: rest, key, f =>
      if b.id = key then f b :: rest else b :: updateFirst rest key f

/-- `GameState.get_building_by_type`. -/
def GameState.getBuildingByType (gs : GameState) (type_key : String) : Option Building :=
  gs.buildings.find? fun b => b.type_key = type_key

/-- `GameState._recompute_wood_state_locked`: synchronise the derived wood
scalars with the woodcutter building and the inventory, clamping the
woodcutter's workers and the stored wood.  Returns the `changed` flag. -/
def GameState.recomputeWoodState (gs : GameState) : GameState × Bool :=
  let woodcutter := gs.getBuildingByType WOODCUTTER_CAMP
  let built : ℤ := max 0 (match woodcutter with
    | some w => w.builtCount
    | none => 0)
  let maxW := built * 2
  let assigned0 : ℤ := match woodcutter with
    | some w => max 0 w.assigned_workers
    | none => 0
  let clamp1 := assigned0 > maxW
  let assigned1 := if clamp1 then maxW else assigned0
  let bs1 := if clamp1 then
      updateFirst gs.buildings WOODCUTTER_CAMP (fun w => { w with assigned_workers := assigned1 })
    else gs.buildings
  let zeroed := built = 0
  let bs2 := if zeroed then
      updateFirst bs1 WOODCUTTER_CAMP (fun w => { w with assigned_workers := 0 })
    else bs1
  let assigned := if zeroed then 0 else assigned1
  let capacity : ℚ := 50 * built
  let current_capacity := (gs.inventory.getCapacity "WOOD").getD 0
  let inv1 := if |current_capacity - capacity| > eps9 then
      gs.inventory.setCapacity "WOOD" capacity
    else gs.inventory
  let current_amount0 := max 0 (inv1.getAmount "WOOD")
  let over := current_amount0 > capacity + eps9
  let inv2 := if over then inv1.setAmount "WOOD" capacity else inv1
  let current_amount1 := if over then capacity else current_amount0
  let dropAll := built = 0 ∧ current_amount1 > 0
  let inv3 := if dropAll then inv2.setAmount "WOOD" 0 else inv2
  let current_amount := if dropAll then 0 else current_amount1
  let rate : ℚ := if built > 0 then (assigned : ℚ) * (1 / 10) else 0
  let changed :=
    gs.woodcutter_camps_built ≠ built ∨
    gs.workers_assigned_woodcutter ≠ assigned ∨
    |gs.wood_max_capacity - capacity| > eps9 ∨
    gs.max_workers_woodcutter ≠ maxW ∨
    |gs.wood - current_amount| > eps9 ∨
    |gs.wood_production_per_second - rate| > eps9
  ({ gs with
      buildings := bs2, inventory := inv3,
      woodcutter_camps_built := built, max_workers_woodcutter := maxW,
      workers_assigned_woodcutter := assigned, wood_max_capacity := capacity,
      wood := current_amount, wood_production_per_second := rate },
    decide changed)

/-- `GameState._apply_wood_tick`: recompute the wood state, then accrue
continuous wood production up to the wood capacity.  Returns the produced
amount. -/
def GameState.applyWoodTick (gs : GameState) (dt : ℚ) : GameState × ℚ :=
  let seconds := max 0 dt
  let rec1 := gs.recomputeWoodState
  let gs1 := rec1.1
  if seconds ≤ 0 then (gs1, 0)
  else if gs1.wood_production_per_second ≤ 0 ∨ gs1.wood_max_capacity ≤ 0 then (gs1, 0)
  else
    let potential := gs1.wood_production_per_second * seconds
    if potential ≤ 0 then (gs1, 0)
    else
      let current_amount := gs1.wood
      let new_amount := max 0 (min (current_amount + potential) gs1.wood_max_capacity)
      if |new_amount - current_amount| > eps9 then
        let produced := max 0 (new_amount - current_amount)
        ({ gs1 with
            wood := new_amount,
            inventory := gs1.inventory.setAmount "WOOD" new_amount },
          produced)
      else (gs1, 0)

/-- `GameState.tick`: advance the season clock, tick the trade channels, tick
every building except the bespoke woodcutter camp, apply the wood subsystem
tick, and synthesise the woodcutter's production report.  The missing-input
notification reconciliation and the debug logging touch only the notification
queue and the log and are not modelled. -/
def GameState.tick (gs : GameState) (dt : ℚ) : GameState :=
  let seconds := max 0 dt
  let clock := gs.season_clock.update seconds
  let trade := gs.channels.foldl
    (fun (acc : List TradeChannel × Inventory × List String) c =>
      let r := c.tick seconds acc.2.1 acc.2.2
      (acc.1 ++ [r.1], r.2.1, r.2.2))
    ([], gs.inventory, gs.notifications)
  let woodcutterId := (gs.getBuildingByType WOODCUTTER_CAMP).map Building.id
  let bstep := gs.buildings.foldl
    (fun (acc : List Building × Inventory × List String) b =>
      if woodcutterId = some b.id then (acc.1 ++ [b], acc.2.1, acc.2.2)
      else
        let out := b.tick seconds acc.2.1 (clock.getModifiers b.type_key) acc.2.2
        (acc.1 ++ [out.b], out.inv, out.notes))
    ([], trade.2.1, trade.2.2)
  let gs1 := { gs with
    inventory := bstep.2.1, buildings := bstep.1, channels := trade.1,
    season_clock := clock, notifications := bstep.2.2 }
  let woodRes := gs1.applyWoodTick seconds
  let gs2 := woodRes.1
  match gs2.getBuildingByType WOODCUTTER_CAMP with
  | none => gs2
  | some _ =>
    let produced := max 0 woodRes.2
    let max_capacity := gs2.wood_max_capacity
    let current_wood := gs2.wood
    let workers_assigned := gs2.workers_assigned_woodcutter
    let sr : String × Option String :=
      if gs2.woodcutter_camps_built ≤ 0 then ("inactive", some "inactive")
      else if workers_assigned ≤ 0 then ("inactive", some "no_workers")
      else if max_capacity > 0 ∧ current_wood ≥ max_capacity - eps9 then
        ("stalled", some "no_capacity")
      else if produced > 0 then ("produced", none)
      else ("inactive", some "inactive")
    let produced_payload : ResMap := if produced > 0 then [("wood", produced)] else []
    let wood_report : Report :=
      { status := sr.1, reason := sr.2, detail := none, consumed := [],
        produced := produced_payload }
    let display :=
      if gs2.woodcutter_camps_built ≤ 0 then "no_construido"
      else if sr.1 = "produced" then "ok"
      else if sr.1 = "stalled" then "capacidad_llena"
      else "pausado"
    { gs2 with
      buildings := updateFirst gs2.buildings WOODCUTTER_CAMP
        (fun w => { w with production_report := wood_report, status := display }) }

/-- `NothingToDemolishError` / `ValueError` raised by
`GameState.demolish_building`, modelled as `Except.error` payloads. -/
def NOTHING_TO_DEMOLISH : String := "NOTHING_TO_DEMOLISH"

/-- `GameState.demolish_building`.  Canonical-id resolution is the identity on
canonical type keys (see `Building.id`); the worker-pool re-registration and
the state-version bump have no observable effect here. -/
def GameState.demolishBuilding (gs : GameState) (building_id : String)
    (refund_rate : ℚ := 1 / 2) : Except String GameState :=
  match gs.buildings.find? (fun b => b.id = building_id) with
  | none => .error "Edificio inexistente"
  | some b =>
    let built_count := b.builtCount
    if built_count ≤ 0 then .error NOTHING_TO_DEMOLISH
    else
      let b1 : Building := { b with built := built_count - 1 }
      let b2 : Building := if b1.built ≤ 0 then { b1 with enabled := false } else b1
      let maxW := b2.maxWorkers
      let b3 := if b2.assigned_workers > maxW then { b2 with assigned_workers := maxW } else b2
      let effective_refund_rate := if b.type_key = WOODCUTTER_CAMP then 0 else refund_rate
      let refund : ResMap :=
        if 0 < effective_refund_rate then
          (BUILD_COSTS b.type_key).map fun p => (p.1, p.2 * effective_refund_rate)
        else []
      let inv1 := if !refund.isEmpty then (gs.inventory.add refund).2 else gs.inventory
      let gs1 := { gs with
        buildings := updateFirst gs.buildings building_id (fun _ => b3),
        inventory := inv1 }
      let gs2 := if b.type_key = WOODCUTTER_CAMP then gs1.recomputeWoodState.1 else gs1
      .ok { gs2 with notifications := gs2.notifications ++ [b.name ++ " demolido"] }

/-! ## Derived quantities and concrete fixtures -/

def posAmountOf : ResMap → Resource → ℚ
  | [], _ => 0
  | (k, v) :: rest, r => (if k = r ∧ 0 < v then v else 0) + posAmountOf rest r

/-- The positive totals appearing on both sides of a cycle. -/
def cycleCombined (b : Building) : ResMap :=
  combineResources b.recipe.inputs b.recipe.maintenance

/-- Build a concrete inventory from an amount table and a capacity table. -/
def mkInventory (qs : ResMap) (cs : List (Resource × ℚ)) : Inventory :=
  { quantities := fun r => amountOf qs r,
    capacities := fun r => (cs.find? (fun p => p.1 = r)).map Prod.snd }

/-- The `lumber_hut` recipe of `config.BUILDING_RECIPES`: 2 wood per cycle
into 1 plank, cycle time 4, up to 2 workers (maintenance elided). -/
def lumberRecipe : BuildingRecipe :=
  { inputs := [("WOOD", 2)], outputs := [("PLANK", 1)], cycle_time := 4, max_workers := 2 }

/-- A built lumber hut with one assigned worker. -/
def lumberHut : Building :=
  { type_key := "lumber_hut", recipe := lumberRecipe, name := "Lumber Hut",
    built := 1, assigned_workers := 1 }

/-- Ample wood, plank store full (capacity 0). -/
def invC1 : Inventory := mkInventory [("WOOD", 100)] [("PLANK", 0)]

/-- The `woodcutter_camp` continuous recipe of `config.BUILDING_RECIPES`:
0.01 wood per worker-second out of 0.04 sticks and 0.04 stone per
worker-second. -/
def woodcutterRecipe : BuildingRecipe :=
  { inputs := [], outputs := [], cycle_time := 1, max_workers := 2,
    capacity := some [("WOOD", 30)],
    per_worker_output_rate := some [("WOOD", 1 / 100)],
    per_worker_input_rate := some [("STICKS", 1 / 25), ("STONE", 1 / 25)] }

/-- A built woodcutter camp with two assigned workers. -/
def woodcutterCamp : Building :=
  { type_key := "woodcutter_camp", recipe := woodcutterRecipe, name := "Woodcutter Camp",
    built := 1, assigned_workers := 2 }

/-- Sticks and stone in stock, wood store already at its capacity. -/
def invC2 : Inventory := mkInventory [("STICKS", 10), ("STONE", 10), ("WOOD", 30)] [("WOOD", 30)]

/-- Ample wood and no capacity set on anything. -/
def invC3 : Inventory := mkInventory [("WOOD", 100)] []

/-- The sum `Σ max(0, assigned_workers)` of a building list, as
`WorkerPool.sumAssigned` folds it. -/
def sumAssignedL (l : List Building) : ℤ :=
  l.foldl (fun acc x => acc + max 0 x.assigned_workers) 0

/-- A pool of three workers with the lumber hut registered (one worker
already assigned). -/
def poolC5 : WorkerPool := { total_workers := 3, buildings := [lumberHut] }

/-- `poolC5` after one more worker is granted to the lumber hut. -/
def poolC5' : WorkerPool :=
  { total_workers := 3, buildings := [{ lumberHut with assigned_workers := 2 }] }

/-- A pool of a single worker with nothing registered yet. -/
def poolC6 : WorkerPool := { total_workers := 1, buildings := [] }

/-- A lumber hut with no workers assigned yet. -/
def lumberHut0 : Building := { lumberHut with assigned_workers := 0 }

/-- A wood capacity of 5 set on an empty store, then an amount of 10 written
straight through `set_amount`. -/
def invC7a : Inventory := ((mkInventory [] []).setCapacity "WOOD" 5).setAmount "WOOD" 10

/-- Three wood in stock, then `set_capacity` called with the raw negative
capacity `-5`. -/
def invC7b : Inventory := (mkInventory [("WOOD", 3)] []).setCapacity "WOOD" (-5)

/-- A one-season clock with no season modifiers (every modifier list is
`[1, 1]`). -/
def clockC8 : SeasonClock :=
  { seasons := ["spring"], ticks_per_season := 100, current_index := 0,
    tick_within_season := 0, season_modifiers := [] }

/-- A discrete recipe turning 2 stone into 1 plank every 4 seconds. -/
def stoneRecipe : BuildingRecipe :=
  { inputs := [("STONE", 2)], outputs := [("PLANK", 1)], cycle_time := 4,
    max_workers := 2 }

/-- A built stone workshop with one worker and a full pending cycle
(`cycle_progress = cycle_time = 4`), as a stalled tick leaves it. -/
def stoneHut : Building :=
  { type_key := "stone_hut", recipe := stoneRecipe, name := "Stone Hut",
    built := 1, assigned_workers := 1, cycle_progress := 4 }

/-- Stone in stock, no wood and no capacities. -/
def invC8 : Inventory := mkInventory [("STONE", 100)] []

/-- The building phase of `GameState.tick` at `dt = 0`: the fold of the
per-building ticks threading the inventory and the notification queue. -/
def zeroFold (gs : GameState) : List Building × Inventory × List String :=
  gs.buildings.foldl
    (fun (acc : List Building × Inventory × List String) b =>
      if (gs.getBuildingByType WOODCUTTER_CAMP).map Building.id = some b.id then
        (acc.1 ++ [b], acc.2.1, acc.2.2)
      else
        let out := b.tick 0 acc.2.1 (gs.season_clock.getModifiers b.type_key) acc.2.2
        (acc.1 ++ [out.b], out.inv, out.notes))
    ([], gs.inventory, gs.notifications)

/-- A game state holding only the pending stone workshop. -/
def gsC8 : GameState :=
  { inventory := invC8, buildings := [stoneHut], channels := [],
    season_clock := clockC8, notifications := [], wood := 0,
    woodcutter_camps_built := 0, workers_assigned_woodcutter := 0,
    max_workers_woodcutter := 0, wood_max_capacity := 0,
    wood_production_per_second := 0 }

/-- The stone workshop with only partial progress (no pending cycle). -/
def stoneHutQ : Building := { stoneHut with cycle_progress := 1 }

/-- The quiescent variant of the stone-workshop game state. -/
def gsC8q : GameState := { gsC8 with buildings := [stoneHutQ] }

/-- An export channel on fish: 120 units per minute at 2 gold apiece, so a
one-second tick demands 2 units. -/
def chC9 : TradeChannel :=
  { resource := "FISH", mode := "export", rate_per_min := 120, price_per_unit := 2 }

/-- One fish in stock, no gold yet, nothing capped. -/
def invC9 : Inventory := mkInventory [("FISH", 1)] []

/-- A built sawmill (construction cost 25 wood + 5 plank). -/
def sawmillB : Building :=
  { type_key := "sawmill", recipe := lumberRecipe, name := "Sawmill",
    built := 1, assigned_workers := 0 }

/-- A sawmill with nothing built. -/
def sawmillB0 : Building := { sawmillB with built := 0 }

/-- A game state holding the built sawmill. -/
def gsC10 : GameState := { gsC8 with buildings := [sawmillB] }

/-- A game state holding the unbuilt sawmill. -/
def gsC10z : GameState := { gsC8 with buildings := [sawmillB0] }

/-! ## Conservation apparatus (C4)

Sequences of orchestrator ticks, the per-tick report deltas, and the safety
predicates under which every mutation path of `Building.tick` (all modes,
successes and stalls alike) moves the ledger by exactly what its production
report says. -/

/-- The net ledger movement a building's stored production report claims. -/
def reportDelta (b : Building) (r : Resource) : ℚ :=
  amountOf b.production_report.produced r - amountOf b.production_report.consumed r

/-- The summed report delta of all buildings of a game state. -/
def stateReportDelta (gs : GameState) (r : Resource) : ℚ :=
  (gs.buildings.map fun b => reportDelta b r).sum

/-- Iterated orchestrator ticks. -/
def tickSeq (gs : GameState) : List ℚ → GameState
  | [] => gs
  | dt :: ds => tickSeq (gs.tick dt) ds

/-- The report deltas accumulated over a whole tick sequence. -/
def seqReportDelta (gs : GameState) : List ℚ → Resource → ℚ
  | [], _ => 0
  | dt :: ds, r => stateReportDelta (gs.tick dt) r + seqReportDelta (gs.tick dt) ds r

/-- The building phase of `GameState.tick` at an arbitrary `dt` (the
generalisation of `zeroFold`). -/
@[reducible] def tickFold (gs : GameState) (dt : ℚ) :
    List Building × Inventory × List String :=
  gs.buildings.foldl
    (fun (acc : List Building × Inventory × List String) b =>
      if (gs.getBuildingByType WOODCUTTER_CAMP).map Building.id = some b.id then
        (acc.1 ++ [b], acc.2.1, acc.2.2)
      else
        let out := b.tick (max 0 dt) acc.2.1
          ((gs.season_clock.update (max 0 dt)).getModifiers b.type_key) acc.2.2
        (acc.1 ++ [out.b], out.inv, out.notes))
    ([], gs.inventory, gs.notifications)

/-- The building step of `GameState.tick` without the woodcutter guard (the
guard never fires when no woodcutter camp is registered). -/
def buildStep (mods : Building → List ℚ) (dtm : ℚ)
    (acc : List Building × Inventory × List String) (b : Building) :
    List Building × Inventory × List String :=
  let out := b.tick dtm acc.2.1 (mods b) acc.2.2
  (acc.1 ++ [out.b], out.inv, out.notes)

/-- One cycle attempt is exact when the 1e-9-tolerant `has` check cannot
misfire: if it passes, the stock genuinely covers every combined
requirement (the generic situation; only stocks within 1e-9 below a
requirement break it). -/
def CycleSafe (r : BuildingRecipe) (inv : Inventory) : Prop :=
  inv.has (combineResources r.inputs r.maintenance) = true →
    ∀ p ∈ combineResources r.inputs r.maintenance, p.2 ≤ inv.quantities p.1

/-- The inventory a successful cycle leaves behind. -/
def postCycleInv (r : BuildingRecipe) (inv : Inventory) : Inventory :=
  { quantities := fun x =>
      inv.quantities x
        + (posAmountOf r.outputs x
          - posAmountOf (combineResources r.inputs r.maintenance) x),
    capacities := inv.capacities }

/-- `CycleSafe` along every cycle the discrete catch-up loop may execute. -/
def LoopSafe : ℕ → BuildingRecipe → Inventory → Prop
  | 0, _, _ => True
  | n + 1, r, inv => CycleSafe r inv ∧ LoopSafe n r (postCycleInv r inv)

/-- The continuous tick's analogue of `CycleSafe`: the reservation's `has`
check cannot misfire on the computed consumption. -/
def ContSafe (b : Building) (dt : ℚ) (inv : Inventory) (mods : List ℚ) : Prop :=
  inv.has (contConsumption b dt (modMultiplier mods)
      (contLimits b dt inv (modMultiplier mods)).1) = true →
    ∀ p ∈ contConsumption b dt (modMultiplier mods)
        (contLimits b dt inv (modMultiplier mods)).1,
      p.2 ≤ inv.quantities p.1

/-- The number of discrete cycles `Building.tick` will attempt. -/
def pendingCycles (b : Building) (dt : ℚ) (mods : List ℚ) : ℕ :=
  (⌊(b.cycle_progress + dt * b.effectiveRate b.assigned_workers mods)
      / b.recipe.cycle_time⌋).toNat

/-- Per-building safety for one tick: the recipe's dict keys are
duplicate-free (as Python dicts guarantee) and no tolerance check misfires
on any cycle the tick may run. -/
def TickSafe (b : Building) (dt : ℚ) (inv : Inventory) (mods : List ℚ) : Prop :=
  ((b.recipe.outputs.map Prod.fst).Nodup) ∧
  (((b.recipe.per_worker_input_rate.getD []).map Prod.fst).Nodup) ∧
  (((b.recipe.per_worker_output_rate.getD []).map Prod.fst).Nodup) ∧
  (if truthyRates b.recipe.per_worker_output_rate then ContSafe b dt inv mods
   else LoopSafe (pendingCycles b dt mods) b.recipe inv)

/-- `TickSafe` threaded through the building fold of one orchestrator tick. -/
def FoldSafe (mods : Building → List ℚ) (dtm : ℚ) :
    List Building → Inventory → List String → Prop
  | [], _, _ => True
  | b :: bs, inv, notes =>
      TickSafe b dtm inv (mods b) ∧
      FoldSafe mods dtm bs (b.tick dtm inv (mods b) notes).inv
        (b.tick dtm inv (mods b) notes).notes

/-- The per-tick hypotheses of the amended conservation claim: every trade
channel paused, no bespoke woodcutter camp registered, a quiescent `WOOD`
ledger entry (so `_recompute_wood_state_locked` is inert; see the
counterexample for what it otherwise destroys), and `TickSafe` for every
building at the inventory it actually sees. -/
def TickHyp (gs : GameState) (dt : ℚ) : Prop :=
  (∀ c ∈ gs.channels, c.mode = "pause") ∧
  (∀ b ∈ gs.buildings, b.type_key ≠ WOODCUTTER_CAMP) ∧
  gs.inventory.capacities "WOOD" = none ∧
  (tickFold gs dt).2.1.quantities "WOOD" = 0 ∧
  FoldSafe (fun b => (gs.season_clock.update (max 0 dt)).getModifiers b.type_key)
    (max 0 dt) gs.buildings gs.inventory gs.notifications

/-- `TickHyp` at every step of a tick sequence. -/
def SeqSafe (gs : GameState) : List ℚ → Prop
  | [] => True
  | dt :: ds => TickHyp gs dt ∧ SeqSafe (gs.tick dt) ds

/-- A game state holding stray wood with no woodcutter camp, as a loaded
save can produce (`bulk_load` never reconciles the wood scalars with the
inventory). -/
def gsC4x : GameState :=
  { gsC8 with inventory := mkInventory [("WOOD", 100)] [], buildings := [] }

/-! ## Basic accounting lemmas

`posAmountOf l r` is the total of the *positive* entries of `l` at key `r`;
this is the quantity the mutation loops (`consume`, `add`, `_accumulate`,
`_combine_resources`), which all skip non-positive amounts, actually move. -/

theorem posAmountOf_nonneg (l : ResMap) (r : Resource) : 0 ≤ posAmountOf l r := by
  induction l with
  | nil => simp [posAmountOf]
  | cons p rest ih =>
      obtain ⟨k, v⟩ := p
      have h : (0:ℚ) ≤ if k = r ∧ 0 < v then v else 0 := by
        split
        · next h => exact le_of_lt h.2
        · exact le_refl 0
      simpa [posAmountOf] using add_nonneg h ih

theorem entry_le_posAmountOf {l : ResMap} {r : Resource} {a : ℚ}
    (hmem : (r, a) ∈ l) (ha : 0 < a) : a ≤ posAmountOf l r := by
  induction l with
  | nil => cases hmem
  | cons p rest ih =>
      obtain ⟨k, v⟩ := p
      rcases List.mem_cons.mp hmem with h | h
      · injection h with h1 h2
        subst h1
        subst h2
        have hnn := posAmountOf_nonneg rest r
        have hif : (if r = r ∧ 0 < a then a else 0) = a := if_pos ⟨rfl, ha⟩
        have hun : posAmountOf ((r, a) :: rest) r
            = (if r = r ∧ 0 < a then a else 0) + posAmountOf rest r := rfl
        rw [hun, hif]
        linarith
      · have h0 : (0:ℚ) ≤ if k = r ∧ 0 < v then v else 0 := by
          split
          · next hc => exact le_of_lt hc.2
          · exact le_refl 0
        have := ih h
        simp only [posAmountOf]
        linarith

theorem posAmountOf_eq_amountOf {l : ResMap} (hpos : ∀ p ∈ l, 0 < p.2)
    (r : Resource) : posAmountOf l r = amountOf l r := by
  induction l with
  | nil => rfl
  | cons p rest ih =>
      obtain ⟨k, v⟩ := p
      have hv : 0 < v := hpos (k, v) (List.mem_cons_self _ _)
      have hrest : ∀ p ∈ rest, 0 < p.2 := fun p hp => hpos p (List.mem_cons_of_mem _ hp)
      by_cases hk : k = r
      · simp [posAmountOf, amountOf, hk, hv, ih hrest]
      · simp [posAmountOf, amountOf, hk, ih hrest]

theorem amountOf_addToMap (m : ResMap) (k : Resource) (a : ℚ) (r : Resource) :
    amountOf (addToMap m k a) r = amountOf m r + (if k = r then a else 0) := by
  induction m with
  | nil => simp [addToMap, amountOf]
  | cons p rest ih =>
      obtain ⟨k', v⟩ := p
      simp only [addToMap]
      by_cases hk' : k' = k
      · rw [if_pos hk']
        subst hk'
        by_cases hr : k' = r
        · simp only [amountOf, if_pos hr]
          ring
        · simp only [amountOf, if_neg hr]
          ring
      · rw [if_neg hk']
        simp only [amountOf, ih]
        ring

theorem addToMap_pos {m : ResMap} {k : Resource} {a : ℚ}
    (hm : ∀ p ∈ m, 0 < p.2) (ha : 0 < a) : ∀ p ∈ addToMap m k a, 0 < p.2 := by
  induction m with
  | nil =>
      intro p hp
      simp only [addToMap, List.mem_singleton] at hp
      subst hp; exact ha
  | cons q rest ih =>
      obtain ⟨k', v⟩ := q
      intro p hp
      simp only [addToMap] at hp
      by_cases hk' : k' = k
      · rw [if_pos hk'] at hp
        rcases List.mem_cons.mp hp with h | h
        · subst h
          have := hm (k', v) (List.mem_cons_self _ _)
          exact add_pos this ha
        · exact hm p (List.mem_cons_of_mem _ h)
      · rw [if_neg hk'] at hp
        rcases List.mem_cons.mp hp with h | h
        · subst h; exact hm (k', v) (List.mem_cons_self _ _)
        · exact ih (fun q hq => hm q (List.mem_cons_of_mem _ hq)) p h

theorem amountOf_accumulate (t l : ResMap) (r : Resource) :
    amountOf (accumulate t l) r = amountOf t r + posAmountOf l r := by
  induction l generalizing t with
  | nil => simp [accumulate, posAmountOf]
  | cons p rest ih =>
      obtain ⟨k, v⟩ := p
      by_cases hv : v ≤ 0
      · have : ¬ (k = r ∧ 0 < v) := fun hc => absurd hc.2 (not_lt.mpr hv)
        simp only [accumulate, List.foldl_cons, if_pos hv, posAmountOf, if_neg this]
        simpa [accumulate] using ih t
      · push_neg at hv
        simp only [accumulate, List.foldl_cons, if_neg (not_le.mpr hv), posAmountOf]
        have := ih (addToMap t k v)
        simp only [accumulate] at this
        rw [this, amountOf_addToMap]
        by_cases hk : k = r
        · simp [hk, hv]; ring
        · simp [hk]

theorem accumulate_pos {t l : ResMap} (ht : ∀ p ∈ t, 0 < p.2) :
    ∀ p ∈ accumulate t l, 0 < p.2 := by
  induction l generalizing t with
  | nil => simpa [accumulate] using ht
  | cons q rest ih =>
      obtain ⟨k, v⟩ := q
      by_cases hv : v ≤ 0
      · simp only [accumulate, List.foldl_cons, if_pos hv]
        exact ih ht
      · push_neg at hv
        simp only [accumulate, List.foldl_cons, if_neg (not_le.mpr hv)]
        exact ih (addToMap_pos ht hv)

theorem combineResources_eq (d1 d2 : ResMap) :
    combineResources d1 d2 = accumulate (accumulate [] d1) d2 := rfl

theorem combineResources_pos (d1 d2 : ResMap) :
    ∀ p ∈ combineResources d1 d2, 0 < p.2 := by
  rw [combineResources_eq]
  exact accumulate_pos (accumulate_pos (by simp))

theorem amountOf_combineResources (d1 d2 : ResMap) (r : Resource) :
    amountOf (combineResources d1 d2) r = posAmountOf d1 r + posAmountOf d2 r := by
  rw [combineResources_eq, amountOf_accumulate, amountOf_accumulate]
  simp [amountOf]

/-! ## Exactness lemmas for the inventory mutations

The `1e-9`/`1e-6` clamps in `consume` and `add` never engage when the stock
fully covers the debit and the capacities fully cover the credit; under those
conditions the mutations move exactly the positive totals of their argument
maps. -/

theorem eps9_pos : (0:ℚ) < eps9 := by norm_num [eps9]

theorem consumeList_capacities (l : ResMap) (inv : Inventory) :
    (consumeList inv l).capacities = inv.capacities := by
  induction l generalizing inv with
  | nil => rfl
  | cons p rest ih =>
      obtain ⟨k, a⟩ := p
      by_cases ha : a ≤ 0
      · simp only [consumeList, List.foldl_cons, if_pos ha]
        exact ih inv
      · simp only [consumeList, List.foldl_cons, if_neg ha]
        exact ih _

theorem consumeList_quantities (l : ResMap) (inv : Inventory)
    (h : ∀ x, posAmountOf l x ≤ inv.quantities x) (r : Resource) :
    (consumeList inv l).quantities r = inv.quantities r - posAmountOf l r := by
  induction l generalizing inv with
  | nil => simp [consumeList, posAmountOf]
  | cons p rest ih =>
      obtain ⟨k, a⟩ := p
      by_cases ha : a ≤ 0
      · have hskip : ∀ x, posAmountOf ((k, a) :: rest) x = posAmountOf rest x := by
          intro x
          have : ¬ (k = x ∧ 0 < a) := fun hc => absurd hc.2 (not_lt.mpr ha)
          simp [posAmountOf, this]
        simp only [consumeList, List.foldl_cons, if_pos ha]
        rw [show (rest.foldl _ inv) = consumeList inv rest from rfl,
          ih inv (fun x => (hskip x) ▸ h x), hskip]
      · push_neg at ha
        have hk := h k
        have hposrest := posAmountOf_nonneg rest k
        have hhead : posAmountOf ((k, a) :: rest) k = a + posAmountOf rest k := by
          simp [posAmountOf, ha]
        rw [hhead] at hk
        have hdrop : max 0 (inv.quantities k - a) = inv.quantities k - a := by
          apply max_eq_right; linarith
        simp only [consumeList, List.foldl_cons, if_neg (not_le.mpr ha)]
        set inv1 : Inventory :=
          { inv with
            quantities := fun x =>
              if x = k then max 0 (inv.quantities k - a) else inv.quantities x } with hinv1
        have hq1 : ∀ x, inv1.quantities x
            = if x = k then inv.quantities k - a else inv.quantities x := by
          intro x
          by_cases hx : x = k
          · simp [hinv1, hx, hdrop]
          · simp [hinv1, hx]
        have h1 : ∀ x, posAmountOf rest x ≤ inv1.quantities x := by
          intro x
          rw [hq1 x]
          by_cases hx : x = k
          · rw [if_pos hx]
            subst hx
            linarith
          · rw [if_neg hx]
            have hx' : posAmountOf ((k, a) :: rest) x = posAmountOf rest x := by
              have : ¬ (k = x ∧ 0 < a) := fun hc => hx (hc.1.symm)
              simp [posAmountOf, this]
            have := h x
            rw [hx'] at this
            exact this
        rw [show (rest.foldl _ inv1) = consumeList inv1 rest from rfl, ih inv1 h1, hq1 r]
        by_cases hr : r = k
        · rw [if_pos hr]
          subst hr
          rw [hhead]
          ring
        · rw [if_neg hr]
          have hr' : posAmountOf ((k, a) :: rest) r = posAmountOf rest r := by
            have : ¬ (k = r ∧ 0 < a) := fun hc => hr (hc.1.symm)
            simp [posAmountOf, this]
          rw [hr']

theorem addFold_spec (l : ResMap) (inv : Inventory) (res0 : ResMap)
    (hq0 : ∀ x, 0 ≤ inv.quantities x)
    (hcap : ∀ x c, inv.capacities x = some c → inv.quantities x + posAmountOf l x ≤ c) :
    (l.foldl addStep (res0, inv)).1 = res0 ∧
    (∀ r, (l.foldl addStep (res0, inv)).2.quantities r
      = inv.quantities r + posAmountOf l r) ∧
    (l.foldl addStep (res0, inv)).2.capacities = inv.capacities := by
  induction l generalizing inv res0 with
  | nil =>
      refine ⟨rfl, fun r => by simp [posAmountOf], rfl⟩
  | cons p rest ih =>
      obtain ⟨k, a⟩ := p
      have hposrest : ∀ x, (0:ℚ) ≤ posAmountOf rest x := fun x => posAmountOf_nonneg rest x
      by_cases ha : a ≤ 0
      · have hskip : ∀ x, posAmountOf ((k, a) :: rest) x = posAmountOf rest x := by
          intro x
          have : ¬ (k = x ∧ 0 < a) := fun hc => absurd hc.2 (not_lt.mpr ha)
          simp [posAmountOf, this]
        have hstep : addStep (res0, inv) (k, a) = (res0, inv) := by
          simp [addStep, ha]
        simp only [List.foldl_cons, hstep]
        obtain ⟨h1, h2, h3⟩ := ih inv res0 hq0 (fun x c hc => (hskip x) ▸ hcap x c hc)
        exact ⟨h1, fun r => by rw [h2 r, hskip r], h3⟩
      · push_neg at ha
        have hhead : ∀ x, posAmountOf ((k, a) :: rest) x
            = (if k = x then a else 0) + posAmountOf rest x := by
          intro x
          by_cases hx : k = x
          · simp [posAmountOf, hx, ha]
          · simp [posAmountOf, hx]
        rcases hcapk : inv.capacities k with _ | c
        · -- no capacity on `k`: the credit is unbounded
          have hstep : addStep (res0, inv) (k, a)
              = (res0,
                { inv with
                  quantities := fun x =>
                    if x = k then max 0 (inv.quantities k + a) else inv.quantities x }) := by
            simp [addStep, not_le.mpr ha, hcapk]
          set inv1 : Inventory :=
            { inv with
              quantities := fun x =>
                if x = k then max 0 (inv.quantities k + a) else inv.quantities x } with hinv1
          have hq1 : ∀ x, inv1.quantities x
              = if x = k then inv.quantities k + a else inv.quantities x := by
            intro x
            by_cases hx : x = k
            · have : max 0 (inv.quantities k + a) = inv.quantities k + a := by
                apply max_eq_right
                have := hq0 k
                linarith
              simp [hinv1, hx, this]
            · simp [hinv1, hx]
          have hq0' : ∀ x, 0 ≤ inv1.quantities x := by
            intro x
            rw [hq1 x]
            by_cases hx : x = k
            · rw [if_pos hx]
              have := hq0 k
              linarith
            · rw [if_neg hx]
              exact hq0 x
          have hcap' : ∀ x c', inv1.capacities x = some c'
              → inv1.quantities x + posAmountOf rest x ≤ c' := by
            intro x c' hc'
            rw [hq1 x]
            by_cases hx : x = k
            · exfalso
              rw [hx] at hc'
              have : inv.capacities k = some c' := hc'
              rw [hcapk] at this
              cases this
            · rw [if_neg hx]
              have := hcap x c' hc'
              have hhx := hhead x
              rw [if_neg (fun hc => hx hc.symm)] at hhx
              rw [hhx] at this
              linarith
          simp only [List.foldl_cons, hstep]
          obtain ⟨h1, h2, h3⟩ := ih inv1 res0 hq0' hcap'
          refine ⟨h1, fun r => ?_, h3⟩
          rw [h2 r, hq1 r, hhead r]
          by_cases hr : r = k
          · subst hr
            simp only [eq_self_iff_true, if_true]
            ring
          · rw [if_neg hr, if_neg (fun hc => hr hc.symm)]
            ring
        · -- capacity `c` on `k`: the whole amount still fits
          have hck := hcap k c hcapk
          have hak : a ≤ posAmountOf ((k, a) :: rest) k := by
            rw [hhead k, if_pos (rfl : k = k)]
            have := hposrest k
            linarith
          have hfit : inv.quantities k + a ≤ c := by
            have := hhead k
            linarith [hcap k c hcapk, hposrest k]
          have hallowed : min a (max 0 (c - inv.quantities k)) = a := by
            apply min_eq_left
            have h1 : a ≤ c - inv.quantities k := by linarith
            have h2 : max 0 (c - inv.quantities k) = c - inv.quantities k := by
              apply max_eq_right
              linarith
            rw [h2]
            exact h1
          have hstep : addStep (res0, inv) (k, a)
              = (res0,
                { inv with
                  quantities := fun x =>
                    if x = k then max 0 (inv.quantities k + a) else inv.quantities x }) := by
            simp only [addStep, if_neg (not_le.mpr ha), hcapk, hallowed]
            have hleft : ¬ (a - a > eps9) := by
              have := eps9_pos
              intro hcon
              simp at hcon
              linarith
            simp [hleft, le_of_lt eps9_pos]
          set inv1 : Inventory :=
            { inv with
              quantities := fun x =>
                if x = k then max 0 (inv.quantities k + a) else inv.quantities x } with hinv1
          have hq1 : ∀ x, inv1.quantities x
              = if x = k then inv.quantities k + a else inv.quantities x := by
            intro x
            by_cases hx : x = k
            · have : max 0 (inv.quantities k + a) = inv.quantities k + a := by
                apply max_eq_right
                have := hq0 k
                linarith
              simp [hinv1, hx, this]
            · simp [hinv1, hx]
          have hq0' : ∀ x, 0 ≤ inv1.quantities x := by
            intro x
            rw [hq1 x]
            by_cases hx : x = k
            · rw [if_pos hx]
              have := hq0 k
              linarith
            · rw [if_neg hx]
              exact hq0 x
          have hcap' : ∀ x c', inv1.capacities x = some c'
              → inv1.quantities x + posAmountOf rest x ≤ c' := by
            intro x c' hc'
            rw [hq1 x]
            have hcx : inv.capacities x = some c' := hc'
            by_cases hx : x = k
            · rw [if_pos hx]
              subst hx
              rw [hcapk] at hcx
              injection hcx with hcc
              subst hcc
              have hhx := hhead x
              rw [if_pos (rfl : (x:Resource) = x)] at hhx
              have := hcap x c hcapk
              linarith
            · rw [if_neg hx]
              have := hcap x c' hcx
              have hhx := hhead x
              rw [if_neg (fun hc => hx hc.symm)] at hhx
              linarith
          simp only [List.foldl_cons, hstep]
          obtain ⟨h1, h2, h3⟩ := ih inv1 res0 hq0' hcap'
          refine ⟨h1, fun r => ?_, h3⟩
          rw [h2 r, hq1 r, hhead r]
          by_cases hr : r = k
          · subst hr
            simp only [eq_self_iff_true, if_true]
            ring
          · rw [if_neg hr, if_neg (fun hc => hr hc.symm)]
            ring

/-- `Inventory.add` under full-headroom hypotheses: no residual, every
positive amount credited exactly, capacities untouched. -/
theorem add_spec (l : ResMap) (inv : Inventory)
    (hq0 : ∀ x, 0 ≤ inv.quantities x)
    (hcap : ∀ x c, inv.capacities x = some c → inv.quantities x + posAmountOf l x ≤ c) :
    (inv.add l).1 = [] ∧
    (∀ r, (inv.add l).2.quantities r = inv.quantities r + posAmountOf l r) ∧
    (inv.add l).2.capacities = inv.capacities :=
  addFold_spec l inv [] hq0 hcap

theorem canAdd_of_fit (l : ResMap) (inv : Inventory)
    (hcap : ∀ x c, inv.capacities x = some c → inv.quantities x + posAmountOf l x ≤ c) :
    inv.canAdd l = true := by
  unfold Inventory.canAdd
  rw [List.all_eq_true]
  intro p hp
  by_cases hp2 : p.2 ≤ 0
  · simp [hp2]
  · push_neg at hp2
    rw [if_neg (not_le.mpr hp2)]
    rcases hc : inv.capacities p.1 with _ | c
    · simp
    · have hmem : (p.1, p.2) ∈ l := by simpa using hp
      have := entry_le_posAmountOf hmem hp2
      have := hcap p.1 c hc
      simp only [decide_eq_true_eq]
      linarith

theorem canAdd_single (inv : Inventory) (k : Resource) (q c : ℚ)
    (hq : 0 < q) (hc : inv.capacities k = some c)
    (hlt : c < inv.quantities k + q) :
    inv.canAdd [(k, q)] = false := by
  unfold Inventory.canAdd
  simp only [List.all_cons, List.all_nil, Bool.and_true]
  rw [if_neg (not_le.mpr hq)]
  split
  · next heq =>
      have heq' : inv.capacities k = none := heq
      rw [hc] at heq'
      cases heq'
  · next c' heq =>
      have heq' : inv.capacities k = some c' := heq
      rw [hc] at heq'
      injection heq' with h
      subst h
      show decide (inv.quantities k + q ≤ c) = false
      exact decide_eq_false (not_le.mpr hlt)

theorem has_of_stock (l : ResMap) (inv : Inventory)
    (hq0 : ∀ x, 0 ≤ inv.quantities x)
    (h : ∀ x, posAmountOf l x ≤ inv.quantities x) :
    inv.has l = true := by
  unfold Inventory.has
  rw [List.all_eq_true]
  intro p hp
  simp only [decide_eq_true_eq]
  by_cases hp2 : 0 < p.2
  · have hmem : (p.1, p.2) ∈ l := by simpa using hp
    have h1 := entry_le_posAmountOf hmem hp2
    have h2 := h p.1
    have := eps9_pos
    linarith
  · push_neg at hp2
    have := hq0 p.1
    have := eps9_pos
    linarith

/-- `Inventory.consume` under full-stock hypotheses: succeeds and debits each
positive requirement exactly. -/
theorem consume_spec (l : ResMap) (inv : Inventory)
    (hq0 : ∀ x, 0 ≤ inv.quantities x)
    (h : ∀ x, posAmountOf l x ≤ inv.quantities x) :
    (inv.consume l).1 = true ∧
    (∀ r, (inv.consume l).2.quantities r = inv.quantities r - posAmountOf l r) ∧
    (inv.consume l).2.capacities = inv.capacities := by
  unfold Inventory.consume
  rw [if_pos (has_of_stock l inv hq0 h)]
  exact ⟨rfl, consumeList_quantities l inv h, consumeList_capacities l inv⟩

theorem consumeList_untouched (l : ResMap) (inv : Inventory) (r : Resource)
    (hr : ∀ p ∈ l, p.1 ≠ r) :
    (consumeList inv l).quantities r = inv.quantities r := by
  induction l generalizing inv with
  | nil => rfl
  | cons p rest ih =>
      obtain ⟨k, a⟩ := p
      have hk : k ≠ r := hr (k, a) (List.mem_cons_self _ _)
      have hrest : ∀ p ∈ rest, p.1 ≠ r := fun p hp => hr p (List.mem_cons_of_mem _ hp)
      by_cases ha : a ≤ 0
      · simp only [consumeList, List.foldl_cons, if_pos ha]
        exact ih inv hrest
      · simp only [consumeList, List.foldl_cons, if_neg ha]
        rw [show ∀ inv', rest.foldl _ inv' = consumeList inv' rest from fun _ => rfl]
        rw [ih _ hrest]
        simp [hk.symm]

theorem rollback_capacities (s : ResMap) (inv : Inventory) :
    (inv.rollback ⟨s⟩).capacities = inv.capacities := by
  induction s generalizing inv with
  | nil => rfl
  | cons p rest ih =>
      obtain ⟨k, v⟩ := p
      simp only [Inventory.rollback, List.foldl_cons]
      exact ih _

theorem rollback_snapshot (l : ResMap) (f : Resource → ℚ) (inv' : Inventory)
    (r : Resource) :
    (inv'.rollback ⟨l.map fun p => (p.1, f p.1)⟩).quantities r
      = if l.any (fun p => p.1 = r) then f r else inv'.quantities r := by
  induction l generalizing inv' with
  | nil => simp [Inventory.rollback]
  | cons p rest ih =>
      obtain ⟨k, v⟩ := p
      simp only [List.map_cons, Inventory.rollback, List.foldl_cons]
      set inv1 : Inventory :=
        { inv' with quantities := fun x => if x = k then f k else inv'.quantities x }
        with hinv1
      have step : ∀ inv0 : Inventory,
          (rest.map fun p => (p.1, f p.1)).foldl
            (fun acc p =>
              { acc with quantities := fun x => if x = p.1 then p.2 else acc.quantities x })
            inv0
          = inv0.rollback ⟨rest.map fun p => (p.1, f p.1)⟩ := fun _ => rfl
      rw [step inv1, ih inv1]
      by_cases hrest : rest.any (fun p => p.1 = r)
      · simp [hrest, List.any_cons]
      · simp only [hrest, if_false, List.any_cons, Bool.or_eq_true, decide_eq_true_eq]
        by_cases hk : k = r
        · subst hk
          simp [hinv1]
        · have hrk : ¬ r = k := fun h => hk h.symm
          simp [hk, hrest, hinv1, hrk]

/-- The reservation protocol restores the inventory exactly: `rollback` after
a successful `reserve` is the identity on every quantity and on the
capacities (the snapshot names every key the reservation debited, each with
its pre-reservation value). -/
theorem reserve_rollback_id (l : ResMap) (inv : Inventory) (token : ResToken)
    (inv1 : Inventory) (hres : inv.reserve l = some (token, inv1)) :
    (∀ r, (inv1.rollback token).quantities r = inv.quantities r) ∧
    (inv1.rollback token).capacities = inv.capacities := by
  unfold Inventory.reserve at hres
  by_cases hhas : inv.has l
  · rw [if_pos hhas] at hres
    injection hres with hres
    injection hres with htok hinv1
    subst htok
    subst hinv1
    constructor
    · intro r
      rw [rollback_snapshot l inv.quantities (consumeList inv l) r]
      by_cases hany : l.any (fun p => p.1 = r)
      · rw [if_pos hany]
      · rw [if_neg hany]
        apply consumeList_untouched
        intro p hp hpr
        exact hany (List.any_eq_true.mpr ⟨p, hp, by simp [hpr]⟩)
    · rw [rollback_capacities, consumeList_capacities]
  · rw [if_neg hhas] at hres
    cases hres

theorem amountOf_resourcesToPayload (m : ResMap) (r : Resource) :
    amountOf (resourcesToPayload m) r = posAmountOf m r := by
  induction m with
  | nil => rfl
  | cons p rest ih =>
      obtain ⟨k, v⟩ := p
      by_cases hv : 0 < v
      · simp only [resourcesToPayload, List.filter_cons] at *
        simp only [decide_eq_true_eq, hv, if_pos, amountOf, posAmountOf, ih]
        by_cases hk : k = r
        · simp [hk, hv]
        · simp [hk]
      · simp only [resourcesToPayload, List.filter_cons] at *
        have : (decide (0 < v)) = false := by simpa using hv
        simp only [this, Bool.false_eq_true, if_false, posAmountOf, ih]
        have hnc : ¬ (k = r ∧ 0 < v) := fun hc => hv hc.2
        simp [hnc]

theorem amountOf_cycleCombined_nonneg (b : Building) (x : Resource) :
    0 ≤ amountOf (cycleCombined b) x := by
  unfold cycleCombined
  rw [← posAmountOf_eq_amountOf (combineResources_pos _ _)]
  exact posAmountOf_nonneg _ _

/-- A fully-covered cycle of `Building._attempt_cycle` succeeds, consumes
exactly the combined inputs + maintenance and credits exactly the outputs. -/
theorem attemptCycle_success (b : Building) (inv : Inventory)
    (hq0 : ∀ x, 0 ≤ inv.quantities x)
    (hstock : ∀ x, amountOf (cycleCombined b) x ≤ inv.quantities x)
    (hout : ∀ p ∈ b.recipe.outputs, 0 < p.2)
    (hcap : ∀ x c, inv.capacities x = some c →
      inv.quantities x + amountOf b.recipe.outputs x ≤ c) :
    (b.attemptCycle inv).success = true ∧
    (b.attemptCycle inv).consumed = cycleCombined b ∧
    (b.attemptCycle inv).produced = b.recipe.outputs ∧
    (∀ r, (b.attemptCycle inv).inv.quantities r
      = inv.quantities r - amountOf (cycleCombined b) r + amountOf b.recipe.outputs r) ∧
    (b.attemptCycle inv).inv.capacities = inv.capacities := by
  have hposOut : ∀ x, posAmountOf b.recipe.outputs x = amountOf b.recipe.outputs x :=
    fun x => posAmountOf_eq_amountOf hout x
  have hposComb : ∀ x, posAmountOf (cycleCombined b) x = amountOf (cycleCombined b) x :=
    fun x => posAmountOf_eq_amountOf (combineResources_pos _ _) x
  have hsplit : ∀ x, amountOf (cycleCombined b) x
      = posAmountOf b.recipe.inputs x + posAmountOf b.recipe.maintenance x :=
    fun x => amountOf_combineResources _ _ x
  have hhasM : inv.has b.recipe.maintenance = true := by
    apply has_of_stock _ _ hq0
    intro x
    have := hstock x
    rw [hsplit x] at this
    have := posAmountOf_nonneg b.recipe.inputs x
    linarith [hstock x, posAmountOf_nonneg b.recipe.inputs x,
      (hsplit x) ▸ hstock x]
  have hhasI : inv.has b.recipe.inputs = true := by
    apply has_of_stock _ _ hq0
    intro x
    have h1 := hstock x
    rw [hsplit x] at h1
    have := posAmountOf_nonneg b.recipe.maintenance x
    linarith
  have hcanAdd : inv.canAdd b.recipe.outputs = true := by
    apply canAdd_of_fit _ _
    intro x c hc
    rw [hposOut x]
    exact hcap x c hc
  have hstock' : ∀ x, posAmountOf (cycleCombined b) x ≤ inv.quantities x :=
    fun x => (hposComb x) ▸ hstock x
  obtain ⟨hc1, hc2, hc3⟩ := consume_spec (cycleCombined b) inv hq0 hstock'
  have hq0' : ∀ x, 0 ≤ (inv.consume (cycleCombined b)).2.quantities x := by
    intro x
    rw [hc2 x]
    have := hstock' x
    linarith
  have hcap' : ∀ x c, (inv.consume (cycleCombined b)).2.capacities x = some c →
      (inv.consume (cycleCombined b)).2.quantities x + posAmountOf b.recipe.outputs x ≤ c := by
    intro x c hc
    rw [hc3] at hc
    rw [hc2 x, hposOut x]
    have := hcap x c hc
    have := posAmountOf_nonneg (cycleCombined b) x
    have := hposComb x
    linarith [hstock x]
  obtain ⟨ha1, ha2, ha3⟩ :=
    add_spec b.recipe.outputs (inv.consume (cycleCombined b)).2 hq0' hcap'
  have hML : ¬ (b.recipe.maintenance ≠ [] ∧ ¬ inv.has b.recipe.maintenance = true) :=
    fun hc => hc.2 hhasM
  have hIL : ¬ (b.recipe.inputs ≠ [] ∧ ¬ inv.has b.recipe.inputs = true) :=
    fun hc => hc.2 hhasI
  have hOL : ¬ (b.recipe.outputs ≠ [] ∧ ¬ inv.canAdd b.recipe.outputs = true) :=
    fun hc => hc.2 hcanAdd
  have hCL : ¬ (cycleCombined b ≠ [] ∧ ¬ (inv.consume (cycleCombined b)).1 = true) :=
    fun hc => hc.2 hc1
  have hbody : b.attemptCycle inv
      = ⟨true, cycleCombined b, b.recipe.outputs, none, none,
          ((inv.consume (cycleCombined b)).2.add b.recipe.outputs).2⟩ := by
    unfold Building.attemptCycle
    rw [if_neg hML, if_neg hIL]
    rw [show combineResources b.recipe.inputs b.recipe.maintenance = cycleCombined b from rfl]
    rw [if_neg hOL, if_neg hCL, if_neg (by rw [ha1]; exact fun hc => hc rfl)]
  rw [hbody]
  refine ⟨rfl, rfl, rfl, fun r => ?_, by rw [ha3, hc3]⟩
  rw [ha2 r, hc2 r, hposComb r, hposOut r]

/-- `Building._attempt_cycle` when the inputs and maintenance are covered but
the outputs do not fit: fails with `no_capacity` and leaves the inventory
untouched. -/
theorem attemptCycle_no_capacity (b : Building) (inv : Inventory)
    (hM : b.recipe.maintenance = [] ∨ inv.has b.recipe.maintenance = true)
    (hI : b.recipe.inputs = [] ∨ inv.has b.recipe.inputs = true)
    (hne : b.recipe.outputs ≠ [])
    (hnc : inv.canAdd b.recipe.outputs = false) :
    b.attemptCycle inv = ⟨false, [], [], some "no_capacity", none, inv⟩ := by
  have hML : ¬ (b.recipe.maintenance ≠ [] ∧ ¬ inv.has b.recipe.maintenance = true) := by
    rcases hM with h | h
    · exact fun hc => hc.1 h
    · exact fun hc => hc.2 h
  have hIL : ¬ (b.recipe.inputs ≠ [] ∧ ¬ inv.has b.recipe.inputs = true) := by
    rcases hI with h | h
    · exact fun hc => hc.1 h
    · exact fun hc => hc.2 h
  have hOL : b.recipe.outputs ≠ [] ∧ ¬ inv.canAdd b.recipe.outputs = true := by
    refine ⟨hne, ?_⟩
    rw [hnc]
    exact fun hc => by cases hc
  unfold Building.attemptCycle
  rw [if_neg hML, if_neg hIL, if_pos hOL]

/-- The discrete catch-up loop under full coverage for `n` cycles: every
iteration succeeds, so the loop consumes and produces exactly `n` cycles'
worth, decrements the progress by `n` cycle times and (for `n ≥ 1`) ends in
the `produced` state. -/
theorem cycleLoop_success : ∀ (n : ℕ) (s : LoopState),
    (∀ x, 0 ≤ s.inv.quantities x) →
    (∀ x, (n : ℚ) * amountOf (cycleCombined s.b) x ≤ s.inv.quantities x) →
    (∀ p ∈ s.b.recipe.outputs, 0 < p.2) →
    (∀ x c, s.inv.capacities x = some c →
      s.inv.quantities x + (n : ℚ) * amountOf s.b.recipe.outputs x ≤ c) →
    (cycleLoop n s).b.recipe = s.b.recipe ∧
    (cycleLoop n s).b.cycle_progress
      = s.b.cycle_progress - (n : ℚ) * s.b.recipe.cycle_time ∧
    (∀ r, (cycleLoop n s).inv.quantities r
      = s.inv.quantities r
        + (n : ℚ) * (amountOf s.b.recipe.outputs r - amountOf (cycleCombined s.b) r)) ∧
    (cycleLoop n s).inv.capacities = s.inv.capacities ∧
    (∀ r, amountOf (cycleLoop n s).totalConsumed r
      = amountOf s.totalConsumed r + (n : ℚ) * amountOf (cycleCombined s.b) r) ∧
    (∀ r, amountOf (cycleLoop n s).totalProduced r
      = amountOf s.totalProduced r + (n : ℚ) * amountOf s.b.recipe.outputs r) ∧
    (cycleLoop n s).finalStatus = (if n = 0 then s.finalStatus else "produced") ∧
    (cycleLoop n s).finalReason = (if n = 0 then s.finalReason else none) ∧
    (cycleLoop n s).finalDetail = s.finalDetail ∧
    (cycleLoop n s).notes = s.notes ∧
    ((∀ p ∈ s.totalConsumed, 0 < p.2) → ∀ p ∈ (cycleLoop n s).totalConsumed, 0 < p.2) ∧
    ((∀ p ∈ s.totalProduced, 0 < p.2) → ∀ p ∈ (cycleLoop n s).totalProduced, 0 < p.2) := by
  intro n
  induction n with
  | zero =>
      intro s hq0 hstock hout hcap
      refine ⟨rfl, by simp [cycleLoop], fun r => by simp [cycleLoop], rfl,
        fun r => by simp [cycleLoop], fun r => by simp [cycleLoop],
        by simp [cycleLoop], by simp [cycleLoop], rfl, rfl,
        fun h => by simpa [cycleLoop] using h, fun h => by simpa [cycleLoop] using h⟩
  | succ n ih =>
      intro s hq0 hstock hout hcap
      have hcombNN : ∀ x, 0 ≤ amountOf (cycleCombined s.b) x :=
        fun x => amountOf_cycleCombined_nonneg s.b x
      have houtNN : ∀ x, 0 ≤ amountOf s.b.recipe.outputs x := by
        intro x
        rw [← posAmountOf_eq_amountOf hout]
        exact posAmountOf_nonneg _ _
      have hnn : (0:ℚ) ≤ (n : ℚ) := by positivity
      have hcast : ((n + 1 : ℕ) : ℚ) = (n : ℚ) + 1 := by push_cast; ring
      have hstock1 : ∀ x, amountOf (cycleCombined s.b) x ≤ s.inv.quantities x := by
        intro x
        have := hstock x
        rw [hcast] at this
        nlinarith [hcombNN x]
      have hcap1 : ∀ x c, s.inv.capacities x = some c →
          s.inv.quantities x + amountOf s.b.recipe.outputs x ≤ c := by
        intro x c hc
        have := hcap x c hc
        rw [hcast] at this
        nlinarith [houtNN x]
      obtain ⟨hs, hcons, hprod, hqr, hcapeq⟩ :=
        attemptCycle_success s.b s.inv hq0 hstock1 hout hcap1
      -- the successor state fed to the remaining iterations
      set s' : LoopState :=
        { b := { s.b with
            maintenance_notified := false,
            cycle_progress := s.b.cycle_progress - s.b.recipe.cycle_time },
          inv := (s.b.attemptCycle s.inv).inv,
          notes := s.notes,
          totalConsumed := accumulate s.totalConsumed (s.b.attemptCycle s.inv).consumed,
          totalProduced := accumulate s.totalProduced (s.b.attemptCycle s.inv).produced,
          finalStatus := "produced", finalReason := none,
          finalDetail := s.finalDetail } with hs'
      have hunfold : cycleLoop (n + 1) s = cycleLoop n s' := by
        rw [hs']
        simp only [cycleLoop, hs, if_true]
      have hrec : s'.b.recipe = s.b.recipe := rfl
      have hcomb' : cycleCombined s'.b = cycleCombined s.b := rfl
      have hinv' : s'.inv = (s.b.attemptCycle s.inv).inv := rfl
      have hq0' : ∀ x, 0 ≤ s'.inv.quantities x := by
        intro x
        rw [hinv', hqr x]
        have := hstock x
        rw [hcast] at this
        nlinarith [hcombNN x, houtNN x]
      have hstock' : ∀ x, (n : ℚ) * amountOf (cycleCombined s'.b) x
          ≤ s'.inv.quantities x := by
        intro x
        rw [hcomb', hinv', hqr x]
        have := hstock x
        rw [hcast] at this
        nlinarith [hcombNN x, houtNN x]
      have hout' : ∀ p ∈ s'.b.recipe.outputs, 0 < p.2 := hout
      have hcap' : ∀ x c, s'.inv.capacities x = some c →
          s'.inv.quantities x + (n : ℚ) * amountOf s'.b.recipe.outputs x ≤ c := by
        intro x c hc
        rw [hinv'] at hc ⊢
        rw [hcapeq] at hc
        rw [hqr x, hrec]
        have := hcap x c hc
        rw [hcast] at this
        nlinarith [hcombNN x, houtNN x]
      obtain ⟨ih1, ih2, ih3, ih4, ih5, ih6, ih7, ih8, ih9, ih10, ih11, ih12⟩ :=
        ih s' hq0' hstock' hout' hcap'
      rw [hunfold]
      have hTC : ∀ r, amountOf s'.totalConsumed r
          = amountOf s.totalConsumed r + amountOf (cycleCombined s.b) r := by
        intro r
        rw [show s'.totalConsumed
          = accumulate s.totalConsumed (s.b.attemptCycle s.inv).consumed from rfl]
        have hcombpos : ∀ p ∈ cycleCombined s.b, 0 < p.2 := combineResources_pos _ _
        rw [hcons, amountOf_accumulate, posAmountOf_eq_amountOf hcombpos]
      have hTP : ∀ r, amountOf s'.totalProduced r
          = amountOf s.totalProduced r + amountOf s.b.recipe.outputs r := by
        intro r
        rw [show s'.totalProduced
          = accumulate s.totalProduced (s.b.attemptCycle s.inv).produced from rfl]
        rw [hprod, amountOf_accumulate, posAmountOf_eq_amountOf hout]
      refine ⟨ih1, ?_, ?_, ?_, ?_, ?_, ?_, ?_, ih9, ih10, ?_, ?_⟩
      · rw [ih2]
        rw [show s'.b.cycle_progress = s.b.cycle_progress - s.b.recipe.cycle_time from rfl,
          show s'.b.recipe = s.b.recipe from rfl, hcast]
        ring
      · intro r
        rw [ih3 r]
        rw [show s'.b.recipe = s.b.recipe from rfl,
          show cycleCombined s'.b = cycleCombined s.b from rfl,
          show s'.inv = (s.b.attemptCycle s.inv).inv from rfl, hqr r, hcast]
        ring
      · rw [ih4, show s'.inv = (s.b.attemptCycle s.inv).inv from rfl, hcapeq]
      · intro r
        rw [ih5 r, hTC r, show cycleCombined s'.b = cycleCombined s.b from rfl, hcast]
        ring
      · intro r
        rw [ih6 r, hTP r, show s'.b.recipe = s.b.recipe from rfl, hcast]
        ring
      · rw [ih7]
        by_cases hn : n = 0
        · simp [hn, hs']
        · simp [hn]
      · rw [ih8]
        by_cases hn : n = 0
        · simp [hn, hs']
        · simp [hn]
      · intro hpos
        apply ih11
        rw [show s'.totalConsumed
          = accumulate s.totalConsumed (s.b.attemptCycle s.inv).consumed from rfl]
        exact accumulate_pos hpos
      · intro hpos
        apply ih12
        rw [show s'.totalProduced
          = accumulate s.totalProduced (s.b.attemptCycle s.inv).produced from rfl]
        exact accumulate_pos hpos

/-- Unfolding of `Building.tick` on the discrete path when at least one full
cycle is pending. -/
theorem tick_discrete_eq (b : Building) (dt : ℚ) (inv : Inventory)
    (modifiers : List ℚ) (notes : List String)
    (hactive : b.inactiveReason = none)
    (hmode : truthyRates b.recipe.per_worker_output_rate = false)
    (hrate : 0 < b.effectiveRate b.assigned_workers modifiers)
    (hcycles : ¬ ⌊(b.cycle_progress + dt * b.effectiveRate b.assigned_workers modifiers)
        / b.recipe.cycle_time⌋ ≤ 0) :
    b.tick dt inv modifiers notes
      = (let final := cycleLoop
          (⌊(b.cycle_progress + dt * b.effectiveRate b.assigned_workers modifiers)
            / b.recipe.cycle_time⌋).toNat
          { b := { b with
              last_effective_rate := b.effectiveRate b.assigned_workers modifiers,
              cycle_progress :=
                b.cycle_progress + dt * b.effectiveRate b.assigned_workers modifiers },
            inv := inv, notes := notes, totalConsumed := [], totalProduced := [],
            finalStatus := "inactive", finalReason := some "inactive",
            finalDetail := none }
         let report : Report :=
           { status := final.finalStatus, reason := final.finalReason,
             consumed := resourcesToPayload final.totalConsumed,
             produced := resourcesToPayload final.totalProduced,
             detail := final.finalDetail }
         let b2 := if final.finalStatus = "produced"
           then { final.b with status := "ok" } else final.b
         ⟨{ b2 with production_report := report }, final.inv, report, final.notes⟩) := by
  unfold Building.tick
  rw [hactive]
  simp only [hmode, Bool.false_eq_true, if_false, if_neg (not_le.mpr hrate),
    if_neg hcycles]

/-- `Building.tick` on the discrete path with `n ≥ 1` fully-covered pending
cycles: multi-cycle catch-up executes exactly `n` cycles in the one call,
reporting `produced` and moving exactly `n` cycles' worth of resources. -/
theorem tick_discrete_produced (b : Building) (dt : ℚ) (inv : Inventory)
    (modifiers : List ℚ) (notes : List String) (n : ℕ)
    (hactive : b.inactiveReason = none)
    (hmode : truthyRates b.recipe.per_worker_output_rate = false)
    (hrate : 0 < b.effectiveRate b.assigned_workers modifiers)
    (hfloor : ⌊(b.cycle_progress + dt * b.effectiveRate b.assigned_workers modifiers)
        / b.recipe.cycle_time⌋ = (n : ℤ))
    (hn : 1 ≤ n)
    (hq0 : ∀ x, 0 ≤ inv.quantities x)
    (hstock : ∀ x, (n : ℚ) * amountOf (cycleCombined b) x ≤ inv.quantities x)
    (hout : ∀ p ∈ b.recipe.outputs, 0 < p.2)
    (hcap : ∀ x c, inv.capacities x = some c →
      inv.quantities x + (n : ℚ) * amountOf b.recipe.outputs x ≤ c) :
    (b.tick dt inv modifiers notes).report.status = "produced" ∧
    (b.tick dt inv modifiers notes).report.reason = none ∧
    (∀ r, amountOf (b.tick dt inv modifiers notes).report.consumed r
      = (n : ℚ) * amountOf (cycleCombined b) r) ∧
    (∀ r, amountOf (b.tick dt inv modifiers notes).report.produced r
      = (n : ℚ) * amountOf b.recipe.outputs r) ∧
    (∀ r, (b.tick dt inv modifiers notes).inv.quantities r
      = inv.quantities r
        + (n : ℚ) * (amountOf b.recipe.outputs r - amountOf (cycleCombined b) r)) ∧
    (b.tick dt inv modifiers notes).inv.capacities = inv.capacities ∧
    (b.tick dt inv modifiers notes).b.cycle_progress
      = b.cycle_progress + dt * b.effectiveRate b.assigned_workers modifiers
        - (n : ℚ) * b.recipe.cycle_time ∧
    (b.tick dt inv modifiers notes).notes = notes := by
  have hn0 : n ≠ 0 := by omega
  have hcycles : ¬ ⌊(b.cycle_progress + dt * b.effectiveRate b.assigned_workers modifiers)
      / b.recipe.cycle_time⌋ ≤ 0 := by
    rw [hfloor]
    have : (1 : ℤ) ≤ (n : ℤ) := by exact_mod_cast hn
    omega
  rw [tick_discrete_eq b dt inv modifiers notes hactive hmode hrate hcycles]
  rw [hfloor, Int.toNat_natCast]
  set s0 : LoopState :=
    { b := { b with
        last_effective_rate := b.effectiveRate b.assigned_workers modifiers,
        cycle_progress :=
          b.cycle_progress + dt * b.effectiveRate b.assigned_workers modifiers },
      inv := inv, notes := notes, totalConsumed := [], totalProduced := [],
      finalStatus := "inactive", finalReason := some "inactive",
      finalDetail := none } with hs0
  have hrec0 : s0.b.recipe = b.recipe := rfl
  have hcomb0 : cycleCombined s0.b = cycleCombined b := rfl
  have hinv0 : s0.inv = inv := rfl
  obtain ⟨l1, l2, l3, l4, l5, l6, l7, l8, l9, l10, l11, l12⟩ :=
    cycleLoop_success n s0 (by rw [hinv0]; exact hq0)
      (by intro x; rw [hcomb0, hinv0]; exact hstock x)
      (by rw [hrec0]; exact hout)
      (by intro x c hc; rw [hinv0] at hc ⊢; rw [hrec0]; exact hcap x c hc)
  have hstat : (cycleLoop n s0).finalStatus = "produced" := by
    rw [l7, if_neg hn0]
  have hreas : (cycleLoop n s0).finalReason = none := by
    rw [l8, if_neg hn0]
  have hTCpos : ∀ p ∈ (cycleLoop n s0).totalConsumed, 0 < p.2 := by
    apply l11
    intro p hp
    cases hp
  have hTPpos : ∀ p ∈ (cycleLoop n s0).totalProduced, 0 < p.2 := by
    apply l12
    intro p hp
    cases hp
  refine ⟨?_, ?_, fun r => ?_, fun r => ?_, fun r => ?_, ?_, ?_, ?_⟩
  · show (cycleLoop n s0).finalStatus = "produced"
    exact hstat
  · show (cycleLoop n s0).finalReason = none
    exact hreas
  · show amountOf (resourcesToPayload (cycleLoop n s0).totalConsumed) r = _
    rw [amountOf_resourcesToPayload, posAmountOf_eq_amountOf hTCpos, l5 r, hcomb0]
    simp [amountOf]
  · show amountOf (resourcesToPayload (cycleLoop n s0).totalProduced) r = _
    rw [amountOf_resourcesToPayload, posAmountOf_eq_amountOf hTPpos, l6 r, hrec0]
    simp [amountOf]
  · show (cycleLoop n s0).inv.quantities r = _
    rw [l3 r, hinv0, hrec0, hcomb0]
  · show (cycleLoop n s0).inv.capacities = _
    rw [l4, hinv0]
  · show (if (cycleLoop n s0).finalStatus = "produced"
        then { (cycleLoop n s0).b with status := "ok" }
        else (cycleLoop n s0).b).cycle_progress = _
    rw [hstat, if_pos (rfl : "produced" = "produced")]
    show (cycleLoop n s0).b.cycle_progress = _
    rw [l2, hrec0]
  · show (cycleLoop n s0).notes = _
    exact l10

/-- The discrete loop when the first attempted cycle fails with
`no_capacity`: the loop stops immediately, records the stall, clamps the
progress to one cycle time and leaves the inventory as the failed attempt
left it (untouched). -/
theorem cycleLoop_first_no_capacity (n : ℕ) (hn : 1 ≤ n) (s : LoopState)
    (hfail : s.b.attemptCycle s.inv = ⟨false, [], [], some "no_capacity", none, s.inv⟩) :
    cycleLoop n s = { s with
      b := { s.b with
        status := "capacidad_llena",
        cycle_progress := min s.b.cycle_progress s.b.recipe.cycle_time },
      finalStatus := "stalled", finalReason := some "no_capacity" } := by
  obtain ⟨m, rfl⟩ : ∃ m, n = m + 1 := ⟨n - 1, by omega⟩
  have hne1 : ((some "no_capacity" : Option String) = some "missing_input") = False := by
    simp
  simp only [cycleLoop, hfail, Bool.false_eq_true, if_false, hne1]
  simp

/-- C1: for every discrete-cycle building whose pending cycle passes the
maintenance and input availability checks but whose outputs would exceed the
ledger's remaining capacity, `tick` returns normally (it is a total function
into a report, never an exception) with production-report status `stalled`
and reason `no_capacity` — the code's spelling of `STALLED_NO_CAPACITY` —
clamps `cycle_progress` to exactly `cycle_time`, and leaves every ledger
quantity and capacity unchanged; the stall is reported only through the
per-tick report. -/
theorem tick_discrete_no_capacity (b : Building) (dt : ℚ) (inv : Inventory)
    (modifiers : List ℚ) (notes : List String)
    (hactive : b.inactiveReason = none)
    (hmode : truthyRates b.recipe.per_worker_output_rate = false)
    (hrate : 0 < b.effectiveRate b.assigned_workers modifiers)
    (hct : 0 < b.recipe.cycle_time)
    (hpend : 1 ≤ ⌊(b.cycle_progress + dt * b.effectiveRate b.assigned_workers modifiers)
        / b.recipe.cycle_time⌋)
    (hM : b.recipe.maintenance = [] ∨ inv.has b.recipe.maintenance = true)
    (hI : b.recipe.inputs = [] ∨ inv.has b.recipe.inputs = true)
    (hne : b.recipe.outputs ≠ [])
    (hnc : inv.canAdd b.recipe.outputs = false) :
    (b.tick dt inv modifiers notes).report.status = "stalled" ∧
    (b.tick dt inv modifiers notes).report.reason = some "no_capacity" ∧
    (b.tick dt inv modifiers notes).report.consumed = [] ∧
    (b.tick dt inv modifiers notes).report.produced = [] ∧
    (b.tick dt inv modifiers notes).b.cycle_progress = b.recipe.cycle_time ∧
    (∀ r, (b.tick dt inv modifiers notes).inv.quantities r = inv.quantities r) ∧
    (b.tick dt inv modifiers notes).inv.capacities = inv.capacities := by
  have hcycles : ¬ ⌊(b.cycle_progress + dt * b.effectiveRate b.assigned_workers modifiers)
      / b.recipe.cycle_time⌋ ≤ 0 := by omega
  rw [tick_discrete_eq b dt inv modifiers notes hactive hmode hrate hcycles]
  set p1 := b.cycle_progress + dt * b.effectiveRate b.assigned_workers modifiers with hp1
  have hge : b.recipe.cycle_time ≤ p1 := by
    have h1 : (1 : ℚ) ≤ p1 / b.recipe.cycle_time := by
      have := Int.le_floor.mp hpend
      exact_mod_cast this
    calc b.recipe.cycle_time = 1 * b.recipe.cycle_time := by ring
    _ ≤ (p1 / b.recipe.cycle_time) * b.recipe.cycle_time := by
        apply mul_le_mul_of_nonneg_right h1 (le_of_lt hct)
    _ = p1 := by field_simp
  set s0 : LoopState :=
    { b := { b with
        last_effective_rate := b.effectiveRate b.assigned_workers modifiers,
        cycle_progress := p1 },
      inv := inv, notes := notes, totalConsumed := [], totalProduced := [],
      finalStatus := "inactive", finalReason := some "inactive",
      finalDetail := none } with hs0
  have hfail : s0.b.attemptCycle s0.inv = ⟨false, [], [], some "no_capacity", none, s0.inv⟩ := by
    apply attemptCycle_no_capacity
    · exact hM
    · exact hI
    · exact hne
    · exact hnc
  have hn1 : 1 ≤ (⌊p1 / b.recipe.cycle_time⌋).toNat := by omega
  have hloop := cycleLoop_first_no_capacity _ hn1 s0 hfail
  have hclamp : min s0.b.cycle_progress s0.b.recipe.cycle_time = b.recipe.cycle_time := by
    have : s0.b.cycle_progress = p1 := rfl
    rw [this]
    exact min_eq_right hge
  refine ⟨?_, ?_, ?_, ?_, ?_, fun r => ?_, ?_⟩
  · show (cycleLoop (⌊p1 / b.recipe.cycle_time⌋).toNat s0).finalStatus = "stalled"
    rw [hloop]
  · show (cycleLoop (⌊p1 / b.recipe.cycle_time⌋).toNat s0).finalReason = some "no_capacity"
    rw [hloop]
  · show resourcesToPayload (cycleLoop (⌊p1 / b.recipe.cycle_time⌋).toNat s0).totalConsumed = []
    rw [hloop]
    rfl
  · show resourcesToPayload (cycleLoop (⌊p1 / b.recipe.cycle_time⌋).toNat s0).totalProduced = []
    rw [hloop]
    rfl
  · show (if (cycleLoop (⌊p1 / b.recipe.cycle_time⌋).toNat s0).finalStatus = "produced"
        then { (cycleLoop (⌊p1 / b.recipe.cycle_time⌋).toNat s0).b with status := "ok" }
        else (cycleLoop (⌊p1 / b.recipe.cycle_time⌋).toNat s0).b).cycle_progress
      = b.recipe.cycle_time
    rw [hloop]
    have hns : ("stalled" : String) ≠ "produced" := by decide
    rw [if_neg (by exact hns)]
    exact hclamp
  · show (cycleLoop (⌊p1 / b.recipe.cycle_time⌋).toNat s0).inv.quantities r = inv.quantities r
    rw [hloop]
  · show (cycleLoop (⌊p1 / b.recipe.cycle_time⌋).toNat s0).inv.capacities = inv.capacities
    rw [hloop]

/-- Unfolding of `Building._tick_continuous` on the branch where consumption
is reserved and the outputs then fail the capacity check: the reservation is
rolled back and the stall is reported. -/
theorem tickContinuous_no_capacity_eq (b : Building) (dt : ℚ) (inv : Inventory)
    (modifiers : List ℚ) (notes : List String)
    (hmult : 0 < modMultiplier modifiers)
    (hwo : ¬ (max 0 b.assigned_workers ≤ 0 ∨ b.recipe.per_worker_output_rate.getD [] = []))
    (heff : 0 < (contLimits b dt inv (modMultiplier modifiers)).1)
    (hcons : contConsumption b dt (modMultiplier modifiers)
      (contLimits b dt inv (modMultiplier modifiers)).1 ≠ [])
    (hhas : inv.has (contConsumption b dt (modMultiplier modifiers)
      (contLimits b dt inv (modMultiplier modifiers)).1) = true)
    (hprod : contProduction b dt (modMultiplier modifiers)
      (contLimits b dt inv (modMultiplier modifiers)).1 ≠ [])
    (hncap : (consumeList inv (contConsumption b dt (modMultiplier modifiers)
        (contLimits b dt inv (modMultiplier modifiers)).1)).canAdd
      (contProduction b dt (modMultiplier modifiers)
        (contLimits b dt inv (modMultiplier modifiers)).1) = false) :
    b.tickContinuous dt inv modifiers notes
      = ⟨{ b with
            last_effective_rate := modMultiplier modifiers, cycle_progress := 0,
            status := "capacidad_llena",
            production_report :=
              { status := "stalled", reason := some "no_capacity",
                consumed := [], produced := [], detail := none } },
          (consumeList inv (contConsumption b dt (modMultiplier modifiers)
            (contLimits b dt inv (modMultiplier modifiers)).1)).rollback
            ⟨(contConsumption b dt (modMultiplier modifiers)
              (contLimits b dt inv (modMultiplier modifiers)).1).map
                fun p => (p.1, inv.quantities p.1)⟩,
          { status := "stalled", reason := some "no_capacity",
            consumed := [], produced := [], detail := none },
          notes⟩ := by
  have hres : inv.reserve (contConsumption b dt (modMultiplier modifiers)
      (contLimits b dt inv (modMultiplier modifiers)).1)
      = some (⟨(contConsumption b dt (modMultiplier modifiers)
          (contLimits b dt inv (modMultiplier modifiers)).1).map
            fun p => (p.1, inv.quantities p.1)⟩,
        consumeList inv (contConsumption b dt (modMultiplier modifiers)
          (contLimits b dt inv (modMultiplier modifiers)).1)) := by
    unfold Inventory.reserve
    rw [if_pos hhas]
  have hpos : (contProduction b dt (modMultiplier modifiers)
      (contLimits b dt inv (modMultiplier modifiers)).1 ≠ [] ∧
      ¬ (consumeList inv (contConsumption b dt (modMultiplier modifiers)
          (contLimits b dt inv (modMultiplier modifiers)).1)).canAdd
        (contProduction b dt (modMultiplier modifiers)
          (contLimits b dt inv (modMultiplier modifiers)).1) = true) := by
    refine ⟨hprod, ?_⟩
    rw [hncap]
    exact fun hc => by cases hc
  unfold Building.tickContinuous
  simp only [if_neg (not_le.mpr hmult), if_neg hwo, if_neg (not_le.mpr heff),
    if_pos hcons, hres, if_pos hpos]

/-- `Building.tick` dispatches to `_tick_continuous` for an active building
whose recipe has a truthy `per_worker_output_rate`. -/
theorem tick_dispatch_continuous (b : Building) (dt : ℚ) (inv : Inventory)
    (modifiers : List ℚ) (notes : List String)
    (hactive : b.inactiveReason = none)
    (htruthy : truthyRates b.recipe.per_worker_output_rate = true) :
    b.tick dt inv modifiers notes = b.tickContinuous dt inv modifiers notes := by
  unfold Building.tick
  rw [hactive]
  simp only [htruthy, if_true]

/-! ## Concrete fixtures for the instantiated examples

Distinctness facts for the concrete resource keys, building keys and status
strings the fixtures use, registered for `simp` so that the arithmetic
normalizer can discharge table lookups. -/

@[simp] theorem key_stone_sticks : (("STONE" : Resource) = "STICKS") = False := by simp
@[simp] theorem key_sticks_stone : (("STICKS" : Resource) = "STONE") = False := by simp
@[simp] theorem key_wood_sticks : (("WOOD" : Resource) = "STICKS") = False := by simp
@[simp] theorem key_sticks_wood : (("STICKS" : Resource) = "WOOD") = False := by simp
@[simp] theorem key_wood_stone : (("WOOD" : Resource) = "STONE") = False := by simp
@[simp] theorem key_stone_wood : (("STONE" : Resource) = "WOOD") = False := by simp
@[simp] theorem key_wood_plank : (("WOOD" : Resource) = "PLANK") = False := by simp
@[simp] theorem key_plank_wood : (("PLANK" : Resource) = "WOOD") = False := by simp
@[simp] theorem key_gold_wood : (("GOLD" : Resource) = "WOOD") = False := by simp
@[simp] theorem key_wood_gold : (("WOOD" : Resource) = "GOLD") = False := by simp
@[simp] theorem key_gold_plank : (("GOLD" : Resource) = "PLANK") = False := by simp
@[simp] theorem key_plank_gold : (("PLANK" : Resource) = "GOLD") = False := by simp
@[simp] theorem key_fish_gold : (("FISH" : Resource) = "GOLD") = False := by simp
@[simp] theorem key_gold_fish : (("GOLD" : Resource) = "FISH") = False := by simp
@[simp] theorem key_stone_plank : (("STONE" : Resource) = "PLANK") = False := by simp
@[simp] theorem key_plank_stone : (("PLANK" : Resource) = "STONE") = False := by simp

/-! ## Concrete fixtures -/

/-- Witness for C1: the lumber hut with a full plank store stalls with
`no_capacity`, clamps its progress, and leaves the ledger untouched. -/
theorem tick_discrete_no_capacity_witness :
    (lumberHut.tick 16 invC1 [1, 1] []).report.status = "stalled" ∧
    (lumberHut.tick 16 invC1 [1, 1] []).report.reason = some "no_capacity" ∧
    (lumberHut.tick 16 invC1 [1, 1] []).report.consumed = [] ∧
    (lumberHut.tick 16 invC1 [1, 1] []).report.produced = [] ∧
    (lumberHut.tick 16 invC1 [1, 1] []).b.cycle_progress = lumberHut.recipe.cycle_time ∧
    (∀ r, (lumberHut.tick 16 invC1 [1, 1] []).inv.quantities r = invC1.quantities r) ∧
    (lumberHut.tick 16 invC1 [1, 1] []).inv.capacities = invC1.capacities :=
  tick_discrete_no_capacity lumberHut 16 invC1 [1, 1] []
    (by norm_num [Building.inactiveReason, Building.maxWorkers, Building.builtMultiplier,
      lumberHut, lumberRecipe])
    (by norm_num [truthyRates, lumberHut, lumberRecipe])
    (by norm_num [Building.effectiveRate, Building.maxWorkers, Building.builtMultiplier,
      modMultiplier, lumberHut, lumberRecipe])
    (by norm_num [lumberHut, lumberRecipe])
    (by norm_num [Building.effectiveRate, Building.maxWorkers, Building.builtMultiplier,
      modMultiplier, lumberHut, lumberRecipe])
    (Or.inl rfl)
    (Or.inr (by norm_num [Inventory.has, mkInventory, amountOf, eps9, invC1,
      lumberHut, lumberRecipe]))
    (by norm_num [lumberHut, lumberRecipe])
    (by simp [Inventory.canAdd, mkInventory, amountOf, invC1, lumberHut, lumberRecipe])

/-- C2: the ledger's reservation protocol (`reserve`/`commit`/`rollback`,
modelled from the spec because the methods are absent from `inventory.py`)
earmarks the computed consumption first on every continuous-mode tick with
non-empty consumption; when the outputs cannot be added for lack of capacity
the reservation is rolled back, so every ledger quantity and capacity is
exactly as before the tick and the report says `stalled` / `no_capacity`. -/
theorem tick_continuous_rollback_exact (b : Building) (dt : ℚ) (inv : Inventory)
    (modifiers : List ℚ) (notes : List String)
    (hactive : b.inactiveReason = none)
    (htruthy : truthyRates b.recipe.per_worker_output_rate = true)
    (hmult : 0 < modMultiplier modifiers)
    (hwo : ¬ (max 0 b.assigned_workers ≤ 0 ∨ b.recipe.per_worker_output_rate.getD [] = []))
    (heff : 0 < (contLimits b dt inv (modMultiplier modifiers)).1)
    (hcons : contConsumption b dt (modMultiplier modifiers)
      (contLimits b dt inv (modMultiplier modifiers)).1 ≠ [])
    (hhas : inv.has (contConsumption b dt (modMultiplier modifiers)
      (contLimits b dt inv (modMultiplier modifiers)).1) = true)
    (hprod : contProduction b dt (modMultiplier modifiers)
      (contLimits b dt inv (modMultiplier modifiers)).1 ≠ [])
    (hncap : (consumeList inv (contConsumption b dt (modMultiplier modifiers)
        (contLimits b dt inv (modMultiplier modifiers)).1)).canAdd
      (contProduction b dt (modMultiplier modifiers)
        (contLimits b dt inv (modMultiplier modifiers)).1) = false) :
    (b.tick dt inv modifiers notes).report.status = "stalled" ∧
    (b.tick dt inv modifiers notes).report.reason = some "no_capacity" ∧
    (b.tick dt inv modifiers notes).report.consumed = [] ∧
    (b.tick dt inv modifiers notes).report.produced = [] ∧
    (∀ r, (b.tick dt inv modifiers notes).inv.quantities r = inv.quantities r) ∧
    (b.tick dt inv modifiers notes).inv.capacities = inv.capacities ∧
    (b.tick dt inv modifiers notes).notes = notes := by
  rw [tick_dispatch_continuous b dt inv modifiers notes hactive htruthy,
    tickContinuous_no_capacity_eq b dt inv modifiers notes hmult hwo heff hcons hhas
      hprod hncap]
  have hres : inv.reserve (contConsumption b dt (modMultiplier modifiers)
      (contLimits b dt inv (modMultiplier modifiers)).1)
      = some (⟨(contConsumption b dt (modMultiplier modifiers)
          (contLimits b dt inv (modMultiplier modifiers)).1).map
            fun p => (p.1, inv.quantities p.1)⟩,
        consumeList inv (contConsumption b dt (modMultiplier modifiers)
          (contLimits b dt inv (modMultiplier modifiers)).1)) := by
    unfold Inventory.reserve
    rw [if_pos hhas]
  obtain ⟨hq, hc⟩ := reserve_rollback_id _ inv _ _ hres
  exact ⟨rfl, rfl, rfl, rfl, hq, hc, rfl⟩

set_option maxHeartbeats 1600000 in
/-- Witness for C2: the woodcutter camp with a full wood store reserves its
stick/stone consumption, fails the capacity check, rolls back, and the
ledger is exactly as before. -/
theorem tick_continuous_rollback_exact_witness :
    (woodcutterCamp.tick 1 invC2 [1, 1] []).report.status = "stalled" ∧
    (woodcutterCamp.tick 1 invC2 [1, 1] []).report.reason = some "no_capacity" ∧
    (woodcutterCamp.tick 1 invC2 [1, 1] []).report.consumed = [] ∧
    (woodcutterCamp.tick 1 invC2 [1, 1] []).report.produced = [] ∧
    (∀ r, (woodcutterCamp.tick 1 invC2 [1, 1] []).inv.quantities r = invC2.quantities r) ∧
    (woodcutterCamp.tick 1 invC2 [1, 1] []).inv.capacities = invC2.capacities ∧
    (woodcutterCamp.tick 1 invC2 [1, 1] []).notes = [] := by
  have hml : modMultiplier [1, 1] = (1 : ℚ) := by norm_num [modMultiplier]
  have hlim : (contLimits woodcutterCamp 1 invC2 (modMultiplier [1, 1])).1 = 2 := by
    norm_num [contLimits, Inventory.getAmount, mkInventory, amountOf, invC2,
      woodcutterCamp, woodcutterRecipe, modMultiplier, truncQ, eps9]
  have hconsEq : contConsumption woodcutterCamp 1 (modMultiplier [1, 1])
      (contLimits woodcutterCamp 1 invC2 (modMultiplier [1, 1])).1
      = [("STICKS", 2 / 25), ("STONE", 2 / 25)] := by
    rw [hlim, hml]
    norm_num [contConsumption, woodcutterCamp, woodcutterRecipe,
      List.filterMap_cons, List.filterMap_nil]
  have hprodEq : contProduction woodcutterCamp 1 (modMultiplier [1, 1])
      (contLimits woodcutterCamp 1 invC2 (modMultiplier [1, 1])).1
      = [("WOOD", 1 / 50)] := by
    rw [hlim, hml]
    norm_num [contProduction, woodcutterCamp, woodcutterRecipe,
      List.filterMap_cons, List.filterMap_nil]
  have hcapsWood : invC2.capacities "WOOD" = some 30 := by
    norm_num [invC2, mkInventory, List.find?]
  have hqWood : invC2.quantities "WOOD" = 30 := by
    norm_num [invC2, mkInventory, amountOf]
  have huntouched : (consumeList invC2 [("STICKS", 2 / 25), ("STONE", 2 / 25)]).quantities "WOOD"
      = invC2.quantities "WOOD" := by
    apply consumeList_untouched
    intro p hp
    rcases List.mem_cons.mp hp with h | h
    · subst h; simp
    · rcases List.mem_cons.mp h with h2 | h2
      · subst h2; simp
      · cases h2
  have hncap : (consumeList invC2 (contConsumption woodcutterCamp 1 (modMultiplier [1, 1])
      (contLimits woodcutterCamp 1 invC2 (modMultiplier [1, 1])).1)).canAdd
      (contProduction woodcutterCamp 1 (modMultiplier [1, 1])
        (contLimits woodcutterCamp 1 invC2 (modMultiplier [1, 1])).1) = false := by
    rw [hconsEq, hprodEq]
    have hcaps : (consumeList invC2 [("STICKS", 2 / 25), ("STONE", 2 / 25)]).capacities
        = invC2.capacities := consumeList_capacities _ _
    have hcw : (consumeList invC2 [("STICKS", 2 / 25), ("STONE", 2 / 25)]).capacities "WOOD"
        = some 30 := by
      rw [hcaps]
      exact hcapsWood
    refine canAdd_single _ "WOOD" (1 / 50) 30 (by norm_num) hcw ?_
    rw [huntouched, hqWood]
    norm_num
  exact tick_continuous_rollback_exact woodcutterCamp 1 invC2 [1, 1] []
    (by norm_num [Building.inactiveReason, Building.maxWorkers, Building.builtMultiplier,
      woodcutterCamp, woodcutterRecipe])
    (by norm_num [truthyRates, woodcutterCamp, woodcutterRecipe])
    (by norm_num [modMultiplier])
    (by simp [woodcutterCamp, woodcutterRecipe])
    (by rw [hlim]; norm_num)
    (by rw [hconsEq]; simp)
    (by rw [hconsEq]
        norm_num [Inventory.has, Inventory.getAmount, mkInventory, amountOf, invC2, eps9])
    (by rw [hprodEq]; simp)
    hncap

/-- C3 (corrected): a discrete-cycle building with `cycle_time = 4`,
`max_workers = 2`, exactly one assigned worker, all season modifiers equal
to 1, zero prior progress, ample input stock and no binding output
capacity, ticked once with `dt = 16`, executes exactly TWO production
cycles — the rate is `clamp(1/2, 0, 1) * 1 = 1/2`, so progress advances by
`16 * 1/2 = 8` and `int(8 // 4) = 2` — consuming and producing exactly two
cycles' worth of resources, not the four cycles the spec asserts. -/
theorem tick_sixteen_exactly_two_cycles (b : Building) (inv : Inventory)
    (hct : b.recipe.cycle_time = 4)
    (hmw : b.recipe.max_workers = 2)
    (hwork : b.assigned_workers = 1)
    (hbuilt : b.built = 1)
    (hen : b.enabled = true)
    (hprog : b.cycle_progress = 0)
    (hmode : truthyRates b.recipe.per_worker_output_rate = false)
    (hq0 : ∀ x, 0 ≤ inv.quantities x)
    (hstock : ∀ x, 2 * amountOf (cycleCombined b) x ≤ inv.quantities x)
    (hout : ∀ p ∈ b.recipe.outputs, 0 < p.2)
    (hcap : ∀ x c, inv.capacities x = some c →
      inv.quantities x + 2 * amountOf b.recipe.outputs x ≤ c) :
    (b.tick 16 inv [1, 1] []).report.status = "produced" ∧
    (∀ r, amountOf (b.tick 16 inv [1, 1] []).report.consumed r
      = 2 * amountOf (cycleCombined b) r) ∧
    (∀ r, amountOf (b.tick 16 inv [1, 1] []).report.produced r
      = 2 * amountOf b.recipe.outputs r) ∧
    (∀ r, (b.tick 16 inv [1, 1] []).inv.quantities r
      = inv.quantities r
        + 2 * (amountOf b.recipe.outputs r - amountOf (cycleCombined b) r)) ∧
    (b.tick 16 inv [1, 1] []).b.cycle_progress = 0 := by
  have hbm : b.builtMultiplier = 1 := by
    unfold Building.builtMultiplier
    rw [hbuilt]
    norm_num
  have hmwk : b.maxWorkers = 2 := by
    unfold Building.maxWorkers
    rw [hbm, hbuilt, hmw]
    norm_num
  have hrate : b.effectiveRate b.assigned_workers [1, 1] = 1 / 2 := by
    unfold Building.effectiveRate
    rw [hmwk, hwork]
    norm_num [modMultiplier, List.foldl_cons, List.foldl_nil]
  have hactive : b.inactiveReason = none := by
    unfold Building.inactiveReason
    rw [hbuilt, hen, hwork, hmwk]
    norm_num
  have hfloor : ⌊(b.cycle_progress + 16 * b.effectiveRate b.assigned_workers [1, 1])
      / b.recipe.cycle_time⌋ = ((2 : ℕ) : ℤ) := by
    rw [hprog, hrate, hct]
    norm_num
  obtain ⟨h1, h2, h3, h4, h5, h6, h7, h8⟩ :=
    tick_discrete_produced b 16 inv [1, 1] [] 2 hactive hmode
      (by rw [hrate]; norm_num) hfloor (by norm_num) hq0
      (by intro x
          have := hstock x
          push_cast
          linarith)
      hout
      (by intro x c hc
          have := hcap x c hc
          push_cast
          linarith)
  refine ⟨h1, ?_, ?_, ?_, ?_⟩
  · intro r
    rw [h3 r]
    push_cast
    ring
  · intro r
    rw [h4 r]
    push_cast
    ring
  · intro r
    rw [h5 r]
    push_cast
    ring
  · rw [h7, hprog, hrate, hct]
    push_cast
    norm_num

/-- C3 counterexample: the spec's own concrete example — the lumber hut
(`cycle_time = 4`, `max_workers = 2`, one assigned worker, modifiers 1,
ample wood, no capacities) ticked once with `dt = 16` — reports exactly 2
planks produced and 4 wood consumed: two cycles' worth, not the four
cycles' worth (4 planks) the spec asserts. -/
theorem tick_sixteen_not_four_cycles :
    amountOf (lumberHut.tick 16 invC3 [1, 1] []).report.produced "PLANK" = 2 ∧
    amountOf (lumberHut.tick 16 invC3 [1, 1] []).report.consumed "WOOD" = 4 ∧
    amountOf (lumberHut.tick 16 invC3 [1, 1] []).report.produced "PLANK"
      ≠ 4 * amountOf lumberHut.recipe.outputs "PLANK" := by
  obtain ⟨h1, h2, h3, h4, h5, h6, h7, h8⟩ :=
    tick_discrete_produced lumberHut 16 invC3 [1, 1] [] 2
      (by norm_num [Building.inactiveReason, Building.maxWorkers, Building.builtMultiplier,
        lumberHut, lumberRecipe])
      (by norm_num [truthyRates, lumberHut, lumberRecipe])
      (by norm_num [Building.effectiveRate, Building.maxWorkers, Building.builtMultiplier,
        modMultiplier, lumberHut, lumberRecipe])
      (by norm_num [Building.effectiveRate, Building.maxWorkers, Building.builtMultiplier,
        modMultiplier, lumberHut, lumberRecipe])
      (by norm_num)
      (by intro x
          simp only [invC3, mkInventory, amountOf]
          split <;> norm_num)
      (by intro x
          have hcc : amountOf (cycleCombined lumberHut) x
              = posAmountOf [("WOOD", 2)] x + posAmountOf [] x :=
            amountOf_combineResources _ _ x
          rw [hcc]
          by_cases h : ("WOOD" : Resource) = x
          · norm_num [posAmountOf, invC3, mkInventory, amountOf, if_pos h]
          · norm_num [posAmountOf, invC3, mkInventory, amountOf, if_neg h, h])
      (by intro p hp
          simp only [lumberHut, lumberRecipe, List.mem_cons,
            List.not_mem_nil, or_false] at hp
          subst hp
          norm_num)
      (by intro x c hc
          simp [invC3, mkInventory, List.find?] at hc)
  have hp : amountOf (lumberHut.tick 16 invC3 [1, 1] []).report.produced "PLANK" = 2 := by
    rw [h4 "PLANK"]
    norm_num [lumberHut, lumberRecipe, amountOf]
  have hw : amountOf (lumberHut.tick 16 invC3 [1, 1] []).report.consumed "WOOD" = 4 := by
    rw [h3 "WOOD"]
    have hcc : amountOf (cycleCombined lumberHut) "WOOD"
        = posAmountOf [("WOOD", 2)] "WOOD" + posAmountOf [] "WOOD" :=
      amountOf_combineResources _ _ "WOOD"
    rw [hcc]
    norm_num [posAmountOf]
  refine ⟨hp, hw, ?_⟩
  rw [hp]
  norm_num [lumberHut, lumberRecipe, amountOf]

/-- Witness for C3: the lumber hut with ample uncapped wood, ticked once
with `dt = 16`, produces two cycles' worth and ends with zero leftover
progress. -/
theorem tick_sixteen_exactly_two_cycles_witness :
    (lumberHut.tick 16 invC3 [1, 1] []).report.status = "produced" ∧
    (∀ r, amountOf (lumberHut.tick 16 invC3 [1, 1] []).report.consumed r
      = 2 * amountOf (cycleCombined lumberHut) r) ∧
    (∀ r, amountOf (lumberHut.tick 16 invC3 [1, 1] []).report.produced r
      = 2 * amountOf lumberHut.recipe.outputs r) ∧
    (∀ r, (lumberHut.tick 16 invC3 [1, 1] []).inv.quantities r
      = invC3.quantities r
        + 2 * (amountOf lumberHut.recipe.outputs r
          - amountOf (cycleCombined lumberHut) r)) ∧
    (lumberHut.tick 16 invC3 [1, 1] []).b.cycle_progress = 0 :=
  tick_sixteen_exactly_two_cycles lumberHut invC3 rfl rfl rfl rfl rfl rfl rfl
    (by intro x
        simp only [invC3, mkInventory, amountOf]
        split <;> norm_num)
    (by intro x
        have hcc : amountOf (cycleCombined lumberHut) x
            = posAmountOf [("WOOD", 2)] x + posAmountOf [] x :=
          amountOf_combineResources _ _ x
        rw [hcc]
        by_cases h : ("WOOD" : Resource) = x
        · norm_num [posAmountOf, invC3, mkInventory, amountOf, if_pos h]
        · norm_num [posAmountOf, invC3, mkInventory, amountOf, if_neg h, h])
    (by intro p hp
        simp only [lumberHut, lumberRecipe, List.mem_cons,
          List.not_mem_nil, or_false] at hp
        subst hp
        norm_num)
    (by intro x c hc
        simp [invC3, mkInventory, List.find?] at hc)

/-! ## Worker pool lemmas (C5, C6) -/

theorem foldl_add_max (l : List Building) (a : ℤ) :
    l.foldl (fun acc x => acc + max 0 x.assigned_workers) a
      = a + sumAssignedL l := by
  induction l generalizing a with
  | nil => simp [sumAssignedL]
  | cons h t ih =>
      rw [List.foldl_cons]
      rw [ih]
      have : sumAssignedL (h :: t)
          = (0 + max 0 h.assigned_workers) + sumAssignedL t := by
        unfold sumAssignedL
        rw [List.foldl_cons]
        exact ih _
      rw [this]
      ring

theorem sumAssignedL_cons (b : Building) (l : List Building) :
    sumAssignedL (b :: l) = max 0 b.assigned_workers + sumAssignedL l := by
  show List.foldl (fun acc x => acc + max 0 x.assigned_workers) 0 (b :: l)
    = max 0 b.assigned_workers + sumAssignedL l
  rw [List.foldl_cons, foldl_add_max]
  ring

theorem sumAssigned_eq (pool : WorkerPool) :
    pool.sumAssigned = sumAssignedL pool.buildings := rfl

theorem map_update_self (l : List Building) (b : Building)
    (hsame : ∀ x ∈ l, x.id = b.id → x = b) :
    (l.map fun x => if x.id = b.id then b else x) = l := by
  induction l with
  | nil => rfl
  | cons h t ih =>
      rw [List.map_cons, ih (fun x hx => hsame x (List.mem_cons_of_mem _ hx))]
      by_cases hid : h.id = b.id
      · rw [if_pos hid, hsame h (List.mem_cons_self _ _) hid]
      · rw [if_neg hid]

theorem map_update_of_countP_zero (l : List Building) (b b' : Building)
    (h0 : l.countP (fun x => x.id = b.id) = 0) :
    (l.map fun x => if x.id = b.id then b' else x) = l := by
  induction l with
  | nil => rfl
  | cons h t ih =>
      rw [List.countP_cons] at h0
      by_cases hid : h.id = b.id
      · rw [if_pos (decide_eq_true hid)] at h0
        omega
      · have ht : t.countP (fun x => x.id = b.id) = 0 := by
          rw [if_neg (by simp [hid])] at h0
          omega
        rw [List.map_cons, if_neg hid, ih ht]

theorem sumAssignedL_update (l : List Building) (b b' : Building)
    (hsame : ∀ x ∈ l, x.id = b.id → x = b)
    (hcount : l.countP (fun x => x.id = b.id) = 1) :
    sumAssignedL (l.map fun x => if x.id = b.id then b' else x)
      = sumAssignedL l - max 0 b.assigned_workers + max 0 b'.assigned_workers := by
  induction l with
  | nil => simp [List.countP_nil] at hcount
  | cons h t ih =>
      rw [List.countP_cons] at hcount
      by_cases hid : h.id = b.id
      · have hb : h = b := hsame h (List.mem_cons_self _ _) hid
        have htcount : t.countP (fun x => x.id = b.id) = 0 := by
          rw [if_pos (decide_eq_true hid)] at hcount
          omega
        rw [List.map_cons, if_pos hid, map_update_of_countP_zero t b b' htcount,
          sumAssignedL_cons, sumAssignedL_cons, hb]
        ring
      · have htcount : t.countP (fun x => x.id = b.id) = 1 := by
          simp [hid] at hcount
          omega
        rw [List.map_cons, if_neg hid, sumAssignedL_cons, sumAssignedL_cons,
          ih (fun x hx => hsame x (List.mem_cons_of_mem _ hx)) htcount]
        ring

theorem registerBuilding_self (pool : WorkerPool) (b : Building)
    (hmem : pool.buildings.any (fun x => x.id = b.id) = true)
    (hsame : ∀ x ∈ pool.buildings, x.id = b.id → x = b) :
    pool.registerBuilding b = pool := by
  unfold WorkerPool.registerBuilding
  rw [if_pos hmem, map_update_self _ _ hsame]

/-- C5 (corrected): `assign_workers` does preserve the labor invariant — on a
pool whose registered entry for the building is the building itself (the
`id`-keyed aliasing the Python dict maintains), any successful
`assign_workers` keeps `Σ max(0, assigned) ≤ total_workers` and every
registered building at or under its `max_workers`.  The spec's "at all
times" claim is false, though: `set_assignment` clamps only against
`max_workers` and never against the population (see the counterexample), so
the sum invariant can be violated by that operation. -/
theorem assignWorkers_preserves_labor_invariant (pool : WorkerPool) (b : Building)
    (n k : ℤ) (pool' : WorkerPool)
    (hmem : pool.buildings.any (fun x => x.id = b.id) = true)
    (hsame : ∀ x ∈ pool.buildings, x.id = b.id → x = b)
    (hcount : pool.buildings.countP (fun x => x.id = b.id) = 1)
    (hb0 : 0 ≤ b.assigned_workers)
    (hsum : pool.sumAssigned ≤ pool.total_workers)
    (hmaxs : ∀ x ∈ pool.buildings, x.assigned_workers ≤ x.maxWorkers)
    (h : pool.assignWorkers b n = .ok (k, pool')) :
    pool'.sumAssigned ≤ pool'.total_workers ∧
    ∀ x ∈ pool'.buildings, x.assigned_workers ≤ x.maxWorkers := by
  have hreg : pool.registerBuilding b = pool := registerBuilding_self pool b hmem hsame
  rw [WorkerPool.assignWorkers] at h
  simp only [hreg] at h
  split_ifs at h with h1 h2 h3 h4 h5
  · -- number ≤ 0: nothing changes
    rw [Except.ok.injEq, Prod.mk.injEq] at h
    rw [← h.2]
    exact ⟨hsum, hmaxs⟩
  · rw [Except.ok.injEq, Prod.mk.injEq] at h
    obtain ⟨hk, hp⟩ := h
    set b' : Building := { b with assigned_workers := b.assigned_workers + n } with hb'
    have hmem' : pool.buildings.any (fun x => x.id = b'.id) = true := hmem
    have hpool' : pool' = { pool with
        buildings := pool.buildings.map fun x => if x.id = b'.id then b' else x } := by
      rw [← hp]
      unfold WorkerPool.registerBuilding
      rw [if_pos hmem']
    have hsum' : sumAssignedL (pool.buildings.map fun x => if x.id = b'.id then b' else x)
        = sumAssignedL pool.buildings - max 0 b.assigned_workers
          + max 0 b'.assigned_workers :=
      sumAssignedL_update pool.buildings b b' hsame hcount
    push_neg at h1
    have hn' : b'.assigned_workers = b.assigned_workers + n := rfl
    have havail : pool.availableWorkers = pool.total_workers - pool.sumAssigned := by
      have h3' : ¬ pool.availableWorkers ≤ 0 := h3
      unfold WorkerPool.availableWorkers at h3' ⊢
      rcases max_choice 0 (pool.total_workers - pool.sumAssigned) with hmx | hmx
      · rw [hmx] at h3'
        omega
      · exact hmx
    constructor
    · rw [hpool']
      show sumAssignedL (pool.buildings.map fun x => if x.id = b'.id then b' else x)
        ≤ pool.total_workers
      rw [hsum', hn']
      rw [max_eq_right hb0, max_eq_right (by omega)]
      rw [havail, sumAssigned_eq] at h4
      rw [sumAssigned_eq] at hsum
      omega
    · rw [hpool']
      intro x hx
      rcases List.mem_map.mp hx with ⟨y, hy, hfy⟩
      by_cases hid : y.id = b'.id
      · rw [if_pos hid] at hfy
        rw [← hfy, hn']
        have hmx : b'.maxWorkers = b.maxWorkers := rfl
        rw [hmx]
        push_neg at h5
        omega
      · rw [if_neg hid] at hfy
        rw [← hfy]
        exact hmaxs y hy

/-- C5 counterexample: `set_assignment` ignores the population entirely — a
pool with a single available worker accepts a two-worker assignment through
`set_assignment`, ending with `Σ assigned = 2 > 1 = total_workers`. -/
theorem setAssignment_breaks_labor_invariant :
    (({ total_workers := 1, buildings := [] } : WorkerPool).setAssignment
        lumberHut 2).sumAssigned = 2 ∧
    (({ total_workers := 1, buildings := [] } : WorkerPool).setAssignment
        lumberHut 2).total_workers = 1 ∧
    ¬ ((({ total_workers := 1, buildings := [] } : WorkerPool).setAssignment
        lumberHut 2).sumAssigned
      ≤ (({ total_workers := 1, buildings := [] } : WorkerPool).setAssignment
        lumberHut 2).total_workers) := by
  have h : ({ total_workers := 1, buildings := [] } : WorkerPool).setAssignment lumberHut 2
      = { total_workers := 1,
          buildings := [{ lumberHut with assigned_workers := 2 }] } := by
    unfold WorkerPool.setAssignment WorkerPool.registerBuilding
    norm_num [Building.maxWorkers, Building.builtMultiplier, lumberHut, lumberRecipe,
      List.any_nil]
  rw [h]
  refine ⟨?_, rfl, ?_⟩
  · rw [sumAssigned_eq, sumAssignedL_cons]
    norm_num [sumAssignedL]
  · rw [sumAssigned_eq, sumAssignedL_cons]
    norm_num [sumAssignedL]

/-- Witness for C5: granting one more worker to the registered lumber hut in
a three-worker pool keeps the sum at 2 ≤ 3 and the hut at 2 ≤ 2 workers. -/
theorem assignWorkers_preserves_labor_invariant_witness :
    poolC5'.sumAssigned ≤ poolC5'.total_workers ∧
    ∀ x ∈ poolC5'.buildings, x.assigned_workers ≤ x.maxWorkers :=
  assignWorkers_preserves_labor_invariant poolC5 lumberHut 1 1 poolC5'
    (by norm_num [poolC5, List.any_cons, Building.id])
    (by intro x hx hid
        simp only [poolC5, List.mem_cons, List.not_mem_nil, or_false] at hx
        exact hx)
    (by norm_num [poolC5, List.countP_cons, Building.id])
    (by norm_num [lumberHut])
    (by rw [sumAssigned_eq]
        norm_num [poolC5, sumAssignedL_cons, sumAssignedL, lumberHut])
    (by intro x hx
        simp only [poolC5, List.mem_cons, List.not_mem_nil, or_false] at hx
        subst hx
        norm_num [Building.maxWorkers, Building.builtMultiplier, lumberHut, lumberRecipe])
    (by unfold WorkerPool.assignWorkers WorkerPool.registerBuilding
        norm_num [WorkerPool.availableWorkers, WorkerPool.sumAssigned,
          Building.maxWorkers, Building.builtMultiplier, Building.id,
          lumberHut, lumberRecipe, poolC5, poolC5', List.any_cons])

/-- C6 (corrected): `assign_workers` is all-or-nothing — a success grants
exactly the requested number, and that happens only when the request fits
both the available population and the building's remaining room; whenever
the positive request exceeds either bound the call raises a
`WorkerAllocationError` instead of applying the positive partial grant
`min(requested, available, room)` the spec describes. -/
theorem assignWorkers_all_or_nothing (pool : WorkerPool) (b : Building) (n : ℤ)
    (hn : 0 < n) :
    (∀ k pool', pool.assignWorkers b n = .ok (k, pool') →
      k = n ∧ n ≤ (pool.registerBuilding b).availableWorkers
        ∧ n ≤ b.maxWorkers - b.assigned_workers) ∧
    ((n > (pool.registerBuilding b).availableWorkers
        ∨ n > b.maxWorkers - b.assigned_workers) →
      ∃ msg, pool.assignWorkers b n = .error msg) := by
  simp only [WorkerPool.assignWorkers]
  rw [if_neg (not_le.mpr hn)]
  split_ifs with h2 h3 h4 h5
  · constructor
    · intro k pool' h
      cases h
    · intro hover
      exact ⟨_, rfl⟩
  · constructor
    · intro k pool' h
      cases h
    · intro hover
      exact ⟨_, rfl⟩
  · constructor
    · intro k pool' h
      cases h
    · intro hover
      exact ⟨_, rfl⟩
  · constructor
    · intro k pool' h
      cases h
    · intro hover
      exact ⟨_, rfl⟩
  · constructor
    · intro k pool' h
      rw [Except.ok.injEq, Prod.mk.injEq] at h
      exact ⟨h.1.symm, by omega, by omega⟩
    · intro hover
      rcases hover with hover | hover
      · omega
      · omega

/-- C6 counterexample: one worker is available and the empty lumber hut has
room for two, so the spec's formula grants the positive partial
`min(2, 1, 2) = 1`; the code instead raises `WorkerAllocationError`
("No hay suficientes trabajadores disponibles"). -/
theorem assignWorkers_rejects_partial_grant :
    (poolC6.registerBuilding lumberHut0).availableWorkers = 1 ∧
    lumberHut0.maxWorkers - lumberHut0.assigned_workers = 2 ∧
    poolC6.assignWorkers lumberHut0 2
      = .error "No hay suficientes trabajadores disponibles" := by
  have hreg : poolC6.registerBuilding lumberHut0
      = { total_workers := 1, buildings := [lumberHut0] } := by
    unfold WorkerPool.registerBuilding
    norm_num [poolC6, List.any_nil]
  have havail : (poolC6.registerBuilding lumberHut0).availableWorkers = 1 := by
    rw [hreg, WorkerPool.availableWorkers, sumAssigned_eq, sumAssignedL_cons]
    norm_num [sumAssignedL, lumberHut0, lumberHut]
  have hroom : lumberHut0.maxWorkers - lumberHut0.assigned_workers = 2 := by
    norm_num [Building.maxWorkers, Building.builtMultiplier, lumberHut0, lumberHut,
      lumberRecipe]
  refine ⟨havail, hroom, ?_⟩
  simp only [WorkerPool.assignWorkers]
  rw [if_neg (by norm_num : ¬ (2 : ℤ) ≤ 0), if_neg (by rw [hroom]; norm_num)]
  rw [if_neg (by rw [havail]; norm_num), if_pos (by rw [havail]; norm_num)]

/-- Witness for C6: with one available worker and a request of one, the
characterization theorem instantiates — a success hands over exactly the
request, and any request above either bound errors. -/
theorem assignWorkers_all_or_nothing_witness :
    ((∀ k pool', poolC6.assignWorkers lumberHut 1 = .ok (k, pool') →
      k = 1 ∧ (1 : ℤ) ≤ (poolC6.registerBuilding lumberHut).availableWorkers
        ∧ (1 : ℤ) ≤ lumberHut.maxWorkers - lumberHut.assigned_workers) ∧
    (((1 : ℤ) > (poolC6.registerBuilding lumberHut).availableWorkers
        ∨ (1 : ℤ) > lumberHut.maxWorkers - lumberHut.assigned_workers) →
      ∃ msg, poolC6.assignWorkers lumberHut 1 = .error msg)) :=
  assignWorkers_all_or_nothing poolC6 lumberHut 1 (by norm_num)

/-! ## Inventory non-negativity lemmas (C7) -/

theorem setAmount_nonneg (inv : Inventory) (r : Resource) (a : ℚ)
    (h0 : ∀ x, 0 ≤ inv.quantities x) :
    ∀ x, 0 ≤ (inv.setAmount r a).quantities x := by
  intro x
  show 0 ≤ if x = r then max 0 a else inv.quantities x
  split
  · exact le_max_left _ _
  · exact h0 x

theorem consumeList_nonneg (l : ResMap) (inv : Inventory)
    (h0 : ∀ x, 0 ≤ inv.quantities x) :
    ∀ x, 0 ≤ (consumeList inv l).quantities x := by
  induction l generalizing inv with
  | nil => exact h0
  | cons p t ih =>
      refine ih _ ?_
      intro x
      show 0 ≤ (if p.2 ≤ 0 then inv else
        { inv with quantities := fun y =>
            if y = p.1 then max 0 (inv.quantities p.1 - p.2)
            else inv.quantities y }).quantities x
      by_cases hp : p.2 ≤ 0
      · rw [if_pos hp]
        exact h0 x
      · rw [if_neg hp]
        show 0 ≤ if x = p.1 then max 0 (inv.quantities p.1 - p.2) else inv.quantities x
        split
        · exact le_max_left _ _
        · exact h0 x

theorem addStep_nonneg (acc : ResMap × Inventory) (p : Resource × ℚ)
    (h0 : ∀ x, 0 ≤ acc.2.quantities x) :
    ∀ x, 0 ≤ (addStep acc p).2.quantities x := by
  intro x
  unfold addStep
  by_cases hp : p.2 ≤ 0
  · rw [if_pos hp]
    exact h0 x
  · rw [if_neg hp]
    dsimp only
    split
    · show 0 ≤ if x = p.1 then max 0 (acc.2.quantities p.1 + p.2) else acc.2.quantities x
      split
      · exact le_max_left _ _
      · exact h0 x
    · split
      · show 0 ≤ (fun y =>
            if y = p.1 then
              max 0 (acc.2.quantities p.1
                + min p.2 (max 0 (_ - acc.2.quantities p.1)))
            else acc.2.quantities y) x
        dsimp only
        split
        · exact le_max_left _ _
        · exact h0 x
      · show 0 ≤ (fun y =>
            if y = p.1 then
              max 0 (acc.2.quantities p.1
                + min p.2 (max 0 (_ - acc.2.quantities p.1)))
            else acc.2.quantities y) x
        dsimp only
        split
        · exact le_max_left _ _
        · exact h0 x

theorem addFold_nonneg (l : ResMap) (acc : ResMap × Inventory)
    (h0 : ∀ x, 0 ≤ acc.2.quantities x) :
    ∀ x, 0 ≤ (l.foldl addStep acc).2.quantities x := by
  induction l generalizing acc with
  | nil => exact h0
  | cons p t ih => exact ih (addStep acc p) (addStep_nonneg acc p h0)

theorem bulkLoadQuantities_nonneg (qs : ResMap) (inv : Inventory)
    (h0 : ∀ x, 0 ≤ inv.quantities x) :
    ∀ x, 0 ≤ (qs.foldl
      (fun acc p =>
        { acc with
          quantities := fun x => if x = p.1 then max 0 p.2 else acc.quantities x })
      inv).quantities x := by
  induction qs generalizing inv with
  | nil => exact h0
  | cons p t ih =>
      refine ih _ ?_
      intro x
      show 0 ≤ if x = p.1 then max 0 p.2 else inv.quantities x
      split
      · exact le_max_left _ _
      · exact h0 x

theorem bulkLoadCapacities_quantities (cs : ResMap) (inv : Inventory) :
    (cs.foldl
      (fun acc p =>
        { acc with
          capacities := fun x =>
            if x = p.1 then some (max 0 p.2) else acc.capacities x })
      inv).quantities = inv.quantities := by
  induction cs generalizing inv with
  | nil => rfl
  | cons p t ih => exact ih _

/-- C7 (corrected): the non-negativity half of the invariant holds for
`set_amount`, `consume`, `add` and `bulk_load` (each clamps every written
quantity at zero), and for `set_capacity` when the capacity argument is
non-negative.  The full claim is false: `set_amount` writes straight past
any configured capacity, and `set_capacity` with a raw negative argument
writes that negative value into the quantity table (see the
counterexample). -/
theorem inventory_nonneg_invariant (inv : Inventory) (r : Resource) (a c : ℚ)
    (l qs cs : ResMap)
    (h0 : ∀ x, 0 ≤ inv.quantities x) :
    (∀ x, 0 ≤ (inv.setAmount r a).quantities x) ∧
    (∀ x, 0 ≤ (inv.consume l).2.quantities x) ∧
    (∀ x, 0 ≤ (inv.add l).2.quantities x) ∧
    (∀ x, 0 ≤ (inv.bulkLoad qs cs).quantities x) ∧
    (0 ≤ c → ∀ x, 0 ≤ (inv.setCapacity r c).quantities x) := by
  refine ⟨setAmount_nonneg inv r a h0, ?_, ?_, ?_, ?_⟩
  · intro x
    rw [Inventory.consume]
    split
    · exact consumeList_nonneg l inv h0 x
    · exact h0 x
  · exact addFold_nonneg l ([], inv) h0
  · intro x
    rw [Inventory.bulkLoad]
    rw [bulkLoadCapacities_quantities]
    exact bulkLoadQuantities_nonneg qs inv h0 x
  · intro hc x
    rw [Inventory.setCapacity]
    split
    · show 0 ≤ if x = r then c else inv.quantities x
      split
      · exact hc
      · exact h0 x
    · exact h0 x

/-- C7 counterexample: `set_amount` ignores the configured capacity (an
amount of 10 sits above the capacity of 5), and `set_capacity` with a raw
negative argument leaves a negative stock of `-5`. -/
theorem inventory_invariant_counterexample :
    invC7a.capacities "WOOD" = some 5 ∧
    invC7a.quantities "WOOD" = 10 ∧
    ¬ invC7a.quantities "WOOD" ≤ 5 ∧
    invC7b.quantities "WOOD" = -5 ∧
    ¬ (0 : ℚ) ≤ invC7b.quantities "WOOD" := by
  norm_num [invC7a, invC7b, Inventory.setAmount, Inventory.setCapacity,
    mkInventory, amountOf, List.find?]

/-- Witness for C7: concrete mutations on the wood store all leave
non-negative quantities. -/
theorem inventory_nonneg_invariant_witness :
    (∀ x, 0 ≤ (invC3.setAmount "WOOD" (-7)).quantities x) ∧
    (∀ x, 0 ≤ (invC3.consume [("WOOD", 3)]).2.quantities x) ∧
    (∀ x, 0 ≤ (invC3.add [("WOOD", 3)]).2.quantities x) ∧
    (∀ x, 0 ≤ (invC3.bulkLoad [("WOOD", 2)] [("PLANK", 4)]).quantities x) ∧
    ((0 : ℚ) ≤ 5 → ∀ x, 0 ≤ (invC3.setCapacity "WOOD" 5).quantities x) :=
  inventory_nonneg_invariant invC3 "WOOD" (-7) 5 [("WOOD", 3)] [("WOOD", 2)]
    [("PLANK", 4)]
    (by intro x
        simp only [invC3, mkInventory, amountOf]
        split <;> norm_num)

/-! ## Zero-dt orchestrator lemmas (C8) -/

theorem applyInactiveStatus_type_key (b : Building) (reason : String) :
    (b.applyInactiveStatus reason).type_key = b.type_key := by
  simp only [Building.applyInactiveStatus]
  split <;> rfl

theorem applyMissingInputStatus_type_key (b : Building) (d : Option String)
    (notes : List String) :
    (b.applyMissingInputStatus d notes).1.type_key = b.type_key := by
  simp only [Building.applyMissingInputStatus]
  split
  · split <;> rfl
  · rfl

theorem cycleLoop_type_key (n : ℕ) (s : LoopState) :
    (cycleLoop n s).b.type_key = s.b.type_key := by
  induction n generalizing s with
  | zero => rfl
  | succ n ih =>
      rw [cycleLoop]
      split
      · rw [ih]
      · split
        · exact applyMissingInputStatus_type_key s.b _ s.notes
        · split
          · rfl
          · rfl

theorem tickContinuous_type_key (b : Building) (dt : ℚ) (inv : Inventory)
    (mods : List ℚ) (notes : List String) :
    (b.tickContinuous dt inv mods notes).b.type_key = b.type_key := by
  simp only [Building.tickContinuous]
  split
  · exact applyInactiveStatus_type_key b "inactive"
  · split
    · exact applyInactiveStatus_type_key b "inactive"
    · split
      · exact applyMissingInputStatus_type_key b _ notes
      · split
        · exact applyMissingInputStatus_type_key b _ notes
        · split
          · rfl
          · split
            · rfl
            · rfl

theorem tick_type_key (b : Building) (dt : ℚ) (inv : Inventory)
    (mods : List ℚ) (notes : List String) :
    (b.tick dt inv mods notes).b.type_key = b.type_key := by
  simp only [Building.tick]
  split
  · exact applyInactiveStatus_type_key b _
  · split
    · exact tickContinuous_type_key b dt inv mods notes
    · split
      · exact applyInactiveStatus_type_key _ "inactive"
      · split
        · rfl
        · split
          · exact cycleLoop_type_key _ _
          · exact cycleLoop_type_key _ _

theorem updateFirst_noop (l : List Building) (key : String)
    (f : Building → Building) (h : ∀ b ∈ l, ¬ b.id = key) :
    updateFirst l key f = l := by
  induction l with
  | nil => rfl
  | cons b t ih =>
      rw [updateFirst, if_neg (h b (List.mem_cons_self _ _)),
        ih (fun x hx => h x (List.mem_cons_of_mem _ hx))]

theorem foldl_fun_congr {α β : Type} (f g : α → β → α) (l : List β) (a : α)
    (h : ∀ x y, f x y = g x y) : l.foldl f a = l.foldl g a := by
  induction l generalizing a with
  | nil => rfl
  | cons b t ih =>
      rw [List.foldl_cons, List.foldl_cons, h, ih]

theorem trade_tick_zero (c : TradeChannel) (inv : Inventory) (notes : List String) :
    c.tick 0 inv notes = (c, inv, notes) := by
  simp only [TradeChannel.tick]
  rw [if_pos (Or.inr (by norm_num))]

theorem tradeFold_zero (cs : List TradeChannel)
    (acc0 : List TradeChannel × Inventory × List String) :
    cs.foldl
      (fun (acc : List TradeChannel × Inventory × List String) c =>
        let r := c.tick 0 acc.2.1 acc.2.2
        (acc.1 ++ [r.1], r.2.1, r.2.2))
      acc0 = (acc0.1 ++ cs, acc0.2.1, acc0.2.2) := by
  induction cs generalizing acc0 with
  | nil => simp
  | cons c t ih =>
      rw [List.foldl_cons, trade_tick_zero c acc0.2.1 acc0.2.2]
      rw [ih]
      simp

theorem contConsumption_zero (b : Building) (m : ℚ) (e : ℤ) :
    contConsumption b 0 m e = [] := by
  unfold contConsumption
  rw [List.filterMap_eq_nil]
  intro p hp
  simp

theorem contProduction_zero (b : Building) (m : ℚ) (e : ℤ) :
    contProduction b 0 m e = [] := by
  unfold contProduction
  rw [List.filterMap_eq_nil]
  intro p hp
  simp

theorem tickContinuous_zero_inv (b : Building) (inv : Inventory)
    (mods : List ℚ) (notes : List String) :
    (b.tickContinuous 0 inv mods notes).inv = inv := by
  simp only [Building.tickContinuous]
  split
  · rfl
  · split
    · rfl
    · split
      · rfl
      · simp only [contConsumption_zero, contProduction_zero]
        simp [Inventory.add]

theorem building_tick_zero_inv (b : Building) (inv : Inventory)
    (mods : List ℚ) (notes : List String)
    (hpend : ⌊b.cycle_progress / b.recipe.cycle_time⌋ ≤ 0) :
    (b.tick 0 inv mods notes).inv = inv := by
  simp only [Building.tick]
  split
  · rfl
  · split
    · exact tickContinuous_zero_inv b inv mods notes
    · split
      · rfl
      · split
        · rfl
        · next hcy =>
            exfalso
            apply hcy
            have h0 : b.cycle_progress + 0 * b.effectiveRate b.assigned_workers mods
                = b.cycle_progress := by ring
            rw [h0]
            exact hpend

theorem buildingFold_zero_inv (mods : Building → List ℚ) (wid : Option String)
    (bs : List Building) (acc0 : List Building × Inventory × List String)
    (hpend : ∀ b ∈ bs, ⌊b.cycle_progress / b.recipe.cycle_time⌋ ≤ 0) :
    (bs.foldl
      (fun (acc : List Building × Inventory × List String) b =>
        if wid = some b.id then (acc.1 ++ [b], acc.2.1, acc.2.2)
        else
          let out := b.tick 0 acc.2.1 (mods b) acc.2.2
          (acc.1 ++ [out.b], out.inv, out.notes))
      acc0).2.1 = acc0.2.1 := by
  induction bs generalizing acc0 with
  | nil => rfl
  | cons b t ih =>
      rw [List.foldl_cons]
      rw [ih _ (fun x hx => hpend x (List.mem_cons_of_mem _ hx))]
      split
      · rfl
      · exact building_tick_zero_inv b acc0.2.1 (mods b) acc0.2.2
          (hpend b (List.mem_cons_self _ _))

theorem buildingFold_types (mods : Building → List ℚ) (wid : Option String)
    (bs : List Building) (acc0 : List Building × Inventory × List String) :
    ∀ x ∈ (bs.foldl
      (fun (acc : List Building × Inventory × List String) b =>
        if wid = some b.id then (acc.1 ++ [b], acc.2.1, acc.2.2)
        else
          let out := b.tick 0 acc.2.1 (mods b) acc.2.2
          (acc.1 ++ [out.b], out.inv, out.notes))
      acc0).1,
      x ∈ acc0.1 ∨ ∃ b ∈ bs, x.type_key = b.type_key := by
  induction bs generalizing acc0 with
  | nil =>
      intro x hx
      exact Or.inl hx
  | cons b t ih =>
      intro x hx
      rw [List.foldl_cons] at hx
      rcases ih _ x hx with hmem | ⟨y, hy, hxy⟩
      · by_cases hw : wid = some b.id
        · rw [if_pos hw] at hmem
          have hmem' : x ∈ acc0.1 ++ [b] := hmem
          rcases List.mem_append.mp hmem' with h | h
          · exact Or.inl h
          · right
            refine ⟨b, List.mem_cons_self _ _, ?_⟩
            rw [List.mem_singleton] at h
            rw [h]
        · rw [if_neg hw] at hmem
          have hmem' : x ∈ acc0.1 ++ [(b.tick 0 acc0.2.1 (mods b) acc0.2.2).b] := hmem
          rcases List.mem_append.mp hmem' with h | h
          · exact Or.inl h
          · right
            refine ⟨b, List.mem_cons_self _ _, ?_⟩
            rw [List.mem_singleton] at h
            rw [h]
            exact tick_type_key b 0 acc0.2.1 (mods b) acc0.2.2
      · exact Or.inr ⟨y, List.mem_cons_of_mem _ hy, hxy⟩

theorem recompute_buildings_no_woodcutter (gs : GameState)
    (hnw : ∀ b ∈ gs.buildings, b.type_key ≠ WOODCUTTER_CAMP) :
    gs.recomputeWoodState.1.buildings = gs.buildings := by
  have hfind : gs.buildings.find? (fun b => b.type_key = WOODCUTTER_CAMP) = none := by
    rw [List.find?_eq_none]
    intro x hx
    simpa using hnw x hx
  have hupd : ∀ f, updateFirst gs.buildings WOODCUTTER_CAMP f = gs.buildings :=
    fun f => updateFirst_noop _ _ _ (fun b hb => by simpa [Building.id] using hnw b hb)
  simp only [GameState.recomputeWoodState, GameState.getBuildingByType, hfind]
  norm_num [hupd]

theorem recompute_inventory_noop (gs : GameState)
    (hnw : ∀ b ∈ gs.buildings, b.type_key ≠ WOODCUTTER_CAMP)
    (hcap : gs.inventory.capacities "WOOD" = none)
    (hq : gs.inventory.quantities "WOOD" = 0) :
    gs.recomputeWoodState.1.inventory = gs.inventory := by
  have hfind : gs.buildings.find? (fun b => b.type_key = WOODCUTTER_CAMP) = none := by
    rw [List.find?_eq_none]
    intro x hx
    simpa using hnw x hx
  simp only [GameState.recomputeWoodState, GameState.getBuildingByType, hfind]
  norm_num [Inventory.getCapacity, Inventory.getAmount, hcap, hq, eps9]

set_option maxHeartbeats 4000000 in
theorem tick_zero_no_woodcutter (gs : GameState)
    (hnw : ∀ b ∈ gs.buildings, b.type_key ≠ WOODCUTTER_CAMP) :
    gs.tick 0 = ({ gs with
      inventory := (zeroFold gs).2.1,
      buildings := (zeroFold gs).1,
      notifications := (zeroFold gs).2.2 } : GameState).recomputeWoodState.1 := by
  have hnw1 : ∀ b ∈ (zeroFold gs).1, b.type_key ≠ WOODCUTTER_CAMP := by
    intro x hx
    rcases buildingFold_types (fun b => gs.season_clock.getModifiers b.type_key)
        ((gs.getBuildingByType WOODCUTTER_CAMP).map Building.id)
        gs.buildings ([], gs.inventory, gs.notifications) x hx with h | ⟨b, hb, hxb⟩
    · cases h
    · rw [hxb]
      exact hnw b hb
  have hclk : gs.season_clock.update 0 = gs.season_clock := by
    rw [SeasonClock.update, if_pos le_rfl]
  have hbs : ({ gs with
      inventory := (zeroFold gs).2.1,
      buildings := (zeroFold gs).1,
      notifications := (zeroFold gs).2.2 } : GameState).recomputeWoodState.1.buildings
      = (zeroFold gs).1 :=
    recompute_buildings_no_woodcutter _ hnw1
  have hfind2 : ({ gs with
      inventory := (zeroFold gs).2.1,
      buildings := (zeroFold gs).1,
      notifications := (zeroFold gs).2.2 } : GameState).recomputeWoodState.1.buildings.find?
        (fun b => b.type_key = WOODCUTTER_CAMP) = none := by
    rw [hbs, List.find?_eq_none]
    intro x hx
    simpa using hnw1 x hx
  simp only [GameState.tick, max_self, hclk]
  rw [tradeFold_zero]
  simp only [List.nil_append]
  simp only [GameState.applyWoodTick, max_self, le_refl, ite_true]
  simp only [GameState.getBuildingByType]
  split
  · rfl
  · rename_i val heq
    have heq' : List.find? (fun b => decide (b.type_key = WOODCUTTER_CAMP))
        ({ gs with
          inventory := (zeroFold gs).2.1,
          buildings := (zeroFold gs).1,
          notifications := (zeroFold gs).2.2 } : GameState).recomputeWoodState.1.buildings
        = some val := heq
    rw [hfind2] at heq'
    cases heq'

/-- C8 (corrected): `tick(0)` changes no resource amount provided no building
carries a full pending cycle (`cycle_progress < cycle_time`, i.e.
`⌊progress / cycle_time⌋ ≤ 0`) — under a consistent wood subsystem (no
woodcutter camp, no stale `WOOD` entry) the zero-dt tick leaves every ledger
quantity untouched.  Unconditionally the spec's claim is false: a building
left with `cycle_progress = cycle_time` by a stalled tick executes that
pending cycle during `tick(0)` (see the counterexample). -/
theorem tick_zero_preserves_amounts (gs : GameState)
    (hnw : ∀ b ∈ gs.buildings, b.type_key ≠ WOODCUTTER_CAMP)
    (hpend : ∀ b ∈ gs.buildings, ⌊b.cycle_progress / b.recipe.cycle_time⌋ ≤ 0)
    (hcap : gs.inventory.capacities "WOOD" = none)
    (hq : gs.inventory.quantities "WOOD" = 0) :
    ∀ r, (gs.tick 0).inventory.quantities r = gs.inventory.quantities r := by
  intro r
  rw [tick_zero_no_woodcutter gs hnw]
  have hfold : (zeroFold gs).2.1 = gs.inventory :=
    buildingFold_zero_inv (fun b => gs.season_clock.getModifiers b.type_key)
      ((gs.getBuildingByType WOODCUTTER_CAMP).map Building.id)
      gs.buildings ([], gs.inventory, gs.notifications) hpend
  have hnw1 : ∀ b ∈ (zeroFold gs).1, b.type_key ≠ WOODCUTTER_CAMP := by
    intro x hx
    rcases buildingFold_types (fun b => gs.season_clock.getModifiers b.type_key)
        ((gs.getBuildingByType WOODCUTTER_CAMP).map Building.id)
        gs.buildings ([], gs.inventory, gs.notifications) x hx with h | ⟨b, hb, hxb⟩
    · cases h
    · rw [hxb]
      exact hnw b hb
  have hrec : ({ gs with
      inventory := (zeroFold gs).2.1,
      buildings := (zeroFold gs).1,
      notifications := (zeroFold gs).2.2 } : GameState).recomputeWoodState.1.inventory
      = (zeroFold gs).2.1 := by
    apply recompute_inventory_noop
    · exact hnw1
    · show (zeroFold gs).2.1.capacities "WOOD" = none
      rw [hfold]
      exact hcap
    · show (zeroFold gs).2.1.quantities "WOOD" = 0
      rw [hfold]
      exact hq
  rw [hrec, hfold]

/-- C8 counterexample: in a reachable state whose stone workshop was left by
a stall with `cycle_progress = cycle_time = 4`, the zero-dt orchestrator
tick executes the pending cycle: the stone stock drops from 100 to 98. -/
theorem tick_zero_executes_pending_cycle :
    gsC8.inventory.quantities "STONE" = 100 ∧
    (gsC8.tick 0).inventory.quantities "STONE" = 98 := by
  have hq100 : invC8.quantities "STONE" = (100 : ℚ) := by
    norm_num [invC8, mkInventory, amountOf]
  have hnw : ∀ b ∈ gsC8.buildings, b.type_key ≠ WOODCUTTER_CAMP := by
    intro b hb
    simp only [gsC8, List.mem_cons, List.not_mem_nil, or_false] at hb
    subst hb
    simp [stoneHut, WOODCUTTER_CAMP]
  have hwid : (gsC8.getBuildingByType WOODCUTTER_CAMP).map Building.id = none := by
    simp [GameState.getBuildingByType, gsC8, List.find?, stoneHut, WOODCUTTER_CAMP]
  have hmods : gsC8.season_clock.getModifiers stoneHut.type_key = [1, 1] := by
    simp [gsC8, clockC8, SeasonClock.getModifiers, SeasonClock.currentSeason,
      lookupSeason, getD, List.find?, stoneHut]
  have hcomb : ∀ x, amountOf (cycleCombined stoneHut) x
      = posAmountOf [("STONE", 2)] x + posAmountOf [] x :=
    fun x => amountOf_combineResources _ _ x
  obtain ⟨o1, o2, o3, o4, o5, o6, o7, o8⟩ :=
    tick_discrete_produced stoneHut 0 invC8 [1, 1] [] 1
      (by norm_num [Building.inactiveReason, Building.maxWorkers,
        Building.builtMultiplier, stoneHut, stoneRecipe])
      (by norm_num [truthyRates, stoneHut, stoneRecipe])
      (by norm_num [Building.effectiveRate, Building.maxWorkers,
        Building.builtMultiplier, modMultiplier, stoneHut, stoneRecipe])
      (by norm_num [Building.effectiveRate, Building.maxWorkers,
        Building.builtMultiplier, modMultiplier, stoneHut, stoneRecipe])
      (by norm_num)
      (by intro x
          simp only [invC8, mkInventory, amountOf]
          split <;> norm_num)
      (by intro x
          rw [hcomb x]
          by_cases h : ("STONE" : Resource) = x
          · norm_num [posAmountOf, invC8, mkInventory, amountOf, if_pos h]
          · norm_num [posAmountOf, invC8, mkInventory, amountOf, if_neg h, h])
      (by intro p hp
          simp only [stoneHut, stoneRecipe, List.mem_cons,
            List.not_mem_nil, or_false] at hp
          subst hp
          norm_num)
      (by intro x c hc
          simp [invC8, mkInventory, List.find?] at hc)
  have hzf : zeroFold gsC8 = ([(stoneHut.tick 0 invC8 [1, 1] []).b],
      (stoneHut.tick 0 invC8 [1, 1] []).inv,
      (stoneHut.tick 0 invC8 [1, 1] []).notes) := by
    unfold zeroFold
    rw [show gsC8.buildings = [stoneHut] from rfl]
    rw [List.foldl_cons, List.foldl_nil]
    rw [hwid, if_neg (by simp), hmods]
    rfl
  have hcapW : (stoneHut.tick 0 invC8 [1, 1] []).inv.capacities "WOOD" = none := by
    rw [o6]
    simp [invC8, mkInventory, List.find?]
  have hqW : (stoneHut.tick 0 invC8 [1, 1] []).inv.quantities "WOOD" = 0 := by
    rw [o5 "WOOD", hcomb "WOOD"]
    norm_num [posAmountOf, invC8, mkInventory, amountOf, stoneHut, stoneRecipe]
  rw [tick_zero_no_woodcutter gsC8 hnw]
  have hrec : ({ gsC8 with
      inventory := (zeroFold gsC8).2.1,
      buildings := (zeroFold gsC8).1,
      notifications := (zeroFold gsC8).2.2 } : GameState).recomputeWoodState.1.inventory
      = (zeroFold gsC8).2.1 := by
    apply recompute_inventory_noop
    · intro x hx
      have hx' : x ∈ (zeroFold gsC8).1 := hx
      rw [hzf] at hx'
      rw [List.mem_singleton] at hx'
      subst hx'
      rw [tick_type_key]
      simp [stoneHut, WOODCUTTER_CAMP]
    · show (zeroFold gsC8).2.1.capacities "WOOD" = none
      rw [hzf]
      exact hcapW
    · show (zeroFold gsC8).2.1.quantities "WOOD" = 0
      rw [hzf]
      exact hqW
  refine ⟨hq100, ?_⟩
  rw [hrec, hzf]
  show (stoneHut.tick 0 invC8 [1, 1] []).inv.quantities "STONE" = 98
  rw [o5 "STONE", hcomb "STONE"]
  norm_num [posAmountOf, invC8, mkInventory, amountOf, stoneHut, stoneRecipe]

/-- Witness for C8: the quiescent stone-workshop state (progress 1 of 4)
keeps its stone and plank amounts across a zero-dt tick. -/
theorem tick_zero_preserves_amounts_witness :
    (gsC8q.tick 0).inventory.quantities "STONE"
      = gsC8q.inventory.quantities "STONE" ∧
    (gsC8q.tick 0).inventory.quantities "PLANK"
      = gsC8q.inventory.quantities "PLANK" := by
  have h := tick_zero_preserves_amounts gsC8q
    (by intro b hb
        simp only [gsC8q, gsC8, List.mem_cons, List.not_mem_nil, or_false] at hb
        subst hb
        simp [stoneHutQ, stoneHut, WOODCUTTER_CAMP])
    (by intro b hb
        simp only [gsC8q, gsC8, List.mem_cons, List.not_mem_nil, or_false] at hb
        subst hb
        norm_num [stoneHutQ, stoneHut, stoneRecipe])
    (by simp [gsC8q, gsC8, invC8, mkInventory, List.find?])
    (by norm_num [gsC8q, gsC8, invC8, mkInventory, amountOf])
  exact ⟨h "STONE", h "PLANK"⟩

/-! ## Trade export lemmas (C9) -/

theorem eps6_pos : (0 : ℚ) < eps6 := by norm_num [eps6]

theorem posAmountOf_single_ne (k : Resource) (v : ℚ) (x : Resource) (h : ¬ k = x) :
    posAmountOf [(k, v)] x = 0 := by
  show (if k = x ∧ 0 < v then v else 0) + 0 = 0
  rw [if_neg (fun hc => h hc.1)]
  norm_num

theorem posAmountOf_single_eq (k : Resource) (v : ℚ) (h : 0 < v) :
    posAmountOf [(k, v)] k = v := by
  show (if k = k ∧ 0 < v then v else 0) + 0 = v
  rw [if_pos ⟨rfl, h⟩]
  norm_num

/-- C9: a stock-limited export exports exactly the remaining stock —
debiting the resource to zero and crediting gold at `price_per_unit` —
keeps the channel in export mode and only notifies the partial export;
the channel pauses itself (with its own notification) exactly on a tick
that finds the stock at or below the `1e-6` tolerance. -/
theorem export_stock_limited (c : TradeChannel) (inv : Inventory)
    (notes : List String) (dt : ℚ)
    (hmode : c.mode = "export")
    (hq0 : ∀ x, 0 ≤ inv.quantities x)
    (hcapall : ∀ x cx, inv.capacities x = some cx → inv.quantities x ≤ cx)
    (hgcap : inv.capacities "GOLD" = none)
    (hprice : 0 < c.price_per_unit)
    (hres : c.resource ≠ "GOLD")
    (hamt : 0 < c.rate_per_min * dt / 60) :
    (inv.getAmount c.resource ≤ eps6 →
      c.tick dt inv notes
        = ({ c with mode := "pause" }, inv,
           notes ++ ["Comercio de " ++ c.resource ++ " pausado: sin stock"])) ∧
    (eps6 < inv.getAmount c.resource →
      inv.getAmount c.resource < c.rate_per_min * dt / 60 - eps6 →
      (c.tick dt inv notes).1 = c ∧
      (c.tick dt inv notes).1.mode = "export" ∧
      (∀ x, (c.tick dt inv notes).2.1.quantities x
        = if x = "GOLD" then
            inv.quantities "GOLD" + inv.getAmount c.resource * c.price_per_unit
          else if x = c.resource then 0 else inv.quantities x) ∧
      (c.tick dt inv notes).2.1.capacities = inv.capacities ∧
      (c.tick dt inv notes).2.2
        = notes ++ ["Comercio de " ++ c.resource
            ++ ": exportación limitada por bajo stock"]) := by
  have htick : c.tick dt inv notes
      = c.handleExport (c.rate_per_min * dt / 60) inv notes := by
    simp only [TradeChannel.tick]
    rw [hmode]
    rw [if_neg (by push_neg; exact ⟨by simp, by linarith⟩)]
    rw [if_neg (by simp), if_pos rfl]
  constructor
  · intro h0
    rw [htick]
    simp only [TradeChannel.handleExport]
    rw [if_pos h0]
  · intro h1 h2
    have havail : inv.getAmount c.resource = inv.quantities c.resource := rfl
    have hapos : 0 < inv.getAmount c.resource := lt_trans eps6_pos h1
    have hactual : min (c.rate_per_min * dt / 60) (inv.getAmount c.resource)
        = inv.getAmount c.resource := by
      apply min_eq_right
      have := eps6_pos
      linarith
    have hstock : ∀ x, posAmountOf [(c.resource, inv.getAmount c.resource)] x
        ≤ inv.quantities x := by
      intro x
      by_cases hx : c.resource = x
      · subst hx
        rw [posAmountOf_single_eq _ _ hapos, havail]
      · rw [posAmountOf_single_ne _ _ _ hx]
        exact hq0 x
    have hcons := consume_spec [(c.resource, inv.getAmount c.resource)] inv hq0 hstock
    obtain ⟨hcflag, hcq, hccap⟩ := hcons
    have hq0' : ∀ x,
        0 ≤ (inv.consume [(c.resource, inv.getAmount c.resource)]).2.quantities x := by
      intro x
      rw [hcq x]
      have := hstock x
      linarith
    have hadd := add_spec
      [("GOLD", inv.getAmount c.resource * c.price_per_unit)]
      (inv.consume [(c.resource, inv.getAmount c.resource)]).2
      hq0'
      (by intro x cx hcx
          rw [hccap] at hcx
          by_cases hx : x = "GOLD"
          · subst hx
            rw [hgcap] at hcx
            cases hcx
          · rw [posAmountOf_single_ne _ _ _ (fun hc => hx hc.symm), hcq x]
            have h3 := hcapall x cx hcx
            have h4 : 0 ≤ posAmountOf [(c.resource, inv.getAmount c.resource)] x :=
              posAmountOf_nonneg _ _
            linarith)
    obtain ⟨haflag, haq, hacap⟩ := hadd
    rw [htick]
    simp only [TradeChannel.handleExport]
    rw [if_neg (not_le.mpr h1), hactual, if_pos h2]
    refine ⟨rfl, hmode, ?_, ?_, rfl⟩
    · intro x
      show ((inv.consume [(c.resource, inv.getAmount c.resource)]).2.add
        [("GOLD", inv.getAmount c.resource * c.price_per_unit)]).2.quantities x = _
      rw [haq x, hcq x]
      by_cases hg : x = "GOLD"
      · subst hg
        rw [if_pos rfl]
        rw [posAmountOf_single_ne _ _ _ hres,
          posAmountOf_single_eq _ _ (mul_pos hapos hprice)]
        ring
      · rw [if_neg hg]
        rw [posAmountOf_single_ne ("GOLD" : Resource) _ x (fun hc => hg hc.symm)]
        by_cases hx : x = c.resource
        · subst hx
          rw [if_pos rfl]
          rw [posAmountOf_single_eq _ _ hapos, havail]
          ring
        · rw [if_neg hx]
          rw [posAmountOf_single_ne _ _ _ (fun hc => hx hc.symm)]
          ring
    · show ((inv.consume [(c.resource, inv.getAmount c.resource)]).2.add
        [("GOLD", inv.getAmount c.resource * c.price_per_unit)]).2.capacities = _
      rw [hacap, hccap]

/-- Witness for C9: one fish in stock against a demand of two — the tick
exports the single fish (stock 1 → 0, gold 0 → 2), stays in export mode and
notes the partial export; the next tick, finding stock 0, pauses the
channel and leaves the ledger alone. -/
theorem export_stock_limited_witness :
    (chC9.tick 1 invC9 []).1 = chC9 ∧
    (chC9.tick 1 invC9 []).1.mode = "export" ∧
    (chC9.tick 1 invC9 []).2.1.quantities "FISH" = 0 ∧
    (chC9.tick 1 invC9 []).2.1.quantities "GOLD" = 2 ∧
    (chC9.tick 1 invC9 []).2.2
      = ["Comercio de FISH: exportación limitada por bajo stock"] ∧
    (chC9.tick 1 (chC9.tick 1 invC9 []).2.1 []).1.mode = "pause" ∧
    (chC9.tick 1 (chC9.tick 1 invC9 []).2.1 []).2.1 = (chC9.tick 1 invC9 []).2.1 := by
  have hq0 : ∀ x, 0 ≤ invC9.quantities x := by
    intro x
    simp only [invC9, mkInventory, amountOf]
    split <;> norm_num
  have hcapall : ∀ x cx, invC9.capacities x = some cx → invC9.quantities x ≤ cx := by
    intro x cx hcx
    simp [invC9, mkInventory, List.find?] at hcx
  have hgcap : invC9.capacities "GOLD" = none := by
    simp [invC9, mkInventory, List.find?]
  have hga : invC9.getAmount chC9.resource = 1 := by
    norm_num [Inventory.getAmount, invC9, mkInventory, amountOf, chC9]
  have h := export_stock_limited chC9 invC9 [] 1 rfl hq0 hcapall hgcap
    (by norm_num [chC9]) (by simp [chC9]) (by norm_num [chC9])
  obtain ⟨p1, p2, p3, p4, p5⟩ := h.2 (by rw [hga]; norm_num [eps6])
    (by rw [hga]; norm_num [eps6, chC9])
  have hqF : (chC9.tick 1 invC9 []).2.1.quantities "FISH" = 0 := by
    rw [p3 "FISH"]
    norm_num [chC9]
  have hqG : (chC9.tick 1 invC9 []).2.1.quantities "GOLD" = 2 := by
    rw [p3 "GOLD", hga]
    norm_num [invC9, mkInventory, amountOf, chC9]
  have hq0' : ∀ x, 0 ≤ (chC9.tick 1 invC9 []).2.1.quantities x := by
    intro x
    rw [p3 x]
    split
    · rw [hga]
      norm_num [invC9, mkInventory, amountOf, chC9]
    · split
      · norm_num
      · exact hq0 x
  have hcapall' : ∀ x cx, (chC9.tick 1 invC9 []).2.1.capacities x = some cx →
      (chC9.tick 1 invC9 []).2.1.quantities x ≤ cx := by
    intro x cx hcx
    rw [p4] at hcx
    simp [invC9, mkInventory, List.find?] at hcx
  have hgcap' : (chC9.tick 1 invC9 []).2.1.capacities "GOLD" = none := by
    rw [p4]
    exact hgcap
  have h' := export_stock_limited chC9 ((chC9.tick 1 invC9 []).2.1) [] 1 rfl
    hq0' hcapall' hgcap' (by norm_num [chC9]) (by simp [chC9]) (by norm_num [chC9])
  have hpause := h'.1 (by
    show (chC9.tick 1 invC9 []).2.1.quantities chC9.resource ≤ eps6
    rw [show chC9.resource = "FISH" from rfl, hqF]
    norm_num [eps6])
  refine ⟨p1, p2, hqF, hqG, ?_, ?_, ?_⟩
  · rw [p5]
    simp [chC9]
  · rw [hpause]
  · rw [hpause]

/-! ## Demolition lemmas (C10) -/

theorem recompute_other_quantities (gs : GameState) (r : Resource)
    (hr : ¬ r = "WOOD") :
    gs.recomputeWoodState.1.inventory.quantities r = gs.inventory.quantities r := by
  have hsetcap : ∀ (i : Inventory) c,
      (i.setCapacity "WOOD" c).quantities r = i.quantities r := by
    intro i c
    simp only [Inventory.setCapacity]
    split
    · show (if r = "WOOD" then c else i.quantities r) = i.quantities r
      rw [if_neg hr]
    · rfl
  have hsetamt : ∀ (i : Inventory) a,
      (i.setAmount "WOOD" a).quantities r = i.quantities r := by
    intro i a
    show (if r = "WOOD" then max 0 a else i.quantities r) = i.quantities r
    rw [if_neg hr]
  simp only [GameState.recomputeWoodState]
  rw [apply_ite (fun i : Inventory => i.quantities r), hsetamt, ite_self]
  rw [apply_ite (fun i : Inventory => i.quantities r), hsetamt, ite_self]
  rw [apply_ite (fun i : Inventory => i.quantities r), hsetcap, ite_self]

/-- C10: `demolish_building` with the default refund rate — on a state whose
registry holds the building under the requested id, a positive `built_count`
is decremented by exactly one (disabling the building when it reaches zero),
and the ledger is credited exactly half of every construction-cost resource;
a woodcutter camp refunds nothing (only the wood subsystem's own `WOOD`
scalars may move); with `built_count ≤ 0` the call raises
`NothingToDemolishError` and returns no state. -/
theorem demolish_building_spec (gs : GameState) (bid : String) (b : Building)
    (hfind : gs.buildings.find? (fun x => x.id = bid) = some b)
    (hq0 : ∀ x, 0 ≤ gs.inventory.quantities x)
    (hcap : ∀ x cx, gs.inventory.capacities x = some cx →
      gs.inventory.quantities x
        + posAmountOf ((BUILD_COSTS b.type_key).map fun p => (p.1, p.2 * (1 / 2))) x
        ≤ cx) :
    (b.builtCount ≤ 0 →
      gs.demolishBuilding bid = .error NOTHING_TO_DEMOLISH) ∧
    (1 ≤ b.builtCount → b.type_key ≠ WOODCUTTER_CAMP →
      ∀ gs', gs.demolishBuilding bid = .ok gs' →
        (∃ b3, gs'.buildings = updateFirst gs.buildings bid (fun _ => b3) ∧
          b3.built = b.builtCount - 1 ∧
          b3.type_key = b.type_key ∧
          (b.builtCount = 1 → b3.enabled = false)) ∧
        (∀ r, gs'.inventory.quantities r
          = gs.inventory.quantities r
            + posAmountOf
                ((BUILD_COSTS b.type_key).map fun p => (p.1, p.2 * (1 / 2))) r)) ∧
    (1 ≤ b.builtCount → b.type_key = WOODCUTTER_CAMP →
      ∀ gs', gs.demolishBuilding bid = .ok gs' →
        ∀ r, ¬ r = "WOOD" →
          gs'.inventory.quantities r = gs.inventory.quantities r) := by
  refine ⟨?_, ?_, ?_⟩
  · intro h0
    simp only [GameState.demolishBuilding, hfind]
    rw [if_pos h0]
  · intro h1 htk gs' hok
    simp only [GameState.demolishBuilding, hfind] at hok
    rw [if_neg (by omega : ¬ b.builtCount ≤ 0)] at hok
    rw [if_neg htk] at hok
    rw [if_neg htk] at hok
    rw [if_pos (by norm_num : (0:ℚ) < 1 / 2)] at hok
    by_cases hre : ((BUILD_COSTS b.type_key).map fun p => (p.1, p.2 * (1 / 2))).isEmpty
    · rw [if_neg (by rw [hre]; exact fun h => nomatch h)] at hok
      rw [Except.ok.injEq] at hok
      subst hok
      have hnil : ((BUILD_COSTS b.type_key).map fun p => (p.1, p.2 * (1 / 2))) = [] := by
        rcases hL : ((BUILD_COSTS b.type_key).map fun p => (p.1, p.2 * (1 / 2))) with _ | ⟨p, t⟩
        · exact hL
        · rw [hL] at hre
          exact Bool.noConfusion (show false = true from hre)
      constructor
      · refine ⟨_, rfl, ?_, ?_, ?_⟩
        · split
          · split <;> rfl
          · split <;> rfl
        · split
          · split <;> rfl
          · split <;> rfl
        · intro h11
          have hb10 : b.builtCount - 1 ≤ 0 := by omega
          split
          · split <;> rfl
          · next h => exact absurd hb10 h
      · intro r
        rw [hnil]
        show gs.inventory.quantities r = gs.inventory.quantities r + posAmountOf [] r
        show gs.inventory.quantities r = gs.inventory.quantities r + 0
        ring
    · have hbfalse : ((BUILD_COSTS b.type_key).map fun p => (p.1, p.2 * (1 / 2))).isEmpty
          = false := by
        rcases hb0 : ((BUILD_COSTS b.type_key).map fun p => (p.1, p.2 * (1 / 2))).isEmpty
        · exact hb0
        · exact absurd hb0 hre
      rw [if_pos (by rw [hbfalse]; rfl :
        (!((BUILD_COSTS b.type_key).map fun p => (p.1, p.2 * (1 / 2))).isEmpty) = true)] at hok
      rw [Except.ok.injEq] at hok
      subst hok
      obtain ⟨haflag, haq, hacap⟩ := add_spec
        ((BUILD_COSTS b.type_key).map fun p => (p.1, p.2 * (1 / 2)))
        gs.inventory hq0 hcap
      constructor
      · refine ⟨_, rfl, ?_, ?_, ?_⟩
        · split
          · split <;> rfl
          · split <;> rfl
        · split
          · split <;> rfl
          · split <;> rfl
        · intro h11
          have hb10 : b.builtCount - 1 ≤ 0 := by omega
          split
          · split <;> rfl
          · next h => exact absurd hb10 h
      · intro r
        exact haq r
  · intro h1 htk gs' hok
    simp only [GameState.demolishBuilding, hfind] at hok
    rw [if_neg (by omega : ¬ b.builtCount ≤ 0)] at hok
    rw [if_pos htk] at hok
    rw [if_pos htk] at hok
    rw [if_neg (by norm_num : ¬ (0:ℚ) < 0)] at hok
    rw [if_neg (by simp)] at hok
    rw [Except.ok.injEq] at hok
    subst hok
    intro r hr
    exact recompute_other_quantities _ r hr

/-- Witness for C10: the unbuilt sawmill raises `NothingToDemolishError`,
and on the built one the demolition contract (decrement, disable-at-zero,
exact half-cost refund of 12.5 wood and 2.5 plank) instantiates. -/
theorem demolish_building_spec_witness :
    gsC10z.demolishBuilding "sawmill" = .error NOTHING_TO_DEMOLISH ∧
    ((1 : ℤ) ≤ sawmillB.builtCount → sawmillB.type_key ≠ WOODCUTTER_CAMP →
      ∀ gs', gsC10.demolishBuilding "sawmill" = .ok gs' →
        (∃ b3, gs'.buildings = updateFirst gsC10.buildings "sawmill" (fun _ => b3) ∧
          b3.built = sawmillB.builtCount - 1 ∧
          b3.type_key = sawmillB.type_key ∧
          (sawmillB.builtCount = 1 → b3.enabled = false)) ∧
        (∀ r, gs'.inventory.quantities r
          = gsC10.inventory.quantities r
            + posAmountOf
                ((BUILD_COSTS sawmillB.type_key).map fun p => (p.1, p.2 * (1 / 2))) r)) := by
  have hq0 : ∀ x, 0 ≤ invC8.quantities x := by
    intro x
    simp only [invC8, mkInventory, amountOf]
    split <;> norm_num
  have hcapnone : ∀ (x : Resource) (cx : ℚ), invC8.capacities x = some cx → False := by
    intro x cx hcx
    simp [invC8, mkInventory, List.find?] at hcx
  constructor
  · exact (demolish_building_spec gsC10z "sawmill" sawmillB0
      (by simp [gsC10z, gsC8, List.find?, Building.id, sawmillB0, sawmillB])
      hq0
      (fun x cx hcx => absurd hcx (fun h => hcapnone x cx h))).1
      (by norm_num [Building.builtCount, sawmillB0, sawmillB])
  · exact (demolish_building_spec gsC10 "sawmill" sawmillB
      (by simp [gsC10, gsC8, List.find?, Building.id, sawmillB])
      hq0
      (fun x cx hcx => absurd hcx (fun h => hcapnone x cx h))).2.1

/-! ### Key accounting lemmas -/

theorem posAmountOf_eq_zero_of_keys (l : ResMap) (x : Resource)
    (h : ∀ p ∈ l, p.1 ≠ x) : posAmountOf l x = 0 := by
  induction l with
  | nil => rfl
  | cons p rest ih =>
      obtain ⟨k, v⟩ := p
      have hk : k ≠ x := h (k, v) (List.mem_cons_self _ _)
      have hnc : ¬ (k = x ∧ 0 < v) := fun hc => hk hc.1
      simp only [posAmountOf, if_neg hnc, zero_add]
      exact ih fun q hq => h q (List.mem_cons_of_mem _ hq)

theorem posAmountOf_le_pointwise (l : ResMap) (q : Resource → ℚ)
    (hnd : (l.map Prod.fst).Nodup) (hq0 : ∀ x, 0 ≤ q x)
    (h : ∀ p ∈ l, 0 < p.2 → p.2 ≤ q p.1) :
    ∀ x, posAmountOf l x ≤ q x := by
  induction l with
  | nil =>
      intro x
      have : posAmountOf [] x = 0 := rfl
      rw [this]
      exact hq0 x
  | cons p rest ih =>
      obtain ⟨k, v⟩ := p
      intro x
      rw [List.map_cons, List.nodup_cons] at hnd
      obtain ⟨hknot, hndr⟩ := hnd
      by_cases hkx : k = x ∧ 0 < v
      · obtain ⟨hk, hv⟩ := hkx
        subst hk
        have hr0 : posAmountOf rest k = 0 := by
          apply posAmountOf_eq_zero_of_keys
          intro q2 hq2 hq2k
          exact hknot (List.mem_map.mpr ⟨q2, hq2, hq2k⟩)
        have hh : posAmountOf ((k, v) :: rest) k = v := by
          simp [posAmountOf, hv, hr0]
        rw [hh]
        exact h (k, v) (List.mem_cons_self _ _) hv
      · simp only [posAmountOf, if_neg hkx, zero_add]
        exact ih hndr (fun q2 hq2 hq2v => h q2 (List.mem_cons_of_mem _ hq2) hq2v) x

theorem posAmountOf_mem_of_pos {l : ResMap} {x : Resource}
    (hnd : (l.map Prod.fst).Nodup) (hpos : 0 < posAmountOf l x) :
    (x, posAmountOf l x) ∈ l := by
  induction l with
  | nil =>
      have h0 : posAmountOf [] x = 0 := rfl
      rw [h0] at hpos
      exact absurd hpos (lt_irrefl 0)
  | cons p rest ih =>
      obtain ⟨k, v⟩ := p
      rw [List.map_cons, List.nodup_cons] at hnd
      obtain ⟨hknot, hndr⟩ := hnd
      by_cases hkx : k = x ∧ 0 < v
      · obtain ⟨hk, hv⟩ := hkx
        subst hk
        have hr0 : posAmountOf rest k = 0 := by
          apply posAmountOf_eq_zero_of_keys
          intro q2 hq2 hq2k
          exact hknot (List.mem_map.mpr ⟨q2, hq2, hq2k⟩)
        have hh : posAmountOf ((k, v) :: rest) k = v := by
          simp [posAmountOf, hv, hr0]
        rw [hh]
        exact List.mem_cons_self _ _
      · simp only [posAmountOf, if_neg hkx, zero_add] at hpos ⊢
        exact List.mem_cons_of_mem _ (ih hndr hpos)

theorem mem_keys_addToMap (m : ResMap) (k : Resource) (a : ℚ) (x : Resource) :
    x ∈ (addToMap m k a).map Prod.fst ↔ x ∈ m.map Prod.fst ∨ x = k := by
  induction m with
  | nil => simp [addToMap]
  | cons p rest ih =>
      obtain ⟨k1, v⟩ := p
      by_cases hk : k1 = k
      · subst hk
        have he : addToMap ((k1, v) :: rest) k1 a = (k1, v + a) :: rest := by
          simp [addToMap]
        rw [he, List.map_cons, List.map_cons]
        simp only [List.mem_cons]
        tauto
      · simp only [addToMap, if_neg hk, List.map_cons, List.mem_cons, ih]
        tauto

theorem addToMap_keys_nodup (m : ResMap) (k : Resource) (a : ℚ)
    (h : (m.map Prod.fst).Nodup) : ((addToMap m k a).map Prod.fst).Nodup := by
  induction m with
  | nil => simp [addToMap]
  | cons p rest ih =>
      obtain ⟨k1, v⟩ := p
      rw [List.map_cons, List.nodup_cons] at h
      obtain ⟨h1, h2⟩ := h
      by_cases hk : k1 = k
      · subst hk
        have he : addToMap ((k1, v) :: rest) k1 a = (k1, v + a) :: rest := by
          simp [addToMap]
        rw [he, List.map_cons, List.nodup_cons]
        exact ⟨h1, h2⟩
      · simp only [addToMap, if_neg hk, List.map_cons, List.nodup_cons]
        refine ⟨?_, ih h2⟩
        intro hmem
        rcases (mem_keys_addToMap rest k a k1).mp hmem with hmem1 | hmem1
        · exact h1 hmem1
        · exact hk hmem1

theorem accumulate_keys_nodup (l : ResMap) :
    ∀ t : ResMap, (t.map Prod.fst).Nodup → ((accumulate t l).map Prod.fst).Nodup := by
  induction l with
  | nil => intro t h; exact h
  | cons p rest ih =>
      intro t h
      by_cases hp : p.2 ≤ 0
      · simp only [accumulate, List.foldl_cons, if_pos hp]
        exact ih t h
      · simp only [accumulate, List.foldl_cons, if_neg hp]
        exact ih _ (addToMap_keys_nodup t p.1 p.2 h)

theorem combineResources_keys_nodup (d1 d2 : ResMap) :
    ((combineResources d1 d2).map Prod.fst).Nodup := by
  rw [combineResources_eq]
  exact accumulate_keys_nodup d2 (accumulate [] d1)
    (accumulate_keys_nodup d1 [] (by simp))

theorem inventory_ext (a b : Inventory)
    (h1 : ∀ x, a.quantities x = b.quantities x)
    (h2 : a.capacities = b.capacities) : a = b := by
  cases a
  cases b
  congr 1
  exact funext h1

theorem restoreInventory_self (l : List Resource) (inv : Inventory)
    (hq0 : ∀ r, 0 ≤ inv.quantities r) :
    ∀ inv' : Inventory, (∀ r, inv'.quantities r = inv.quantities r) →
      inv'.capacities = inv.capacities →
      (∀ r, (restoreInventory inv' (l.map fun k => (k, inv.quantities k))).quantities r
          = inv.quantities r) ∧
      (restoreInventory inv' (l.map fun k => (k, inv.quantities k))).capacities
        = inv.capacities := by
  induction l with
  | nil => intro inv' h1 h2; exact ⟨h1, h2⟩
  | cons k rest ih =>
      intro inv' h1 h2
      simp only [List.map_cons, restoreInventory, List.foldl_cons]
      refine ih (inv'.setAmount k (inv.quantities k)) ?_ ?_
      · intro r
        show (if r = k then max 0 (inv.quantities k) else inv'.quantities r)
            = inv.quantities r
        by_cases hr : r = k
        · rw [if_pos hr, hr, max_eq_right (hq0 k)]
        · rw [if_neg hr]
          exact h1 r
      · exact h2

theorem consumeList_le (l : ResMap) :
    ∀ inv : Inventory, (∀ x, 0 ≤ inv.quantities x) →
      ∀ x, (consumeList inv l).quantities x ≤ inv.quantities x := by
  induction l with
  | nil => intro inv _ x; exact le_refl _
  | cons p rest ih =>
      intro inv hq0 x
      obtain ⟨k, a⟩ := p
      by_cases ha : a ≤ 0
      · simp only [consumeList, List.foldl_cons, if_pos ha]
        exact ih inv hq0 x
      · simp only [consumeList, List.foldl_cons, if_neg ha]
        have hq1 : ∀ y, 0 ≤ (({ inv with
            quantities := fun z =>
              if z = k then max 0 (inv.quantities k - a) else inv.quantities z } :
                Inventory)).quantities y := by
          intro y
          show (0:ℚ) ≤ if y = k then max 0 (inv.quantities k - a) else inv.quantities y
          split
          · exact le_max_left _ _
          · exact hq0 y
        refine le_trans (ih _ hq1 x) ?_
        show (if x = k then max 0 (inv.quantities k - a) else inv.quantities x)
            ≤ inv.quantities x
        split
        · next hx =>
            rw [hx]
            push_neg at ha
            exact max_le (hq0 k) (by linarith)
        · exact le_refl _

theorem canAdd_mem (l : ResMap) (inv : Inventory) (h : inv.canAdd l = true) :
    ∀ p ∈ l, 0 < p.2 → ∀ c, inv.capacities p.1 = some c →
      inv.quantities p.1 + p.2 ≤ c := by
  intro p hp hpos c hc
  have hall := List.all_eq_true.mp h p hp
  rw [if_neg (not_le.mpr hpos), hc] at hall
  exact of_decide_eq_true hall

theorem fit_of_canAdd {l : ResMap} {inv invc : Inventory}
    (hnd : (l.map Prod.fst).Nodup)
    (hca : inv.canAdd l = true)
    (hcapeq : invc.capacities = inv.capacities)
    (hle : ∀ x, invc.quantities x ≤ inv.quantities x)
    (hwc : ∀ x c, inv.capacities x = some c → inv.quantities x ≤ c) :
    ∀ x c, invc.capacities x = some c →
      invc.quantities x + posAmountOf l x ≤ c := by
  intro x c hc
  rw [hcapeq] at hc
  by_cases hp : 0 < posAmountOf l x
  · have hmem := posAmountOf_mem_of_pos hnd hp
    have hb := canAdd_mem l inv hca _ hmem hp c hc
    have := hle x
    linarith
  · have h0 : posAmountOf l x = 0 :=
      le_antisymm (not_lt.mp hp) (posAmountOf_nonneg l x)
    rw [h0, add_zero]
    exact le_trans (hle x) (hwc x c hc)

theorem filterMap_amount_keys (l : ResMap) (g : Resource × ℚ → ℚ) :
    ((l.filterMap fun p => if 0 < g p then some (p.1, g p) else none).map
      Prod.fst).Sublist (l.map Prod.fst) := by
  induction l with
  | nil => simp
  | cons p rest ih =>
      by_cases hp : 0 < g p
      · simp only [List.filterMap_cons, if_pos hp, List.map_cons]
        exact List.Sublist.cons₂ _ ih
      · simp only [List.filterMap_cons, if_neg hp, List.map_cons]
        exact List.Sublist.cons _ ih

theorem filterMap_amount_pos (l : ResMap) (g : Resource × ℚ → ℚ) :
    ∀ p ∈ l.filterMap fun q => if 0 < g q then some (q.1, g q) else none,
      0 < p.2 := by
  intro p hp
  rw [List.mem_filterMap] at hp
  obtain ⟨a, _, ha⟩ := hp
  by_cases hg : 0 < g a
  · rw [if_pos hg] at ha
    injection ha with ha1
    rw [← ha1]
    exact hg
  · rw [if_neg hg] at ha
    exact Option.noConfusion ha

/-! ### All-path conservation of one cycle attempt -/

theorem attemptCycle_conserves (b : Building) (inv : Inventory)
    (hq0 : ∀ x, 0 ≤ inv.quantities x)
    (hwc : ∀ x c, inv.capacities x = some c → inv.quantities x ≤ c)
    (hnd : (b.recipe.outputs.map Prod.fst).Nodup)
    (hsafe : CycleSafe b.recipe inv) :
    ((b.attemptCycle inv).success = true →
      (b.attemptCycle inv).inv = postCycleInv b.recipe inv ∧
      (b.attemptCycle inv).consumed = cycleCombined b ∧
      (b.attemptCycle inv).produced = b.recipe.outputs ∧
      (∀ x, posAmountOf (cycleCombined b) x ≤ inv.quantities x) ∧
      (∀ x c, inv.capacities x = some c →
        inv.quantities x + (posAmountOf b.recipe.outputs x
          - posAmountOf (cycleCombined b) x) ≤ c)) ∧
    ((b.attemptCycle inv).success = false →
      (b.attemptCycle inv).inv = inv ∧
      (b.attemptCycle inv).consumed = [] ∧
      (b.attemptCycle inv).produced = []) := by
  unfold Building.attemptCycle
  by_cases hMg : b.recipe.maintenance ≠ [] ∧ ¬ inv.has b.recipe.maintenance = true
  · rw [if_pos hMg]
    exact ⟨fun h => Bool.noConfusion h, fun _ => ⟨rfl, rfl, rfl⟩⟩
  · rw [if_neg hMg]
    by_cases hIg : b.recipe.inputs ≠ [] ∧ ¬ inv.has b.recipe.inputs = true
    · rw [if_pos hIg]
      exact ⟨fun h => Bool.noConfusion h, fun _ => ⟨rfl, rfl, rfl⟩⟩
    · rw [if_neg hIg]
      rw [show combineResources b.recipe.inputs b.recipe.maintenance
          = cycleCombined b from rfl]
      by_cases hOg : b.recipe.outputs ≠ [] ∧ ¬ inv.canAdd b.recipe.outputs = true
      · rw [if_pos hOg]
        exact ⟨fun h => Bool.noConfusion h, fun _ => ⟨rfl, rfl, rfl⟩⟩
      · rw [if_neg hOg]
        by_cases hCg : cycleCombined b ≠ [] ∧ ¬ (inv.consume (cycleCombined b)).1 = true
        · rw [if_pos hCg]
          have hhas : inv.has (cycleCombined b) = false := by
            rcases Bool.eq_false_or_eq_true (inv.has (cycleCombined b)) with h | h
            · exfalso
              apply hCg.2
              show (inv.consume (cycleCombined b)).1 = true
              unfold Inventory.consume
              rw [if_pos h]
            · exact h
          have hhas' : ¬ inv.has (cycleCombined b) = true := by
            rw [hhas]
            exact fun hc => Bool.noConfusion hc
          have hc2 : (inv.consume (cycleCombined b)).2 = inv := by
            unfold Inventory.consume
            rw [if_neg hhas']
          refine ⟨fun h => Bool.noConfusion h, fun _ => ⟨?_, rfl, rfl⟩⟩
          rw [hc2]
          obtain ⟨hr1, hr2⟩ := restoreInventory_self
            (((cycleCombined b).map Prod.fst
              ++ b.recipe.outputs.map Prod.fst).dedup) inv hq0 inv
            (fun r => rfl) rfl
          exact inventory_ext _ _ hr1 hr2
        · rw [if_neg hCg]
          push_neg at hCg hOg
          have hchar : (∀ x, (inv.consume (cycleCombined b)).2.quantities x
                = inv.quantities x - posAmountOf (cycleCombined b) x) ∧
              (inv.consume (cycleCombined b)).2.capacities = inv.capacities ∧
              (∀ x, posAmountOf (cycleCombined b) x ≤ inv.quantities x) := by
            by_cases hce : cycleCombined b = []
            · rw [hce]
              have hnil : ∀ x, posAmountOf ([] : ResMap) x = 0 := fun x => rfl
              have hcons : inv.consume [] = (true, consumeList inv []) := by
                unfold Inventory.consume
                rw [if_pos (show inv.has [] = true from rfl)]
              rw [hcons]
              exact ⟨fun x => by rw [hnil x]; show inv.quantities x = _; ring,
                rfl, fun x => by rw [hnil x]; exact hq0 x⟩
            · have h1 := hCg hce
              have hhas : inv.has (cycleCombined b) = true := by
                rcases Bool.eq_false_or_eq_true (inv.has (cycleCombined b)) with h | h
                · exact h
                · exfalso
                  unfold Inventory.consume at h1
                  rw [if_neg (by rw [h]; exact fun hc => Bool.noConfusion hc)] at h1
                  exact Bool.noConfusion h1
              have hcov : ∀ x, posAmountOf (cycleCombined b) x ≤ inv.quantities x := by
                apply posAmountOf_le_pointwise (cycleCombined b) inv.quantities
                  (combineResources_keys_nodup _ _) hq0
                intro p hp _
                exact hsafe hhas p hp
              have hcons : inv.consume (cycleCombined b)
                  = (true, consumeList inv (cycleCombined b)) := by
                unfold Inventory.consume
                rw [if_pos hhas]
              rw [hcons]
              exact ⟨fun x => consumeList_quantities _ _ hcov x,
                consumeList_capacities _ _, hcov⟩
          obtain ⟨hcq, hccap, hcov⟩ := hchar
          have hq0c : ∀ x, 0 ≤ (inv.consume (cycleCombined b)).2.quantities x := by
            intro x
            rw [hcq x]
            have := hcov x
            linarith
          have hlec : ∀ x, (inv.consume (cycleCombined b)).2.quantities x
              ≤ inv.quantities x := by
            intro x
            rw [hcq x]
            have := posAmountOf_nonneg (cycleCombined b) x
            linarith
          have hcapfit : ∀ x c, (inv.consume (cycleCombined b)).2.capacities x = some c →
              (inv.consume (cycleCombined b)).2.quantities x
                + posAmountOf b.recipe.outputs x ≤ c := by
            intro x c hc
            rw [hccap] at hc
            by_cases hpos : 0 < posAmountOf b.recipe.outputs x
            · have hmem := posAmountOf_mem_of_pos hnd hpos
              have houts : b.recipe.outputs ≠ [] := by
                intro hn
                rw [hn] at hmem
                exact absurd hmem (List.not_mem_nil _)
              have hca := canAdd_mem _ _ (hOg houts) _ hmem hpos c hc
              have := hlec x
              linarith
            · have h0 : posAmountOf b.recipe.outputs x = 0 :=
                le_antisymm (not_lt.mp hpos) (posAmountOf_nonneg _ _)
              rw [h0, add_zero]
              exact le_trans (hlec x) (hwc x c hc)
          obtain ⟨ha1, ha2, ha3⟩ :=
            add_spec b.recipe.outputs (inv.consume (cycleCombined b)).2 hq0c hcapfit
          rw [if_neg (show ¬ ((inv.consume (cycleCombined b)).2.add
              b.recipe.outputs).1 ≠ [] from by rw [ha1]; exact fun hx => hx rfl)]
          refine ⟨fun _ => ⟨?_, rfl, rfl, hcov, ?_⟩, fun h => Bool.noConfusion h⟩
          · apply inventory_ext
            · intro x
              show ((inv.consume (cycleCombined b)).2.add b.recipe.outputs).2.quantities x
                  = (postCycleInv b.recipe inv).quantities x
              rw [ha2 x, hcq x]
              show _ = inv.quantities x + (posAmountOf b.recipe.outputs x
                - posAmountOf (combineResources b.recipe.inputs b.recipe.maintenance) x)
              show inv.quantities x - posAmountOf (cycleCombined b) x
                  + posAmountOf b.recipe.outputs x
                = inv.quantities x + (posAmountOf b.recipe.outputs x
                  - posAmountOf (cycleCombined b) x)
              ring
            · show ((inv.consume (cycleCombined b)).2.add b.recipe.outputs).2.capacities
                  = (postCycleInv b.recipe inv).capacities
              rw [ha3, hccap]
              rfl
          · intro x c hc
            have h1 := hcapfit x c (by rw [hccap]; exact hc)
            rw [hcq x] at h1
            linarith

/-! ### All-path conservation of the discrete catch-up loop -/

theorem cycleLoop_conserves : ∀ (n : ℕ) (s : LoopState),
    (∀ x, 0 ≤ s.inv.quantities x) →
    (∀ x c, s.inv.capacities x = some c → s.inv.quantities x ≤ c) →
    ((s.b.recipe.outputs.map Prod.fst).Nodup) →
    LoopSafe n s.b.recipe s.inv →
    (∀ x, (cycleLoop n s).inv.quantities x
      = s.inv.quantities x
        + ((amountOf (cycleLoop n s).totalProduced x - amountOf s.totalProduced x)
          - (amountOf (cycleLoop n s).totalConsumed x - amountOf s.totalConsumed x))) ∧
    (cycleLoop n s).inv.capacities = s.inv.capacities ∧
    (∀ x, 0 ≤ (cycleLoop n s).inv.quantities x) ∧
    (∀ x c, (cycleLoop n s).inv.capacities x = some c
      → (cycleLoop n s).inv.quantities x ≤ c) ∧
    ((∀ p ∈ s.totalConsumed, 0 < p.2) → ∀ p ∈ (cycleLoop n s).totalConsumed, 0 < p.2) ∧
    ((∀ p ∈ s.totalProduced, 0 < p.2) → ∀ p ∈ (cycleLoop n s).totalProduced, 0 < p.2) := by
  intro n
  induction n with
  | zero =>
      intro s hq0 hwc _ _
      refine ⟨fun x => ?_, rfl, hq0, hwc, fun h => h, fun h => h⟩
      show s.inv.quantities x = s.inv.quantities x
        + ((amountOf s.totalProduced x - amountOf s.totalProduced x)
          - (amountOf s.totalConsumed x - amountOf s.totalConsumed x))
      ring
  | succ n ih =>
      intro s hq0 hwc hnd hsafe
      obtain ⟨hcs, hrest⟩ := hsafe
      obtain ⟨hsucc, hfail⟩ := attemptCycle_conserves s.b s.inv hq0 hwc hnd hcs
      by_cases hs : (s.b.attemptCycle s.inv).success = true
      · obtain ⟨hinv, hcons, hprod, hcov, hcapf⟩ := hsucc hs
        set s' : LoopState :=
          { b := { s.b with
              maintenance_notified := false,
              cycle_progress := s.b.cycle_progress - s.b.recipe.cycle_time },
            inv := (s.b.attemptCycle s.inv).inv,
            notes := s.notes,
            totalConsumed := accumulate s.totalConsumed (s.b.attemptCycle s.inv).consumed,
            totalProduced := accumulate s.totalProduced (s.b.attemptCycle s.inv).produced,
            finalStatus := "produced", finalReason := none,
            finalDetail := s.finalDetail } with hs'
        have hunfold : cycleLoop (n + 1) s = cycleLoop n s' := by
          rw [hs']
          simp only [cycleLoop, hs, if_true]
        have hq0' : ∀ x, 0 ≤ s'.inv.quantities x := by
          intro x
          show (0:ℚ) ≤ (s.b.attemptCycle s.inv).inv.quantities x
          rw [hinv]
          show (0:ℚ) ≤ s.inv.quantities x + (posAmountOf s.b.recipe.outputs x
            - posAmountOf (cycleCombined s.b) x)
          have h1 := hcov x
          have h2 := posAmountOf_nonneg s.b.recipe.outputs x
          linarith
        have hwc' : ∀ x c, s'.inv.capacities x = some c → s'.inv.quantities x ≤ c := by
          intro x c hc
          have hc' : (s.b.attemptCycle s.inv).inv.capacities x = some c := hc
          rw [hinv] at hc'
          have hc2 : s.inv.capacities x = some c := hc'
          show (s.b.attemptCycle s.inv).inv.quantities x ≤ c
          rw [hinv]
          show s.inv.quantities x + (posAmountOf s.b.recipe.outputs x
            - posAmountOf (cycleCombined s.b) x) ≤ c
          exact hcapf x c hc2
        have hsafe' : LoopSafe n s'.b.recipe s'.inv := by
          show LoopSafe n s.b.recipe (s.b.attemptCycle s.inv).inv
          rw [hinv]
          exact hrest
        obtain ⟨i1, i2, i3, i4, i5, i6⟩ := ih s' hq0' hwc' hnd hsafe'
        rw [hunfold]
        refine ⟨fun x => ?_, ?_, i3, i4, fun hp => ?_, fun hp => ?_⟩
        · rw [i1 x]
          have e1 : s'.inv.quantities x = s.inv.quantities x
              + (posAmountOf s.b.recipe.outputs x - posAmountOf (cycleCombined s.b) x) := by
            show (s.b.attemptCycle s.inv).inv.quantities x = _
            rw [hinv]
            rfl
          have e2 : amountOf s'.totalProduced x
              = amountOf s.totalProduced x + posAmountOf s.b.recipe.outputs x := by
            show amountOf (accumulate s.totalProduced (s.b.attemptCycle s.inv).produced) x = _
            rw [hprod, amountOf_accumulate]
          have e3 : amountOf s'.totalConsumed x
              = amountOf s.totalConsumed x + posAmountOf (cycleCombined s.b) x := by
            show amountOf (accumulate s.totalConsumed (s.b.attemptCycle s.inv).consumed) x = _
            rw [hcons, amountOf_accumulate]
          rw [e1, e2, e3]
          ring
        · rw [i2]
          show (s.b.attemptCycle s.inv).inv.capacities = s.inv.capacities
          rw [hinv]
          rfl
        · refine i5 ?_
          show ∀ p ∈ accumulate s.totalConsumed (s.b.attemptCycle s.inv).consumed, 0 < p.2
          exact accumulate_pos hp
        · refine i6 ?_
          show ∀ p ∈ accumulate s.totalProduced (s.b.attemptCycle s.inv).produced, 0 < p.2
          exact accumulate_pos hp
      · have hs2 : (s.b.attemptCycle s.inv).success = false := by
          revert hs
          cases (s.b.attemptCycle s.inv).success <;> simp
        obtain ⟨hinv, hc0, hp0⟩ := hfail hs2
        simp only [cycleLoop]
        rw [if_neg hs]
        by_cases hf1 : (s.b.attemptCycle s.inv).failure_reason = some "missing_input"
        · rw [if_pos hf1]
          refine ⟨fun x => ?_, ?_, fun x => ?_, fun x c hc => ?_, fun hp => hp, fun hp => hp⟩
          · show (s.b.attemptCycle s.inv).inv.quantities x
              = s.inv.quantities x
                + ((amountOf s.totalProduced x - amountOf s.totalProduced x)
                  - (amountOf s.totalConsumed x - amountOf s.totalConsumed x))
            rw [hinv]
            ring
          · show (s.b.attemptCycle s.inv).inv.capacities = s.inv.capacities
            rw [hinv]
          · show (0:ℚ) ≤ (s.b.attemptCycle s.inv).inv.quantities x
            rw [hinv]
            exact hq0 x
          · have hc' : (s.b.attemptCycle s.inv).inv.capacities x = some c := hc
            rw [hinv] at hc'
            show (s.b.attemptCycle s.inv).inv.quantities x ≤ c
            rw [hinv]
            exact hwc x c hc'
        · rw [if_neg hf1]
          by_cases hf2 : (s.b.attemptCycle s.inv).failure_reason = some "no_capacity"
          · rw [if_pos hf2]
            refine ⟨fun x => ?_, ?_, fun x => ?_, fun x c hc => ?_, fun hp => hp, fun hp => hp⟩
            · show (s.b.attemptCycle s.inv).inv.quantities x
                = s.inv.quantities x
                  + ((amountOf s.totalProduced x - amountOf s.totalProduced x)
                    - (amountOf s.totalConsumed x - amountOf s.totalConsumed x))
              rw [hinv]
              ring
            · show (s.b.attemptCycle s.inv).inv.capacities = s.inv.capacities
              rw [hinv]
            · show (0:ℚ) ≤ (s.b.attemptCycle s.inv).inv.quantities x
              rw [hinv]
              exact hq0 x
            · have hc' : (s.b.attemptCycle s.inv).inv.capacities x = some c := hc
              rw [hinv] at hc'
              show (s.b.attemptCycle s.inv).inv.quantities x ≤ c
              rw [hinv]
              exact hwc x c hc'
          · rw [if_neg hf2]
            refine ⟨fun x => ?_, ?_, fun x => ?_, fun x c hc => ?_, fun hp => hp, fun hp => hp⟩
            · show (s.b.attemptCycle s.inv).inv.quantities x
                = s.inv.quantities x
                  + ((amountOf s.totalProduced x - amountOf s.totalProduced x)
                    - (amountOf s.totalConsumed x - amountOf s.totalConsumed x))
              rw [hinv]
              ring
            · show (s.b.attemptCycle s.inv).inv.capacities = s.inv.capacities
              rw [hinv]
            · show (0:ℚ) ≤ (s.b.attemptCycle s.inv).inv.quantities x
              rw [hinv]
              exact hq0 x
            · have hc' : (s.b.attemptCycle s.inv).inv.capacities x = some c := hc
              rw [hinv] at hc'
              show (s.b.attemptCycle s.inv).inv.quantities x ≤ c
              rw [hinv]
              exact hwc x c hc'

/-! ### All-path conservation of the continuous tick -/

theorem tickContinuous_conserves (b : Building) (dt : ℚ) (inv : Inventory)
    (mods : List ℚ) (notes : List String)
    (hq0 : ∀ x, 0 ≤ inv.quantities x)
    (hwc : ∀ x c, inv.capacities x = some c → inv.quantities x ≤ c)
    (hndI : ((b.recipe.per_worker_input_rate.getD []).map Prod.fst).Nodup)
    (hndO : ((b.recipe.per_worker_output_rate.getD []).map Prod.fst).Nodup)
    (hsafe : ContSafe b dt inv mods) :
    (∀ x, (b.tickContinuous dt inv mods notes).inv.quantities x
      = inv.quantities x
        + (amountOf (b.tickContinuous dt inv mods notes).report.produced x
          - amountOf (b.tickContinuous dt inv mods notes).report.consumed x)) ∧
    (b.tickContinuous dt inv mods notes).inv.capacities = inv.capacities ∧
    (∀ x, 0 ≤ (b.tickContinuous dt inv mods notes).inv.quantities x) ∧
    (∀ x c, (b.tickContinuous dt inv mods notes).inv.capacities x = some c
      → (b.tickContinuous dt inv mods notes).inv.quantities x ≤ c) ∧
    (b.tickContinuous dt inv mods notes).b.production_report
      = (b.tickContinuous dt inv mods notes).report := by
  have hnil : ∀ x, amountOf ([] : ResMap) x = 0 := fun x => rfl
  simp only [Building.tickContinuous]
  by_cases hmult : modMultiplier mods ≤ 0
  · rw [if_pos hmult]
    refine ⟨fun x => ?_, rfl, hq0, hwc, rfl⟩
    show inv.quantities x = inv.quantities x
      + (amountOf ([] : ResMap) x - amountOf ([] : ResMap) x)
    rw [hnil x]
    ring
  · rw [if_neg hmult]
    by_cases hwo : max 0 b.assigned_workers ≤ 0
        ∨ b.recipe.per_worker_output_rate.getD [] = []
    · rw [if_pos hwo]
      refine ⟨fun x => ?_, rfl, hq0, hwc, rfl⟩
      show inv.quantities x = inv.quantities x
        + (amountOf ([] : ResMap) x - amountOf ([] : ResMap) x)
      rw [hnil x]
      ring
    · rw [if_neg hwo]
      by_cases heff : (contLimits b dt inv (modMultiplier mods)).1 ≤ 0
      · rw [if_pos heff]
        refine ⟨fun x => ?_, rfl, hq0, hwc, rfl⟩
        show inv.quantities x = inv.quantities x
          + (amountOf ([] : ResMap) x - amountOf ([] : ResMap) x)
        rw [hnil x]
        ring
      · rw [if_neg heff]
        set cons := contConsumption b dt (modMultiplier mods)
          (contLimits b dt inv (modMultiplier mods)).1 with hconsdef
        set prod := contProduction b dt (modMultiplier mods)
          (contLimits b dt inv (modMultiplier mods)).1 with hproddef
        have hndc : (cons.map Prod.fst).Nodup := by
          refine List.Nodup.sublist ?_ hndI
          exact filterMap_amount_keys (b.recipe.per_worker_input_rate.getD [])
            (fun p => ((contLimits b dt inv (modMultiplier mods)).1 : ℚ)
              * p.2 * modMultiplier mods * dt)
        have hndp : (prod.map Prod.fst).Nodup := by
          refine List.Nodup.sublist ?_ hndO
          exact filterMap_amount_keys (b.recipe.per_worker_output_rate.getD [])
            (fun p => ((contLimits b dt inv (modMultiplier mods)).1 : ℚ)
              * p.2 * modMultiplier mods * dt)
        have hposc : ∀ p ∈ cons, 0 < p.2 :=
          filterMap_amount_pos (b.recipe.per_worker_input_rate.getD [])
            (fun p => ((contLimits b dt inv (modMultiplier mods)).1 : ℚ)
              * p.2 * modMultiplier mods * dt)
        by_cases hce : cons = []
        · -- no consumption: the reservation degenerates to the identity
          simp only [if_neg (not_not_intro hce)]
          by_cases hadd : prod ≠ [] ∧ ¬ inv.canAdd prod = true
          · rw [if_pos hadd]
            refine ⟨fun x => ?_, rfl, hq0, hwc, by trivial⟩
            show inv.quantities x = inv.quantities x
              + (amountOf ([] : ResMap) x - amountOf ([] : ResMap) x)
            rw [hnil x]
            ring
          · rw [if_neg hadd]
            push_neg at hadd
            have hcapfit : ∀ x c, inv.capacities x = some c →
                inv.quantities x + posAmountOf prod x ≤ c := by
              intro x c hc
              by_cases hpp : 0 < posAmountOf prod x
              · have hmem := posAmountOf_mem_of_pos hndp hpp
                have hpne : prod ≠ [] := by
                  intro hn
                  rw [hn] at hmem
                  exact absurd hmem (List.not_mem_nil _)
                exact canAdd_mem prod inv (hadd hpne) _ hmem hpp c hc
              · have h0 : posAmountOf prod x = 0 :=
                  le_antisymm (not_lt.mp hpp) (posAmountOf_nonneg _ _)
                rw [h0, add_zero]
                exact hwc x c hc
            obtain ⟨ha1, ha2, ha3⟩ := add_spec prod inv hq0 hcapfit
            simp only [ha1, List.isEmpty_nil, Bool.not_true, Bool.false_eq_true, if_false]
            refine ⟨fun x => ?_, ha3, fun x => ?_, fun x c hc => ?_, by trivial⟩
            · show (inv.add prod).2.quantities x = inv.quantities x
                + (amountOf (resourcesToPayload prod) x
                  - amountOf (resourcesToPayload cons) x)
              rw [ha2 x, amountOf_resourcesToPayload, amountOf_resourcesToPayload, hce]
              show _ = inv.quantities x + (posAmountOf prod x - posAmountOf [] x)
              have h0 : posAmountOf ([] : ResMap) x = 0 := rfl
              rw [h0]
              ring
            · show (0:ℚ) ≤ (inv.add prod).2.quantities x
              rw [ha2 x]
              have := posAmountOf_nonneg prod x
              have := hq0 x
              linarith
            · have hc' : (inv.add prod).2.capacities x = some c := hc
              rw [ha3] at hc'
              show (inv.add prod).2.quantities x ≤ c
              rw [ha2 x]
              exact hcapfit x c hc'
        · -- non-empty consumption: a reservation happens first
          rcases hres0 : inv.reserve cons with _ | tokinv
          · simp only [if_pos hce, hres0]
            refine ⟨fun x => ?_, by trivial, hq0, hwc, by trivial⟩
            show inv.quantities x = inv.quantities x
              + (amountOf ([] : ResMap) x - amountOf ([] : ResMap) x)
            rw [hnil x]
            ring
          · obtain ⟨token, inv1⟩ := tokinv
            simp only [if_pos hce, hres0]
            -- characterize the reserved inventory
            have hrb := reserve_rollback_id cons inv token inv1 hres0
            have hres1 := hres0
            unfold Inventory.reserve at hres1
            have hhas : inv.has cons = true := by
              rcases Bool.eq_false_or_eq_true (inv.has cons) with h | h
              · exact h
              · rw [if_neg (by rw [h]; exact fun hc => Bool.noConfusion hc)] at hres1
                exact Option.noConfusion hres1
            rw [if_pos hhas] at hres1
            injection hres1 with hres2
            injection hres2 with htok hinv1
            have hcov : ∀ x, posAmountOf cons x ≤ inv.quantities x := by
              apply posAmountOf_le_pointwise cons inv.quantities hndc hq0
              intro p hp _
              exact hsafe hhas p hp
            have hq1 : ∀ x, inv1.quantities x
                = inv.quantities x - posAmountOf cons x := by
              intro x
              rw [← hinv1]
              exact consumeList_quantities cons inv hcov x
            have hcap1 : inv1.capacities = inv.capacities := by
              rw [← hinv1]
              exact consumeList_capacities cons inv
            have hq01 : ∀ x, 0 ≤ inv1.quantities x := by
              intro x
              rw [hq1 x]
              have := hcov x
              linarith
            have hle1 : ∀ x, inv1.quantities x ≤ inv.quantities x := by
              intro x
              rw [hq1 x]
              have := posAmountOf_nonneg cons x
              linarith
            by_cases hadd : prod ≠ [] ∧ ¬ inv1.canAdd prod = true
            · rw [if_pos hadd]
              refine ⟨fun x => ?_, ?_, fun x => ?_, fun x c hc => ?_, by trivial⟩
              · show (inv1.rollback token).quantities x = inv.quantities x
                  + (amountOf ([] : ResMap) x - amountOf ([] : ResMap) x)
                rw [hrb.1 x, hnil x]
                ring
              · show (inv1.rollback token).capacities = inv.capacities
                exact hrb.2
              · show (0:ℚ) ≤ (inv1.rollback token).quantities x
                rw [hrb.1 x]
                exact hq0 x
              · have hc' : (inv1.rollback token).capacities x = some c := hc
                rw [hrb.2] at hc'
                show (inv1.rollback token).quantities x ≤ c
                rw [hrb.1 x]
                exact hwc x c hc'
            · rw [if_neg hadd]
              push_neg at hadd
              have hcapfit : ∀ x c, inv1.capacities x = some c →
                  inv1.quantities x + posAmountOf prod x ≤ c := by
                intro x c hc
                by_cases hpp : 0 < posAmountOf prod x
                · have hmem := posAmountOf_mem_of_pos hndp hpp
                  have hpne : prod ≠ [] := by
                    intro hn
                    rw [hn] at hmem
                    exact absurd hmem (List.not_mem_nil _)
                  exact canAdd_mem prod inv1 (hadd hpne) _ hmem hpp c hc
                · have h0 : posAmountOf prod x = 0 :=
                    le_antisymm (not_lt.mp hpp) (posAmountOf_nonneg _ _)
                  rw [h0, add_zero]
                  rw [hcap1] at hc
                  exact le_trans (hle1 x) (hwc x c hc)
              simp only [Inventory.commit]
              obtain ⟨ha1, ha2, ha3⟩ := add_spec prod inv1 hq01 hcapfit
              simp only [ha1, List.isEmpty_nil, Bool.not_true, Bool.false_eq_true, if_false]
              refine ⟨fun x => ?_, ?_, fun x => ?_, fun x c hc => ?_, by trivial⟩
              · show (inv1.add prod).2.quantities x = inv.quantities x
                  + (amountOf (resourcesToPayload prod) x
                    - amountOf (resourcesToPayload cons) x)
                rw [ha2 x, hq1 x, amountOf_resourcesToPayload, amountOf_resourcesToPayload]
                ring
              · show (inv1.add prod).2.capacities = inv.capacities
                rw [ha3, hcap1]
              · show (0:ℚ) ≤ (inv1.add prod).2.quantities x
                rw [ha2 x, hq1 x]
                have := hcov x
                have := posAmountOf_nonneg prod x
                linarith
              · have hc' : (inv1.add prod).2.capacities x = some c := hc
                rw [ha3] at hc'
                show (inv1.add prod).2.quantities x ≤ c
                rw [ha2 x]
                exact hcapfit x c hc'

/-! ### The tick never changes a building's recipe -/

theorem applyInactiveStatus_recipe (b : Building) (reason : String) :
    (b.applyInactiveStatus reason).recipe = b.recipe := by
  simp only [Building.applyInactiveStatus]
  split <;> rfl

theorem applyMissingInputStatus_recipe (b : Building) (d : Option String)
    (notes : List String) :
    (b.applyMissingInputStatus d notes).1.recipe = b.recipe := by
  simp only [Building.applyMissingInputStatus]
  split
  · split <;> rfl
  · rfl

theorem cycleLoop_recipe (n : ℕ) (s : LoopState) :
    (cycleLoop n s).b.recipe = s.b.recipe := by
  induction n generalizing s with
  | zero => rfl
  | succ n ih =>
      rw [cycleLoop]
      split
      · rw [ih]
      · split
        · exact applyMissingInputStatus_recipe s.b _ s.notes
        · split
          · rfl
          · rfl

theorem tickContinuous_recipe (b : Building) (dt : ℚ) (inv : Inventory)
    (mods : List ℚ) (notes : List String) :
    (b.tickContinuous dt inv mods notes).b.recipe = b.recipe := by
  simp only [Building.tickContinuous]
  split
  · exact applyInactiveStatus_recipe b "inactive"
  · split
    · exact applyInactiveStatus_recipe b "inactive"
    · split
      · exact applyMissingInputStatus_recipe b _ notes
      · split
        · exact applyMissingInputStatus_recipe b _ notes
        · split
          · rfl
          · split
            · rfl
            · rfl

theorem tick_recipe (b : Building) (dt : ℚ) (inv : Inventory)
    (mods : List ℚ) (notes : List String) :
    (b.tick dt inv mods notes).b.recipe = b.recipe := by
  simp only [Building.tick]
  split
  · exact applyInactiveStatus_recipe b _
  · split
    · exact tickContinuous_recipe b dt inv mods notes
    · split
      · exact applyInactiveStatus_recipe _ "inactive"
      · split
        · rfl
        · split
          · exact cycleLoop_recipe _ _
          · exact cycleLoop_recipe _ _

/-! ### All-path conservation of one building tick -/

theorem building_tick_conserves (b : Building) (dtm : ℚ) (inv : Inventory)
    (mods : List ℚ) (notes : List String)
    (hq0 : ∀ x, 0 ≤ inv.quantities x)
    (hwc : ∀ x c, inv.capacities x = some c → inv.quantities x ≤ c)
    (hsafe : TickSafe b dtm inv mods) :
    (∀ x, (b.tick dtm inv mods notes).inv.quantities x
      = inv.quantities x
        + (amountOf (b.tick dtm inv mods notes).report.produced x
          - amountOf (b.tick dtm inv mods notes).report.consumed x)) ∧
    (b.tick dtm inv mods notes).inv.capacities = inv.capacities ∧
    (∀ x, 0 ≤ (b.tick dtm inv mods notes).inv.quantities x) ∧
    (∀ x c, (b.tick dtm inv mods notes).inv.capacities x = some c
      → (b.tick dtm inv mods notes).inv.quantities x ≤ c) ∧
    (b.tick dtm inv mods notes).b.production_report
      = (b.tick dtm inv mods notes).report := by
  have hnil : ∀ x, amountOf ([] : ResMap) x = 0 := fun x => rfl
  obtain ⟨hndO, hndRI, hndRO, hdisp⟩ := hsafe
  rcases hact : b.inactiveReason with _ | reason
  · -- the building is active
    by_cases hmode : truthyRates b.recipe.per_worker_output_rate = true
    · rw [tick_dispatch_continuous b dtm inv mods notes hact hmode]
      refine tickContinuous_conserves b dtm inv mods notes hq0 hwc hndRI hndRO ?_
      rw [if_pos hmode] at hdisp
      exact hdisp
    · have hmode' : truthyRates b.recipe.per_worker_output_rate = false := by
        revert hmode
        cases truthyRates b.recipe.per_worker_output_rate <;> simp
      have hloop : LoopSafe (pendingCycles b dtm mods) b.recipe inv := by
        rw [if_neg (by rw [hmode']; exact fun hc => Bool.noConfusion hc)] at hdisp
        exact hdisp
      by_cases hrate : b.effectiveRate b.assigned_workers mods ≤ 0
      · unfold Building.tick
        rw [hact]
        simp only [hmode', Bool.false_eq_true, if_false, if_pos hrate]
        refine ⟨fun x => ?_, by trivial, hq0, hwc, by trivial⟩
        show inv.quantities x = inv.quantities x
          + (amountOf ([] : ResMap) x - amountOf ([] : ResMap) x)
        rw [hnil x]
        ring
      · push_neg at hrate
        by_cases hcy : ⌊(b.cycle_progress + dtm * b.effectiveRate b.assigned_workers mods)
            / b.recipe.cycle_time⌋ ≤ 0
        · unfold Building.tick
          rw [hact]
          simp only [hmode', Bool.false_eq_true, if_false,
            if_neg (not_le.mpr hrate), if_pos hcy]
          refine ⟨fun x => ?_, by trivial, hq0, hwc, by trivial⟩
          show inv.quantities x = inv.quantities x
            + (amountOf ([] : ResMap) x - amountOf ([] : ResMap) x)
          rw [hnil x]
          ring
        · rw [tick_discrete_eq b dtm inv mods notes hact hmode' hrate hcy]
          set s0 : LoopState :=
            { b := { b with
                last_effective_rate := b.effectiveRate b.assigned_workers mods,
                cycle_progress :=
                  b.cycle_progress + dtm * b.effectiveRate b.assigned_workers mods },
              inv := inv, notes := notes, totalConsumed := [], totalProduced := [],
              finalStatus := "inactive", finalReason := some "inactive",
              finalDetail := none } with hs0
          obtain ⟨l1, l2, l3, l4, l5, l6⟩ := cycleLoop_conserves
            (⌊(b.cycle_progress + dtm * b.effectiveRate b.assigned_workers mods)
              / b.recipe.cycle_time⌋).toNat s0 hq0 hwc hndO hloop
          have hTCpos : ∀ p ∈ (cycleLoop
              (⌊(b.cycle_progress + dtm * b.effectiveRate b.assigned_workers mods)
                / b.recipe.cycle_time⌋).toNat s0).totalConsumed, 0 < p.2 := by
            apply l5
            intro p hp
            cases hp
          have hTPpos : ∀ p ∈ (cycleLoop
              (⌊(b.cycle_progress + dtm * b.effectiveRate b.assigned_workers mods)
                / b.recipe.cycle_time⌋).toNat s0).totalProduced, 0 < p.2 := by
            apply l6
            intro p hp
            cases hp
          refine ⟨fun x => ?_, l2, l3, l4, rfl⟩
          show (cycleLoop
              (⌊(b.cycle_progress + dtm * b.effectiveRate b.assigned_workers mods)
                / b.recipe.cycle_time⌋).toNat s0).inv.quantities x
            = inv.quantities x
              + (amountOf (resourcesToPayload (cycleLoop
                  (⌊(b.cycle_progress + dtm * b.effectiveRate b.assigned_workers mods)
                    / b.recipe.cycle_time⌋).toNat s0).totalProduced) x
                - amountOf (resourcesToPayload (cycleLoop
                    (⌊(b.cycle_progress + dtm * b.effectiveRate b.assigned_workers mods)
                      / b.recipe.cycle_time⌋).toNat s0).totalConsumed) x)
          rw [amountOf_resourcesToPayload, amountOf_resourcesToPayload,
            posAmountOf_eq_amountOf hTPpos, posAmountOf_eq_amountOf hTCpos, l1 x]
          show inv.quantities x
              + ((amountOf (cycleLoop
                  (⌊(b.cycle_progress + dtm * b.effectiveRate b.assigned_workers mods)
                    / b.recipe.cycle_time⌋).toNat s0).totalProduced x
                  - amountOf ([] : ResMap) x)
                - (amountOf (cycleLoop
                    (⌊(b.cycle_progress + dtm * b.effectiveRate b.assigned_workers mods)
                      / b.recipe.cycle_time⌋).toNat s0).totalConsumed x
                  - amountOf ([] : ResMap) x)) = _
          rw [hnil x]
          ring
  · -- the building is inactive
    unfold Building.tick
    rw [hact]
    refine ⟨fun x => ?_, rfl, hq0, hwc, rfl⟩
    show inv.quantities x = inv.quantities x
      + (amountOf ([] : ResMap) x - amountOf ([] : ResMap) x)
    rw [hnil x]
    ring

/-! ### Conservation through the building fold of one orchestrator tick -/

theorem buildingFoldU_conserves (mods : Building → List ℚ) (dtm : ℚ) :
    ∀ (bs : List Building) (acc : List Building × Inventory × List String),
    (∀ x, 0 ≤ acc.2.1.quantities x) →
    (∀ x c, acc.2.1.capacities x = some c → acc.2.1.quantities x ≤ c) →
    FoldSafe mods dtm bs acc.2.1 acc.2.2 →
    (∀ x, (bs.foldl (buildStep mods dtm) acc).2.1.quantities x
      = acc.2.1.quantities x
        + (((bs.foldl (buildStep mods dtm) acc).1.map fun y => reportDelta y x).sum
          - (acc.1.map fun y => reportDelta y x).sum)) ∧
    (bs.foldl (buildStep mods dtm) acc).2.1.capacities = acc.2.1.capacities ∧
    (∀ x, 0 ≤ (bs.foldl (buildStep mods dtm) acc).2.1.quantities x) ∧
    (∀ x c, (bs.foldl (buildStep mods dtm) acc).2.1.capacities x = some c
      → (bs.foldl (buildStep mods dtm) acc).2.1.quantities x ≤ c) := by
  intro bs
  induction bs with
  | nil =>
      intro acc h1 h2 _
      refine ⟨fun x => ?_, rfl, h1, h2⟩
      show acc.2.1.quantities x = acc.2.1.quantities x
        + ((acc.1.map fun y => reportDelta y x).sum
          - (acc.1.map fun y => reportDelta y x).sum)
      ring
  | cons b rest ih =>
      intro acc hq0 hwc hfs
      obtain ⟨hts, hrest⟩ := hfs
      obtain ⟨t1, t2, t3, t4, t5⟩ :=
        building_tick_conserves b dtm acc.2.1 (mods b) acc.2.2 hq0 hwc hts
      rw [List.foldl_cons]
      have hfs' : FoldSafe mods dtm rest (buildStep mods dtm acc b).2.1
          (buildStep mods dtm acc b).2.2 := hrest
      obtain ⟨i1, i2, i3, i4⟩ := ih (buildStep mods dtm acc b)
        (fun x => t3 x) (fun x c hc => t4 x c hc) hfs'
      refine ⟨fun x => ?_, ?_, i3, i4⟩
      · rw [i1 x]
        have e1 : (buildStep mods dtm acc b).2.1.quantities x
            = acc.2.1.quantities x
              + reportDelta (b.tick dtm acc.2.1 (mods b) acc.2.2).b x := by
          show (b.tick dtm acc.2.1 (mods b) acc.2.2).inv.quantities x = _
          rw [t1 x]
          unfold reportDelta
          rw [t5]
        have e2 : ((buildStep mods dtm acc b).1.map fun y => reportDelta y x).sum
            = (acc.1.map fun y => reportDelta y x).sum
              + reportDelta (b.tick dtm acc.2.1 (mods b) acc.2.2).b x := by
          show ((acc.1 ++ [(b.tick dtm acc.2.1 (mods b) acc.2.2).b]).map
              fun y => reportDelta y x).sum = _
          rw [List.map_append, List.sum_append]
          simp
        rw [e1, e2]
        ring
      · rw [i2]
        show (b.tick dtm acc.2.1 (mods b) acc.2.2).inv.capacities = acc.2.1.capacities
        exact t2

theorem buildingFoldU_types (mods : Building → List ℚ) (dtm : ℚ) :
    ∀ (bs : List Building) (acc : List Building × Inventory × List String),
    ∀ x ∈ (bs.foldl (buildStep mods dtm) acc).1,
      x ∈ acc.1 ∨ ∃ b ∈ bs, x.type_key = b.type_key := by
  intro bs
  induction bs with
  | nil =>
      intro acc x hx
      exact Or.inl hx
  | cons b rest ih =>
      intro acc x hx
      rw [List.foldl_cons] at hx
      rcases ih (buildStep mods dtm acc b) x hx with hmem | ⟨y, hy, hxy⟩
      · have hmem' : x ∈ acc.1 ++ [(b.tick dtm acc.2.1 (mods b) acc.2.2).b] := hmem
        rcases List.mem_append.mp hmem' with h | h
        · exact Or.inl h
        · right
          refine ⟨b, List.mem_cons_self _ _, ?_⟩
          rw [List.mem_singleton] at h
          rw [h]
          exact tick_type_key b dtm acc.2.1 (mods b) acc.2.2
      · exact Or.inr ⟨y, List.mem_cons_of_mem _ hy, hxy⟩

/-! ### The paused trade fold and the inert wood subsystem -/

theorem trade_tick_paused (c : TradeChannel) (dtq : ℚ) (inv : Inventory)
    (notes : List String) (h : c.mode = "pause") :
    c.tick dtq inv notes = (c, inv, notes) := by
  simp only [TradeChannel.tick]
  rw [if_pos (Or.inl h)]

theorem tradeFold_paused (cs : List TradeChannel) (dtq : ℚ)
    (acc0 : List TradeChannel × Inventory × List String)
    (h : ∀ c ∈ cs, c.mode = "pause") :
    cs.foldl
      (fun (acc : List TradeChannel × Inventory × List String) c =>
        let r := c.tick dtq acc.2.1 acc.2.2
        (acc.1 ++ [r.1], r.2.1, r.2.2))
      acc0 = (acc0.1 ++ cs, acc0.2.1, acc0.2.2) := by
  induction cs generalizing acc0 with
  | nil => simp
  | cons c t ih =>
      rw [List.foldl_cons,
        trade_tick_paused c dtq acc0.2.1 acc0.2.2 (h c (List.mem_cons_self _ _))]
      rw [ih _ (fun x hx => h x (List.mem_cons_of_mem _ hx))]
      simp

theorem tickFold_eq (gs : GameState) (dt : ℚ)
    (hnw : ∀ b ∈ gs.buildings, b.type_key ≠ WOODCUTTER_CAMP) :
    tickFold gs dt = gs.buildings.foldl
      (buildStep (fun b => (gs.season_clock.update (max 0 dt)).getModifiers b.type_key)
        (max 0 dt))
      ([], gs.inventory, gs.notifications) := by
  have hfind : gs.buildings.find? (fun b => b.type_key = WOODCUTTER_CAMP) = none := by
    rw [List.find?_eq_none]
    intro x hx
    simpa using hnw x hx
  have hwid : (gs.getBuildingByType WOODCUTTER_CAMP).map Building.id = none := by
    unfold GameState.getBuildingByType
    rw [hfind]
    rfl
  unfold tickFold
  rw [hwid]
  apply foldl_fun_congr
  intro x y
  rw [if_neg (fun hc => Option.noConfusion hc)]
  rfl

theorem recompute_rate_no_woodcutter (gs : GameState)
    (hnw : ∀ b ∈ gs.buildings, b.type_key ≠ WOODCUTTER_CAMP) :
    gs.recomputeWoodState.1.wood_production_per_second = 0 := by
  have hfind : gs.buildings.find? (fun b => b.type_key = WOODCUTTER_CAMP) = none := by
    rw [List.find?_eq_none]
    intro x hx
    simpa using hnw x hx
  simp only [GameState.recomputeWoodState, GameState.getBuildingByType, hfind]
  norm_num

theorem applyWoodTick_no_woodcutter (gs : GameState) (dt : ℚ)
    (hnw : ∀ b ∈ gs.buildings, b.type_key ≠ WOODCUTTER_CAMP) :
    gs.applyWoodTick dt = (gs.recomputeWoodState.1, 0) := by
  simp only [GameState.applyWoodTick]
  by_cases hdt : max 0 dt ≤ 0
  · rw [if_pos hdt]
  · rw [if_neg hdt,
      if_pos (Or.inl (le_of_eq (recompute_rate_no_woodcutter gs hnw)))]

/-! ### The paused orchestrator tick in closed form -/

set_option maxHeartbeats 4000000 in
theorem tick_paused_no_woodcutter (gs : GameState) (dt : ℚ)
    (hch : ∀ c ∈ gs.channels, c.mode = "pause")
    (hnw : ∀ b ∈ gs.buildings, b.type_key ≠ WOODCUTTER_CAMP) :
    gs.tick dt = ({ gs with
      inventory := (tickFold gs dt).2.1,
      buildings := (tickFold gs dt).1,
      season_clock := gs.season_clock.update (max 0 dt),
      notifications := (tickFold gs dt).2.2 } : GameState).recomputeWoodState.1 := by
  have hnw1 : ∀ b ∈ (tickFold gs dt).1, b.type_key ≠ WOODCUTTER_CAMP := by
    intro x hx
    rw [tickFold_eq gs dt hnw] at hx
    rcases buildingFoldU_types
        (fun b => (gs.season_clock.update (max 0 dt)).getModifiers b.type_key)
        (max 0 dt) gs.buildings ([], gs.inventory, gs.notifications) x hx with
      h | ⟨b, hb, hxb⟩
    · cases h
    · rw [hxb]
      exact hnw b hb
  have hbs : ({ gs with
      inventory := (tickFold gs dt).2.1,
      buildings := (tickFold gs dt).1,
      season_clock := gs.season_clock.update (max 0 dt),
      notifications := (tickFold gs dt).2.2 } : GameState).recomputeWoodState.1.buildings
      = (tickFold gs dt).1 :=
    recompute_buildings_no_woodcutter _ hnw1
  have hfind2 : ({ gs with
      inventory := (tickFold gs dt).2.1,
      buildings := (tickFold gs dt).1,
      season_clock := gs.season_clock.update (max 0 dt),
      notifications := (tickFold gs dt).2.2 } : GameState).recomputeWoodState.1.buildings.find?
        (fun b => b.type_key = WOODCUTTER_CAMP) = none := by
    rw [hbs, List.find?_eq_none]
    intro x hx
    simpa using hnw1 x hx
  simp only [GameState.tick]
  rw [tradeFold_paused gs.channels (max 0 dt) ([], gs.inventory, gs.notifications) hch]
  simp only [List.nil_append]
  split
  · rw [applyWoodTick_no_woodcutter ({ gs with
      inventory := (tickFold gs dt).2.1,
      buildings := (tickFold gs dt).1,
      season_clock := gs.season_clock.update (max 0 dt),
      notifications := (tickFold gs dt).2.2 } : GameState) (max 0 dt) hnw1]
  · rename_i val heq
    rw [applyWoodTick_no_woodcutter ({ gs with
      inventory := (tickFold gs dt).2.1,
      buildings := (tickFold gs dt).1,
      season_clock := gs.season_clock.update (max 0 dt),
      notifications := (tickFold gs dt).2.2 } : GameState) (max 0 dt) hnw1] at heq
    have heq' : List.find? (fun b => decide (b.type_key = WOODCUTTER_CAMP))
        ({ gs with
          inventory := (tickFold gs dt).2.1,
          buildings := (tickFold gs dt).1,
          season_clock := gs.season_clock.update (max 0 dt),
          notifications := (tickFold gs dt).2.2 } : GameState).recomputeWoodState.1.buildings
        = some val := heq
    rw [hfind2] at heq'
    cases heq'

/-! ### Conservation of one orchestrator tick and of tick sequences -/

theorem gameTick_conserves (gs : GameState) (dt : ℚ)
    (hq0 : ∀ x, 0 ≤ gs.inventory.quantities x)
    (hwc : ∀ x c, gs.inventory.capacities x = some c → gs.inventory.quantities x ≤ c)
    (hhyp : TickHyp gs dt) :
    (∀ r, (gs.tick dt).inventory.quantities r
      = gs.inventory.quantities r + stateReportDelta (gs.tick dt) r) ∧
    (gs.tick dt).inventory.capacities = gs.inventory.capacities ∧
    (∀ x, 0 ≤ (gs.tick dt).inventory.quantities x) ∧
    (∀ x c, (gs.tick dt).inventory.capacities x = some c
      → (gs.tick dt).inventory.quantities x ≤ c) := by
  obtain ⟨hch, hnw, hwcap, hwq, hfs⟩ := hhyp
  have hfold := buildingFoldU_conserves
    (fun b => (gs.season_clock.update (max 0 dt)).getModifiers b.type_key) (max 0 dt)
    gs.buildings ([], gs.inventory, gs.notifications) hq0 hwc hfs
  rw [← tickFold_eq gs dt hnw] at hfold
  obtain ⟨f1, f2, f3, f4⟩ := hfold
  have hnw1 : ∀ b ∈ (tickFold gs dt).1, b.type_key ≠ WOODCUTTER_CAMP := by
    intro x hx
    rw [tickFold_eq gs dt hnw] at hx
    rcases buildingFoldU_types
        (fun b => (gs.season_clock.update (max 0 dt)).getModifiers b.type_key)
        (max 0 dt) gs.buildings ([], gs.inventory, gs.notifications) x hx with
      h | ⟨b, hb, hxb⟩
    · cases h
    · rw [hxb]
      exact hnw b hb
  have hcap1 : (tickFold gs dt).2.1.capacities "WOOD" = none := by
    rw [f2]
    exact hwcap
  have hrecinv : ({ gs with
      inventory := (tickFold gs dt).2.1,
      buildings := (tickFold gs dt).1,
      season_clock := gs.season_clock.update (max 0 dt),
      notifications := (tickFold gs dt).2.2 } : GameState).recomputeWoodState.1.inventory
      = (tickFold gs dt).2.1 :=
    recompute_inventory_noop _ hnw1 hcap1 hwq
  have hrecbs : ({ gs with
      inventory := (tickFold gs dt).2.1,
      buildings := (tickFold gs dt).1,
      season_clock := gs.season_clock.update (max 0 dt),
      notifications := (tickFold gs dt).2.2 } : GameState).recomputeWoodState.1.buildings
      = (tickFold gs dt).1 :=
    recompute_buildings_no_woodcutter _ hnw1
  rw [tick_paused_no_woodcutter gs dt hch hnw]
  refine ⟨fun r => ?_, ?_, fun x => ?_, fun x c hc => ?_⟩
  · have hs : stateReportDelta (({ gs with
        inventory := (tickFold gs dt).2.1,
        buildings := (tickFold gs dt).1,
        season_clock := gs.season_clock.update (max 0 dt),
        notifications := (tickFold gs dt).2.2 } : GameState).recomputeWoodState.1) r
        = ((tickFold gs dt).1.map fun y => reportDelta y r).sum := by
      unfold stateReportDelta
      rw [hrecbs]
    rw [hrecinv, f1 r, hs]
    have hznil : ((([] : List Building)).map fun y => reportDelta y r).sum = (0:ℚ) := rfl
    rw [hznil]
    ring
  · rw [hrecinv, f2]
  · rw [hrecinv]
    exact f3 x
  · rw [hrecinv] at hc ⊢
    exact f4 x c hc

/-- C4 (corrected): conservation of resources over tick sequences.  Under the
per-tick safety hypotheses of `SeqSafe` — trade paused, no bespoke woodcutter
camp, a quiescent `WOOD` ledger entry (its recomputation otherwise destroys
stock: see the counterexample), and no 1e-9 tolerance near-miss on any cycle —
every orchestrator tick sequence moves each ledger quantity by exactly the sum
of the per-building production reports (outputs credited minus inputs and
maintenance debited), across all modes, successes and stalls alike, and leaves
every capacity untouched.  Unconditionally the spec claim is false: the wood
recomputation inside `GameState.tick` zeroes or truncates the `WOOD` stock
with an empty report. -/
theorem tick_sequence_conserves (gs : GameState) (ds : List ℚ)
    (hq0 : ∀ x, 0 ≤ gs.inventory.quantities x)
    (hwc : ∀ x c, gs.inventory.capacities x = some c → gs.inventory.quantities x ≤ c)
    (hsafe : SeqSafe gs ds) :
    (∀ r, (tickSeq gs ds).inventory.quantities r
      = gs.inventory.quantities r + seqReportDelta gs ds r) ∧
    (tickSeq gs ds).inventory.capacities = gs.inventory.capacities := by
  induction ds generalizing gs with
  | nil =>
      refine ⟨fun r => ?_, rfl⟩
      show gs.inventory.quantities r = gs.inventory.quantities r + 0
      ring
  | cons dt ds ih =>
      obtain ⟨hh, hrest⟩ := hsafe
      obtain ⟨g1, g2, g3, g4⟩ := gameTick_conserves gs dt hq0 hwc hh
      obtain ⟨i1, i2⟩ := ih (gs.tick dt) g3 g4 hrest
      refine ⟨fun r => ?_, ?_⟩
      · show (tickSeq (gs.tick dt) ds).inventory.quantities r
          = gs.inventory.quantities r
            + (stateReportDelta (gs.tick dt) r + seqReportDelta (gs.tick dt) ds r)
        rw [i1 r, g1 r]
        ring
      · show (tickSeq (gs.tick dt) ds).inventory.capacities = gs.inventory.capacities
        rw [i2, g2]

/-- C4 counterexample: the orchestrator destroys resources outside every
defined transformation.  On a state holding 100 stray wood and no woodcutter
camp (as a loaded save leaves it), a single tick — no construction, no
demolition, no trade, no building report — zeroes the `WOOD` ledger entry:
`_recompute_wood_state_locked` truncates the stock to `50 * built = 0`, a
destruction of 100 units far beyond any floating-point tolerance. -/
theorem tick_destroys_stray_wood :
    gsC4x.inventory.quantities "WOOD" = 100 ∧
    seqReportDelta gsC4x [1] "WOOD" = 0 ∧
    (tickSeq gsC4x [1]).inventory.quantities "WOOD" = 0 := by
  have hch : ∀ c ∈ gsC4x.channels, c.mode = "pause" := by
    intro c hc
    exact absurd hc (List.not_mem_nil c)
  have hnw : ∀ b ∈ gsC4x.buildings, b.type_key ≠ WOODCUTTER_CAMP := by
    intro b hb
    exact absurd hb (List.not_mem_nil b)
  have htick : gsC4x.tick 1 = ({ gsC4x with
      inventory := gsC4x.inventory,
      buildings := [],
      season_clock := gsC4x.season_clock.update (max 0 1),
      notifications := gsC4x.notifications } : GameState).recomputeWoodState.1 := by
    rw [tick_paused_no_woodcutter gsC4x 1 hch hnw]
    rfl
  have hnw' : ∀ b ∈ ({ gsC4x with
      inventory := gsC4x.inventory,
      buildings := [],
      season_clock := gsC4x.season_clock.update (max 0 1),
      notifications := gsC4x.notifications } : GameState).buildings,
      b.type_key ≠ WOODCUTTER_CAMP := by
    intro b hb
    exact absurd hb (List.not_mem_nil b)
  have hbs : (gsC4x.tick 1).buildings = [] := by
    rw [htick, recompute_buildings_no_woodcutter _ hnw']
  have hW : ({ gsC4x with
      inventory := gsC4x.inventory,
      buildings := [],
      season_clock := gsC4x.season_clock.update (max 0 1),
      notifications := gsC4x.notifications } : GameState).recomputeWoodState.1.inventory.quantities
        "WOOD" = 0 := by
    simp only [GameState.recomputeWoodState, GameState.getBuildingByType]
    norm_num [gsC4x, gsC8, clockC8, mkInventory, amountOf, Inventory.getCapacity,
      Inventory.getAmount, Inventory.setAmount, Inventory.setCapacity, eps9,
      updateFirst, List.find?]
  refine ⟨?_, ?_, ?_⟩
  · norm_num [gsC4x, mkInventory, amountOf]
  · show stateReportDelta (gsC4x.tick 1) "WOOD" + seqReportDelta (gsC4x.tick 1) [] "WOOD" = 0
    have h1 : stateReportDelta (gsC4x.tick 1) "WOOD" = 0 := by
      unfold stateReportDelta
      rw [hbs]
      rfl
    have h2 : seqReportDelta (gsC4x.tick 1) [] "WOOD" = 0 := rfl
    rw [h1, h2]
    norm_num
  · show (gsC4x.tick 1).inventory.quantities "WOOD" = 0
    rw [htick]
    exact hW

/-- Witness for C4: a two-tick sequence (16 s then 0 s) on the stone-workshop
state moves every ledger quantity by exactly the reported three executed
cycles (6 stone debited, 3 planks credited) and leaves the capacities
untouched. -/
theorem tick_sequence_conserves_witness :
    (∀ r, (tickSeq gsC8 [16, 0]).inventory.quantities r
        = gsC8.inventory.quantities r + seqReportDelta gsC8 [16, 0] r) ∧
    (tickSeq gsC8 [16, 0]).inventory.capacities = gsC8.inventory.capacities := by
  have hmax : max (0:ℚ) 16 = 16 := by norm_num
  have hmax0 : max (0:ℚ) 0 = 0 := max_self 0
  have hq0i : ∀ x, 0 ≤ invC8.quantities x := by
    intro x
    simp only [invC8, mkInventory, amountOf]
    split <;> norm_num
  have hwci : ∀ (x : Resource) (c : ℚ), invC8.capacities x = some c
      → invC8.quantities x ≤ c := by
    intro x c hc
    simp [invC8, mkInventory, List.find?] at hc
  have hch : ∀ c ∈ gsC8.channels, c.mode = "pause" := by
    intro c hc
    exact absurd hc (List.not_mem_nil c)
  have hnw : ∀ b ∈ gsC8.buildings, b.type_key ≠ WOODCUTTER_CAMP := by
    intro b hb
    simp only [gsC8, List.mem_cons, List.not_mem_nil, or_false] at hb
    subst hb
    simp [stoneHut, WOODCUTTER_CAMP]
  have hwid : (gsC8.getBuildingByType WOODCUTTER_CAMP).map Building.id = none := by
    simp [GameState.getBuildingByType, gsC8, List.find?, stoneHut, WOODCUTTER_CAMP]
  have hmods : (gsC8.season_clock.update (max 0 16)).getModifiers stoneHut.type_key
      = [1, 1] := by
    rw [hmax]
    show (clockC8.update 16).getModifiers "stone_hut" = [1, 1]
    have hupd : clockC8.update 16 = { clockC8 with tick_within_season := 16 } := by
      unfold SeasonClock.update
      rw [if_neg (by norm_num)]
      rw [if_neg (by norm_num [clockC8])]
      norm_num [clockC8]
    rw [hupd]
    simp [SeasonClock.getModifiers, SeasonClock.currentSeason, lookupSeason, getD,
      clockC8, List.find?]
  -- the first tick in closed form
  have hcomb : cycleCombined stoneHut = [("STONE", (2:ℚ))] := by
    show combineResources [("STONE", (2:ℚ))] [] = _
    norm_num [combineResources, addToMap]
  obtain ⟨o1, o2, o3, o4, o5, o6, o7, o8⟩ :=
    tick_discrete_produced stoneHut 16 invC8 [1, 1] [] 3
      (by norm_num [Building.inactiveReason, Building.maxWorkers,
        Building.builtMultiplier, stoneHut, stoneRecipe])
      (by norm_num [truthyRates, stoneHut, stoneRecipe])
      (by norm_num [Building.effectiveRate, Building.maxWorkers,
        Building.builtMultiplier, modMultiplier, stoneHut, stoneRecipe])
      (by norm_num [Building.effectiveRate, Building.maxWorkers,
        Building.builtMultiplier, modMultiplier, stoneHut, stoneRecipe])
      (by norm_num)
      hq0i
      (by
        intro x
        have hcc : amountOf (cycleCombined stoneHut) x
            = posAmountOf [("STONE", (2:ℚ))] x + posAmountOf ([] : ResMap) x :=
          amountOf_combineResources _ _ x
        rw [hcc]
        by_cases h : ("STONE" : Resource) = x
        · norm_num [posAmountOf, invC8, mkInventory, amountOf, if_pos h, h]
        · norm_num [posAmountOf, invC8, mkInventory, amountOf, if_neg h, h])
      (by
        intro p hp
        simp only [stoneHut, stoneRecipe, List.mem_cons, List.not_mem_nil,
          or_false] at hp
        subst hp
        norm_num)
      (by
        intro x c hc
        simp [invC8, mkInventory, List.find?] at hc)
  have htf : tickFold gsC8 16
      = ([(stoneHut.tick 16 invC8 [1, 1] []).b],
        (stoneHut.tick 16 invC8 [1, 1] []).inv,
        (stoneHut.tick 16 invC8 [1, 1] []).notes) := by
    unfold tickFold
    rw [show gsC8.buildings = [stoneHut] from rfl]
    simp only [List.foldl_cons, List.foldl_nil]
    rw [hwid]
    rw [if_neg (fun hc => Option.noConfusion hc)]
    rw [show gsC8.season_clock = clockC8 from rfl] at hmods ⊢
    rw [hmods, hmax]
    rfl
  have hoW : (stoneHut.tick 16 invC8 [1, 1] []).inv.quantities "WOOD" = 0 := by
    rw [o5 "WOOD", hcomb]
    norm_num [invC8, mkInventory, amountOf, posAmountOf, stoneHut, stoneRecipe]
  have hwq16 : (tickFold gsC8 16).2.1.quantities "WOOD" = 0 := by
    rw [htf]
    exact hoW
  -- safety of the first tick
  have hts16 : TickSafe stoneHut (max 0 16) invC8
      ((gsC8.season_clock.update (max 0 16)).getModifiers stoneHut.type_key) := by
    refine ⟨by simp [stoneHut, stoneRecipe], by simp [stoneHut, stoneRecipe],
      by simp [stoneHut, stoneRecipe], ?_⟩
    rw [if_neg (show ¬ truthyRates stoneHut.recipe.per_worker_output_rate = true by
      norm_num [truthyRates, stoneHut, stoneRecipe])]
    have hpend : pendingCycles stoneHut (max 0 16)
        ((gsC8.season_clock.update (max 0 16)).getModifiers stoneHut.type_key) = 3 := by
      unfold pendingCycles
      rw [hmods, hmax]
      norm_num [Building.effectiveRate, Building.maxWorkers,
        Building.builtMultiplier, modMultiplier, stoneHut, stoneRecipe]
      rfl
    rw [hpend]
    have hq98 : ∀ x, (postCycleInv stoneHut.recipe invC8).quantities x
        = invC8.quantities x + (posAmountOf [("PLANK", (1:ℚ))] x
          - posAmountOf [("STONE", (2:ℚ))] x) := by
      intro x
      show invC8.quantities x + (posAmountOf stoneHut.recipe.outputs x
        - posAmountOf (combineResources stoneHut.recipe.inputs
            stoneHut.recipe.maintenance) x) = _
      rw [show combineResources stoneHut.recipe.inputs stoneHut.recipe.maintenance
        = [("STONE", (2:ℚ))] from hcomb]
      rfl
    refine ⟨?_, ?_, ?_, trivial⟩
    · intro _ p hp
      rw [show combineResources stoneHut.recipe.inputs stoneHut.recipe.maintenance
        = [("STONE", (2:ℚ))] from hcomb] at hp
      simp only [List.mem_cons, List.not_mem_nil, or_false] at hp
      subst hp
      show (2:ℚ) ≤ invC8.quantities "STONE"
      norm_num [invC8, mkInventory, amountOf]
    · intro _ p hp
      rw [show combineResources stoneHut.recipe.inputs stoneHut.recipe.maintenance
        = [("STONE", (2:ℚ))] from hcomb] at hp
      simp only [List.mem_cons, List.not_mem_nil, or_false] at hp
      subst hp
      show (2:ℚ) ≤ (postCycleInv stoneHut.recipe invC8).quantities "STONE"
      rw [hq98 "STONE"]
      norm_num [invC8, mkInventory, amountOf, posAmountOf]
    · intro _ p hp
      rw [show combineResources stoneHut.recipe.inputs stoneHut.recipe.maintenance
        = [("STONE", (2:ℚ))] from hcomb] at hp
      simp only [List.mem_cons, List.not_mem_nil, or_false] at hp
      subst hp
      show (2:ℚ) ≤ (postCycleInv stoneHut.recipe
        (postCycleInv stoneHut.recipe invC8)).quantities "STONE"
      have hq96 : ∀ x, (postCycleInv stoneHut.recipe
          (postCycleInv stoneHut.recipe invC8)).quantities x
          = (postCycleInv stoneHut.recipe invC8).quantities x
            + (posAmountOf [("PLANK", (1:ℚ))] x - posAmountOf [("STONE", (2:ℚ))] x) := by
        intro x
        show (postCycleInv stoneHut.recipe invC8).quantities x
          + (posAmountOf stoneHut.recipe.outputs x
            - posAmountOf (combineResources stoneHut.recipe.inputs
                stoneHut.recipe.maintenance) x) = _
        rw [show combineResources stoneHut.recipe.inputs stoneHut.recipe.maintenance
          = [("STONE", (2:ℚ))] from hcomb]
        rfl
      rw [hq96 "STONE", hq98 "STONE"]
      norm_num [invC8, mkInventory, amountOf, posAmountOf]
  -- the state after the first tick, in closed form
  have ht16 : gsC8.tick 16 = ({ gsC8 with
      inventory := (stoneHut.tick 16 invC8 [1, 1] []).inv,
      buildings := [(stoneHut.tick 16 invC8 [1, 1] []).b],
      season_clock := gsC8.season_clock.update (max 0 16),
      notifications := (stoneHut.tick 16 invC8 [1, 1] []).notes } :
        GameState).recomputeWoodState.1 := by
    rw [tick_paused_no_woodcutter gsC8 16 hch hnw, htf]
  have htk1 : (stoneHut.tick 16 invC8 [1, 1] []).b.type_key = "stone_hut" :=
    tick_type_key stoneHut 16 invC8 [1, 1] []
  have hrec1 : (stoneHut.tick 16 invC8 [1, 1] []).b.recipe = stoneRecipe :=
    tick_recipe stoneHut 16 invC8 [1, 1] []
  have hprog1 : (stoneHut.tick 16 invC8 [1, 1] []).b.cycle_progress = 0 := by
    rw [o7]
    norm_num [Building.effectiveRate, Building.maxWorkers, Building.builtMultiplier,
      modMultiplier, stoneHut, stoneRecipe]
  have hnw16 : ∀ b ∈ ({ gsC8 with
      inventory := (stoneHut.tick 16 invC8 [1, 1] []).inv,
      buildings := [(stoneHut.tick 16 invC8 [1, 1] []).b],
      season_clock := gsC8.season_clock.update (max 0 16),
      notifications := (stoneHut.tick 16 invC8 [1, 1] []).notes } :
        GameState).buildings, b.type_key ≠ WOODCUTTER_CAMP := by
    intro b hb
    have hb' : b ∈ [(stoneHut.tick 16 invC8 [1, 1] []).b] := hb
    simp only [List.mem_singleton] at hb'
    subst hb'
    rw [htk1]
    simp [WOODCUTTER_CAMP]
  have hcapW16 : (stoneHut.tick 16 invC8 [1, 1] []).inv.capacities "WOOD" = none := by
    rw [o6]
    rfl
  have hrecb16 := recompute_buildings_no_woodcutter _ hnw16
  have hrecinv16 := recompute_inventory_noop _ hnw16 hcapW16 hoW
  have hb1 : (gsC8.tick 16).buildings = [(stoneHut.tick 16 invC8 [1, 1] []).b] := by
    rw [ht16, hrecb16]
  have hi1 : (gsC8.tick 16).inventory = (stoneHut.tick 16 invC8 [1, 1] []).inv := by
    rw [ht16, hrecinv16]
  have hch2 : ∀ c ∈ (gsC8.tick 16).channels, c.mode = "pause" := by
    have hceq : (gsC8.tick 16).channels = [] := by
      rw [ht16]
      rfl
    intro c hc
    rw [hceq] at hc
    exact absurd hc (List.not_mem_nil c)
  have hnw2 : ∀ b ∈ (gsC8.tick 16).buildings, b.type_key ≠ WOODCUTTER_CAMP := by
    intro b hb
    rw [hb1] at hb
    simp only [List.mem_singleton] at hb
    subst hb
    rw [htk1]
    simp [WOODCUTTER_CAMP]
  have hcap2 : (gsC8.tick 16).inventory.capacities "WOOD" = none := by
    rw [hi1, o6]
    rfl
  have hwid2 : ((gsC8.tick 16).getBuildingByType WOODCUTTER_CAMP).map Building.id
      = none := by
    unfold GameState.getBuildingByType
    rw [hb1]
    have hfind : List.find? (fun b => decide (b.type_key = WOODCUTTER_CAMP))
        [(stoneHut.tick 16 invC8 [1, 1] []).b] = none := by
      rw [List.find?_eq_none]
      intro x hx
      simp only [List.mem_singleton] at hx
      subst hx
      simp [htk1, WOODCUTTER_CAMP]
    rw [hfind]
    rfl
  have hpend2 : ⌊(stoneHut.tick 16 invC8 [1, 1] []).b.cycle_progress
      / (stoneHut.tick 16 invC8 [1, 1] []).b.recipe.cycle_time⌋ ≤ 0 := by
    rw [hprog1, zero_div]
    simp
  have htf0 : (tickFold (gsC8.tick 16) 0).2.1 = (gsC8.tick 16).inventory := by
    unfold tickFold
    rw [hb1]
    simp only [List.foldl_cons, List.foldl_nil]
    rw [hwid2, if_neg (fun hc => Option.noConfusion hc)]
    show ((stoneHut.tick 16 invC8 [1, 1] []).b.tick (max 0 0)
      (gsC8.tick 16).inventory
      (((gsC8.tick 16).season_clock.update (max 0 0)).getModifiers
        (stoneHut.tick 16 invC8 [1, 1] []).b.type_key)
      (gsC8.tick 16).notifications).inv = (gsC8.tick 16).inventory
    rw [hmax0]
    exact building_tick_zero_inv _ _ _ _ hpend2
  have hwq2 : (tickFold (gsC8.tick 16) 0).2.1.quantities "WOOD" = 0 := by
    rw [htf0, hi1]
    exact hoW
  have hfs2 : FoldSafe
      (fun b => ((gsC8.tick 16).season_clock.update (max 0 0)).getModifiers b.type_key)
      (max 0 0) (gsC8.tick 16).buildings (gsC8.tick 16).inventory
      (gsC8.tick 16).notifications := by
    rw [hb1]
    refine ⟨⟨?_, ?_, ?_, ?_⟩, trivial⟩
    · rw [hrec1]
      simp [stoneRecipe]
    · rw [hrec1]
      simp [stoneRecipe]
    · rw [hrec1]
      simp [stoneRecipe]
    · rw [if_neg (show ¬ truthyRates
        (stoneHut.tick 16 invC8 [1, 1] []).b.recipe.per_worker_output_rate = true by
          rw [hrec1]
          norm_num [truthyRates, stoneRecipe])]
      have hp0 : pendingCycles (stoneHut.tick 16 invC8 [1, 1] []).b (max 0 0)
          ((fun b => ((gsC8.tick 16).season_clock.update (max 0 0)).getModifiers
            b.type_key) (stoneHut.tick 16 invC8 [1, 1] []).b) = 0 := by
        unfold pendingCycles
        rw [hmax0, hprog1, zero_mul, add_zero, zero_div]
        simp
      rw [hp0]
      trivial
  exact tick_sequence_conserves gsC8 [16, 0] hq0i hwci
    ⟨⟨hch, hnw, rfl, hwq16, ⟨hts16, trivial⟩⟩,
      ⟨hch2, hnw2, hcap2, hwq2, hfs2⟩, trivial⟩

end Kingdom
